import Mathlib

/-!
Job distributor: proposal, job and node lifecycle.

A shallow embedding of the job-distributor service
(`internal/server/server.go`, `internal/storage/storage.go`,
`internal/chainlink/client.go`) and proofs about it.

Conventions of the embedding:

* Go strings are modelled by `String` (sequences of Unicode scalar values; byte
  strings that are not valid UTF-8 are outside the model); the `strings`
  functions used by the source are written over `List Char`.
* A method that mutates its receiver returns the receiver as it is afterwards.
* What the code consults outside itself is passed in: the wall clock as the
  sequence of its readings, the network as the sequence of the outcomes of
  `HTTPClient.Do`, the order of each `range` loop over a map as a list of
  choices. Statements are quantified over all of them.
* `doRequest` calls itself with no bound in the source. Here it carries a bound
  on the depth of the recursion and returns `none` when the bound is too small;
  so do the functions that call it. A call returns in the source exactly when
  some bound makes it return here.
* Integers are unbounded; where the code computes in `int64`, in the conversion
  of a timestamp to a time, the wrap is explicit.
* The mutexes are left out: calls are taken one after the other.
-/

namespace JobDistributor

/-! ## The `strings` functions used by the source -/

/-- The predicate `unicode.IsSpace`, used by `strings.TrimSpace`. -/
def isSpace (c : Char) : Bool :=
  let n := c.toNat
  (9 ≤ n && n ≤ 13) || n == 32 || n == 0x85 || n == 0xA0 || n == 0x1680 ||
  (0x2000 ≤ n && n ≤ 0x200A) || n == 0x2028 || n == 0x2029 || n == 0x202F ||
  n == 0x205F || n == 0x3000

/-- The function `strings.Split(s, sep)` for a separator of one character. -/
def Split (sep : Char) : List Char → List (List Char)
  | [] => [[]]
  | c :: cs =>
    if c = sep then [] :: Split sep cs
    else
      match Split sep cs with
      | [] => [[c]]
      | l :: ls => (c :: l) :: ls

/-- The function `strings.TrimFunc(s, f)`: `s` without the leading and the
trailing characters that satisfy `f`. -/
def TrimFunc (f : Char → Bool) (s : List Char) : List Char :=
  ((s.dropWhile f).reverse.dropWhile f).reverse

/-- The function `strings.TrimSpace`. -/
def TrimSpace (s : List Char) : List Char := TrimFunc isSpace s

/-- The function `strings.Trim(s, cutset)`. -/
def Trim (s cutset : List Char) : List Char := TrimFunc (fun c => cutset.contains c) s

/-- The function `strings.HasPrefix(s, p)`. -/
def HasPrefix (s p : List Char) : Bool := p.isPrefixOf s

/-- The function `strings.Contains(s, substr)`. -/
def Contains : List Char → List Char → Bool
  | [], sub => sub.isEmpty
  | c :: cs, sub => sub.isPrefixOf (c :: cs) || Contains cs sub

/-! ## Job specifications (`client.go`, utility methods) -/

/-- The loop of `ExtractJobIDFromTOML` over the lines of the spec. -/
def scanLines : List (List Char) → List Char
  | [] => []
  | line :: rest =>
    if HasPrefix (TrimSpace line) "externalJobID".toList then
      match Split '=' (TrimSpace line) with
      | _ :: p1 :: _ => Trim (TrimSpace p1) [Char.ofNat 34, Char.ofNat 39]
      | _ => scanLines rest
    else scanLines rest

/-- ExtractJobIDFromTOML extracts the externalJobID from a TOML job spec. -/
def ExtractJobIDFromTOML (tomlSpec : String) : String :=
  String.mk (scanLines (Split '\n' tomlSpec.toList))

/-- ValidateJobSpec validates a TOML job specification: `none` is the nil error. -/
def ValidateJobSpec (tomlSpec : String) : Option String :=
  if tomlSpec = "" then some "job spec cannot be empty"
  else
    (["type", "schemaVersion"].find? (fun field => !Contains tomlSpec.toList field.toList)).map
      (fun field => "job spec missing required field: " ++ field)

/-! ## Go maps

A `map[string]*T` is a finite list of entries with pairwise distinct keys.
The order of the list is a matter of representation only: a `range` loop
visits the entries in an order that the language leaves unspecified, here
chosen by a list of numbers supplied from outside (`rangeOrder`). -/

/-- The writes `m[k] = v` on the list of entries: an existing key is rebound. -/
def setEntry {V : Type} (k : String) (v : V) : List (String × V) → List (String × V)
  | [] => [(k, v)]
  | e :: es => if e.1 = k then (k, v) :: es else e :: setEntry k v es

/-- A Go map with string keys. -/
structure GoMap (V : Type) where
  entries : List (String × V)
  nodup : (entries.map Prod.fst).Nodup

namespace GoMap

variable {V : Type}

/-- Two maps are equal when their entries are. -/
instance [DecidableEq V] : DecidableEq (GoMap V) := fun a b =>
  if h : a.entries = b.entries then isTrue (by cases a; cases b; cases h; rfl)
  else isFalse (fun h2 => h (h2 ▸ rfl))

/-- The empty map, `make(map[string]*T)`. -/
def empty : GoMap V := ⟨[], List.nodup_nil⟩

/-- The lookup `m[k]`; `none` is the nil pointer of an absent key. -/
def get? (m : GoMap V) (k : String) : Option V :=
  (m.entries.find? (fun e => e.1 == k)).map Prod.snd

/-- The assignment `m[k] = v`. -/
def set (m : GoMap V) (k : String) (v : V) : GoMap V :=
  ⟨setEntry k v m.entries, by
    have keys : ∀ (es : List (String × V)) (x : String),
        x ∈ (setEntry k v es).map Prod.fst → x = k ∨ x ∈ es.map Prod.fst := by
      intro es
      induction es with
      | nil => intro x hx; simp [setEntry] at hx; exact Or.inl hx
      | cons d es ih =>
        intro x hx
        by_cases hd : d.1 = k
        · simp only [setEntry, hd, if_true, List.map_cons, List.mem_cons] at hx
          rcases hx with hx | hx
          · exact Or.inl hx
          · exact Or.inr (List.mem_cons_of_mem _ hx)
        · simp only [setEntry, hd, if_false, List.map_cons, List.mem_cons] at hx
          rcases hx with hx | hx
          · exact Or.inr (hx ▸ List.mem_cons_self _ _)
          · rcases ih x hx with h1 | h1
            · exact Or.inl h1
            · exact Or.inr (List.mem_cons_of_mem _ h1)
    have distinct : ∀ es : List (String × V), (es.map Prod.fst).Nodup →
        ((setEntry k v es).map Prod.fst).Nodup := by
      intro es
      induction es with
      | nil => intro _; simp [setEntry]
      | cons e es ih =>
        intro h
        rw [List.map_cons, List.nodup_cons] at h
        by_cases he : e.1 = k
        · simp only [setEntry, he, if_true, List.map_cons, List.nodup_cons]
          exact ⟨he ▸ h.1, h.2⟩
        · simp only [setEntry, he, if_false, List.map_cons, List.nodup_cons]
          refine ⟨fun hm => ?_, ih h.2⟩
          rcases keys es e.1 hm with h1 | h1
          · exact he h1
          · exact h.1 h1
    exact distinct m.entries m.nodup⟩

/-- The statement `delete(m, k)`. -/
def delete (m : GoMap V) (k : String) : GoMap V :=
  ⟨m.entries.filter (fun e => !(e.1 == k)),
    ((List.filter_sublist m.entries).map Prod.fst).nodup m.nodup⟩

/-- The values of the map, in the order of the representation. -/
def values (m : GoMap V) : List V := m.entries.map Prod.snd

end GoMap

/-- The order in which a `range` loop visits a list of map entries, chosen by
`choices`: each number selects, by rotation, which of the entries not yet
visited comes next. -/
def rangeOrder {α : Type} : List Nat → List α → List α
  | [], xs => xs
  | c :: cs, xs =>
    match xs.rotate c with
    | [] => []
    | x :: rest => x :: rangeOrder cs rest

/-! ## Time -/

/-- A `time.Time` without monotonic reading, which holds whole seconds and the
nanoseconds within the second: kept as the number of nanoseconds from the Unix
epoch to the instant, so that the order of the numbers is the order in which
`After` compares seconds, then nanoseconds. -/
structure Time where
  unixNano : Int
  deriving DecidableEq, Repr

/-- The method `Time.Unix`: whole seconds since the epoch. -/
def Time.Unix (t : Time) : Int := t.unixNano / 1000000000

/-- The method `Time.Nanosecond`: the nanosecond offset within the second. -/
def Time.Nanosecond (t : Time) : Int := t.unixNano % 1000000000

/-- The method `Time.After`. -/
def Time.After (t u : Time) : Bool := decide (u.unixNano < t.unixNano)

/-- The conversion to `int64`: the two's-complement wrap of an integer. -/
def int64 (x : Int) : Int :=
  (x + 9223372036854775808) % 18446744073709551616 - 9223372036854775808

/-- The conversion to `int32`. -/
def int32 (x : Int) : Int := (x + 2147483648) % 4294967296 - 2147483648

/-- The function `unixTime(sec, nsec)` of package `time`: the time whose
seconds since year 1 are `sec + 62135596800`, computed in `int64`. -/
def unixTime (sec nsec : Int) : Time :=
  ⟨(int64 (sec + 62135596800) - 62135596800) * 1000000000 + nsec⟩

/-- The function `time.Unix(sec, nsec)`: nanoseconds outside `[0, 1e9)` are
carried into the seconds, in `int64`; the division truncates as Go's does. -/
def timeUnix (sec nsec : Int) : Time :=
  if nsec < 0 ∨ 1000000000 ≤ nsec then
    if nsec - Int.tdiv nsec 1000000000 * 1000000000 < 0 then
      unixTime (int64 (int64 (sec + Int.tdiv nsec 1000000000) - 1))
        (nsec - Int.tdiv nsec 1000000000 * 1000000000 + 1000000000)
    else
      unixTime (int64 (sec + Int.tdiv nsec 1000000000))
        (nsec - Int.tdiv nsec 1000000000 * 1000000000)
  else unixTime sec nsec

/-- A protobuf `timestamppb.Timestamp`: `seconds` is an `int64` field and
`nanos` an `int32` field. -/
structure Timestamp where
  seconds : Int
  nanos : Int
  deriving DecidableEq, Repr

/-- The function `timestamppb.New`. -/
def Timestamp.New (t : Time) : Timestamp := ⟨t.Unix, t.Nanosecond⟩

/-- The method `Timestamp.AsTime`: `time.Unix(int64(seconds), int64(nanos))`. -/
def Timestamp.AsTime (x : Timestamp) : Time := timeUnix (int64 x.seconds) (int32 x.nanos)

/-- The method `Timestamp.IsValid`: the seconds lie between 0001-01-01 and
9999-12-31 and the nanoseconds in `[0, 1e9)`. -/
def Timestamp.IsValid (x : Timestamp) : Bool :=
  decide (-62135596800 ≤ x.seconds) && decide (x.seconds ≤ 253402300799) &&
    decide (0 ≤ x.nanos) && decide (x.nanos < 1000000000)

/-- The wall clock: `now i` is what the `i`-th call of `time.Now()` returns,
`tick` counts the calls made so far. -/
structure Clock where
  now : Nat → Time
  tick : Nat

/-- The call `time.Now()`. -/
def Clock.Now (c : Clock) : Time × Clock := (c.now c.tick, { c with tick := c.tick + 1 })

/-- The call `timestamppb.Now()`. -/
def Clock.timestampNow (c : Clock) : Timestamp × Clock :=
  (Timestamp.New c.Now.1, c.Now.2)

/-- The choices that order the `range` loops over maps: `order i` drives the
`i`-th loop, `ranges` counts the loops run so far. -/
structure Iter where
  order : Nat → List Nat
  ranges : Nat

/-- The entries of a map in the order of the next `range` loop. -/
def Iter.range {V : Type} (it : Iter) (m : GoMap V) : List (String × V) × Iter :=
  (rangeOrder (it.order it.ranges) m.entries, { it with ranges := it.ranges + 1 })

/-! ## Protobuf messages (the fields the service reads or writes) -/

/-- The status of a proposal (`jobv1.ProposalStatus`). -/
inductive ProposalStatus where
  | UNSPECIFIED | PENDING | APPROVED | REJECTED | REVOKED
  deriving DecidableEq, Repr

/-- The delivery status of a proposal (`jobv1.ProposalDeliveryStatus`). -/
inductive ProposalDeliveryStatus where
  | UNSPECIFIED | DELIVERED
  deriving DecidableEq, Repr

/-- A label (`ptypes.Label`). -/
structure Label where
  Key : String
  Value : Option String
  deriving DecidableEq, Repr

/-- One attempt to deliver a job spec to one node (`jobv1.Proposal`). -/
structure Proposal where
  Id : String
  JobId : String
  Spec : String
  Status : ProposalStatus
  DeliveryStatus : ProposalDeliveryStatus
  CreatedAt : Timestamp
  UpdatedAt : Timestamp
  deriving DecidableEq, Repr

/-- The record of a spec delivered to a node (`jobv1.Job`). -/
structure Job where
  Id : String
  Uuid : String
  NodeId : String
  ProposalIds : List String
  Labels : List Label
  CreatedAt : Timestamp
  UpdatedAt : Timestamp
  deriving DecidableEq, Repr

/-- The record of a registered node (`nodev1.Node`). -/
structure Node where
  Id : String
  Name : String
  PublicKey : String
  Labels : List Label
  IsConnected : Bool
  IsEnabled : Bool
  CreatedAt : Timestamp
  UpdatedAt : Timestamp
  deriving DecidableEq, Repr

/-- A CSA keypair (`csav1.Keypair`). -/
structure Keypair where
  PublicKey : String
  deriving DecidableEq, Repr

/-- The filter of ListJobs. -/
structure ListJobsRequest_Filter where
  Ids : List String
  NodeIds : List String
  deriving DecidableEq, Repr

/-- The filter of ListProposals. -/
structure ListProposalsRequest_Filter where
  JobIds : List String
  deriving DecidableEq, Repr

/-- The filter of ListNodes. -/
structure ListNodesRequest_Filter where
  Ids : List String
  deriving DecidableEq, Repr

/-! ## Storage (`internal/storage/storage.go`) -/

/-- Storage provides in-memory storage for Job Distributor data. -/
structure Storage where
  jobs : GoMap Job
  proposals : GoMap Proposal
  nodes : GoMap Node
  deriving DecidableEq

/-- NewStorage creates a new storage instance. -/
def NewStorage : Storage := ⟨GoMap.empty, GoMap.empty, GoMap.empty⟩

namespace Storage

/-- StoreJob stores a job. -/
def StoreJob (s : Storage) (job : Job) : Storage :=
  { s with jobs := s.jobs.set job.Id job }

/-- GetJob retrieves a job by ID. -/
def GetJob (s : Storage) (id : String) : Option Job := s.jobs.get? id

/-- jobMatchesFilter checks if a job matches the given filter. -/
def jobMatchesFilter (job : Job) : Option ListJobsRequest_Filter → Bool
  | none => true
  | some filter =>
    if 0 < filter.NodeIds.length && !(filter.NodeIds.any (fun nodeID => job.NodeId == nodeID)) then
      false
    else if 0 < filter.Ids.length && !(filter.Ids.any (fun id => job.Id == id)) then
      false
    else
      true

/-- ListJobs returns all jobs matching the filter. -/
def ListJobs (s : Storage) (it : Iter) (filter : Option ListJobsRequest_Filter) :
    List Job × Iter :=
  (((it.range s.jobs).1.map Prod.snd).filter (fun job => jobMatchesFilter job filter),
    (it.range s.jobs).2)

/-- DeleteJob removes a job by ID. -/
def DeleteJob (s : Storage) (id : String) : Storage :=
  { s with jobs := s.jobs.delete id }

/-- StoreProposal stores a proposal. -/
def StoreProposal (s : Storage) (proposal : Proposal) : Storage :=
  { s with proposals := s.proposals.set proposal.Id proposal }

/-- GetProposal retrieves a proposal by ID. -/
def GetProposal (s : Storage) (id : String) : Option Proposal := s.proposals.get? id

/-- proposalMatchesFilter checks if a proposal matches the given filter. -/
def proposalMatchesFilter (proposal : Proposal) : Option ListProposalsRequest_Filter → Bool
  | none => true
  | some filter =>
    if 0 < filter.JobIds.length && !(filter.JobIds.any (fun jobID => proposal.JobId == jobID)) then
      false
    else
      true

/-- ListProposals returns all proposals matching the filter. The result is a
slice of pointers into the map: each is given as the key of the entry it points
to, with the proposal found there. -/
def ListProposals (s : Storage) (it : Iter) (filter : Option ListProposalsRequest_Filter) :
    List (String × Proposal) × Iter :=
  ((it.range s.proposals).1.filter (fun e => proposalMatchesFilter e.2 filter),
    (it.range s.proposals).2)

/-- A write through a pointer obtained from `ListProposals`: the proposal held
by the entry under `key` becomes `proposal`. -/
def writeProposal (s : Storage) (key : String) (proposal : Proposal) : Storage :=
  { s with proposals := s.proposals.set key proposal }

/-- StoreNode stores a node. -/
def StoreNode (s : Storage) (node : Node) : Storage :=
  { s with nodes := s.nodes.set node.Id node }

/-- GetNode retrieves a node by ID. -/
def GetNode (s : Storage) (id : String) : Option Node := s.nodes.get? id

/-- GetNodeByCSAKey retrieves a node by CSA public key. -/
def GetNodeByCSAKey (s : Storage) (it : Iter) (publicKey : String) : Option Node × Iter :=
  ((((it.range s.nodes).1.map Prod.snd).find? (fun node => node.PublicKey == publicKey)),
    (it.range s.nodes).2)

/-- NodeExists checks if a node exists. -/
def NodeExists (s : Storage) (id : String) : Bool := (s.nodes.get? id).isSome

/-- nodeMatchesFilter checks if a node matches the given filter. -/
def nodeMatchesFilter (node : Node) : Option ListNodesRequest_Filter → Bool
  | none => true
  | some filter =>
    if 0 < filter.Ids.length && !(filter.Ids.any (fun id => node.Id == id)) then
      false
    else
      true

/-- ListNodes returns all nodes matching the filter. -/
def ListNodes (s : Storage) (it : Iter) (filter : Option ListNodesRequest_Filter) :
    List Node × Iter :=
  (((it.range s.nodes).1.map Prod.snd).filter (fun node => nodeMatchesFilter node filter),
    (it.range s.nodes).2)

end Storage

/-! ## The node client (`internal/chainlink/client.go`) -/

/-- The value a request body is marshalled from. `drained` is a reader whose
bytes an earlier attempt has already sent. -/
inductive Payload where
  | nil
  | SessionRequest (Email Password : String)
  | LoginRequest (Email Password : String)
  | CreateJobRequest (TOML : String)
  | drained
  deriving DecidableEq, Repr

/-- What a reader holds after the transport has sent its bytes. -/
def Payload.afterSend : Payload → Payload
  | Payload.nil => Payload.nil
  | _ => Payload.drained

/-- An outgoing `http.Request` as `doRequest` builds it. -/
structure Request where
  Method : String
  URL : String
  Header : List (String × String)
  Cookie : Option String
  BasicAuth : Option (String × String)
  Body : Payload
  deriving DecidableEq, Repr

/-- An incoming `http.Response`: status code, the cookies of `resp.Cookies()`
as name and value, and what `io.ReadAll(resp.Body)` returns. -/
structure Response where
  StatusCode : Nat
  Cookies : List (String × String)
  Body : String
  ReadErr : Option String
  deriving DecidableEq, Repr

/-- The job a node reports (`ChainlinkJob`); the service reads its ID only. -/
structure ChainlinkJob where
  ID : String
  deriving DecidableEq, Repr

/-- The network and the library calls around it. `roundTrip i req` is the
outcome of the `i`-th call of `HTTPClient.Do`, `sent` counts the calls made so
far; `newRequestErr method url` is the error of `http.NewRequestWithContext`
if any; `unmarshalData` and `unmarshalJob` are `json.Unmarshal` into
`struct{Data ChainlinkJob}` and into `ChainlinkJob`. -/
structure Net where
  roundTrip : Nat → Request → Except String Response
  sent : Nat
  newRequestErr : String → String → Option String
  unmarshalData : String → Except String ChainlinkJob
  unmarshalJob : String → Except String ChainlinkJob

/-- The call `c.HTTPClient.Do(req)`. -/
def Net.Do (n : Net) (req : Request) : Except String Response × Net :=
  (n.roundTrip n.sent req, { n with sent := n.sent + 1 })

/-- Client represents a Chainlink node client. -/
structure Client where
  NodeID : String
  BaseURL : String
  SessionCookie : String
  AuthToken : String
  deriving DecidableEq, Repr

/-- The shape of `doRequest`: method, path, body and headers to a response or
an error, with the client and the network as they are afterwards; `none` when
the call does not return. -/
abbrev Requester :=
  Client → Net → String → String → Payload → List (String × String) →
    Option (Except String Response × Client × Net)

/-- authenticateSession uses session-based authentication; `doReq` is the
client's `doRequest`. The error is `none` for nil. -/
def authenticateSessionVia (doReq : Requester) (c : Client) (n : Net) :
    Option (Option String × Client × Net) :=
  match doReq c n "POST" "/sessions" (Payload.SessionRequest c.SessionCookie c.AuthToken) [] with
  | none => none
  | some (Except.error err, c, n) => some (some ("session request failed: " ++ err), c, n)
  | some (Except.ok resp, c, n) =>
    if resp.StatusCode ≠ 200 then
      some (some ("session auth failed: " ++ toString resp.StatusCode ++ " - " ++ resp.Body), c, n)
    else
      match resp.Cookies.find? (fun cookie => cookie.1 == "clsession") with
      | some cookie => some (none, { c with SessionCookie := cookie.2 }, n)
      | none => some (some "no session cookie found", c, n)

/-- authenticateBasic uses basic authentication (older method). -/
def authenticateBasicVia (doReq : Requester) (c : Client) (n : Net) :
    Option (Option String × Client × Net) :=
  match doReq c n "POST" "/v2/authenticate" (Payload.LoginRequest c.SessionCookie c.AuthToken) [] with
  | none => none
  | some (Except.error err, c, n) => some (some ("login request failed: " ++ err), c, n)
  | some (Except.ok resp, c, n) =>
    if resp.StatusCode ≠ 200 then
      some (some ("basic auth failed: " ++ toString resp.StatusCode ++ " - " ++ resp.Body), c, n)
    else
      some (none, c, n)

/-- authenticate performs authentication with the Chainlink node. -/
def authenticateVia (doReq : Requester) (c : Client) (n : Net) :
    Option (Option String × Client × Net) :=
  match authenticateSessionVia doReq c n with
  | none => none
  | some (some _, c, n) => authenticateBasicVia doReq c n
  | some (none, c, n) => some (none, c, n)

/-- The request `doRequest` sends: default and custom headers, then the session
cookie if the client holds one, else basic credentials. -/
def buildRequest (c : Client) (method path : String) (body : Payload)
    (headers : List (String × String)) : Request :=
  { Method := method
    URL := c.BaseURL ++ path
    Header := ("User-Agent", "Job-Distributor/1.0") :: headers
    Cookie := if c.SessionCookie ≠ "" then some c.SessionCookie else none
    BasicAuth := if c.SessionCookie ≠ "" then none else some (c.SessionCookie, c.AuthToken)
    Body := body }

/-- doRequest performs an HTTP request with authentication. The first argument
bounds the depth of the recursion: the call returns `none` when the bound is
too small for it to return. -/
def doRequest : Nat → Requester
  | 0 => fun _ _ _ _ _ _ => none
  | fuel + 1 => fun c n method path body headers =>
    match n.newRequestErr method (c.BaseURL ++ path) with
    | some err => some (Except.error ("failed to create request: " ++ err), c, n)
    | none =>
      match n.Do (buildRequest c method path body headers) with
      | (Except.error err, n) => some (Except.error ("request failed: " ++ err), c, n)
      | (Except.ok resp, n) =>
        if resp.StatusCode = 401 then
          match authenticateVia (doRequest fuel) c n with
          | none => none
          | some (some authErr, c, n) =>
            some (Except.error ("re-authentication failed: " ++ authErr), c, n)
          | some (none, c, n) => doRequest fuel c n method path body.afterSend headers
        else
          some (Except.ok resp, c, n)

/-- The method `authenticate` of the client. -/
def Client.authenticate (fuel : Nat) (c : Client) (n : Net) :
    Option (Option String × Client × Net) :=
  authenticateVia (doRequest fuel) c n

/-- The method `authenticateSession` of the client. -/
def Client.authenticateSession (fuel : Nat) (c : Client) (n : Net) :
    Option (Option String × Client × Net) :=
  authenticateSessionVia (doRequest fuel) c n

/-- The method `authenticateBasic` of the client. -/
def Client.authenticateBasic (fuel : Nat) (c : Client) (n : Net) :
    Option (Option String × Client × Net) :=
  authenticateBasicVia (doRequest fuel) c n

/-- CreateJob creates a job on the Chainlink node. -/
def Client.CreateJob (fuel : Nat) (c : Client) (n : Net) (spec : String) :
    Option (Except String ChainlinkJob × Client × Net) :=
  match doRequest fuel c n "POST" "/v2/jobs" (Payload.CreateJobRequest spec)
      [("Content-Type", "application/json")] with
  | none => none
  | some (Except.error err, c, n) => some (Except.error ("create job request failed: " ++ err), c, n)
  | some (Except.ok resp, c, n) =>
    match resp.ReadErr with
    | some err => some (Except.error ("failed to read response body: " ++ err), c, n)
    | none =>
      if resp.StatusCode ≠ 200 && resp.StatusCode ≠ 201 then
        some (Except.error
          ("create job failed: " ++ toString resp.StatusCode ++ " - " ++ resp.Body), c, n)
      else
        match n.unmarshalData resp.Body with
        | Except.ok job => some (Except.ok job, c, n)
        | Except.error err =>
          match n.unmarshalJob resp.Body with
          | Except.error _ => some (Except.error ("failed to parse job response: " ++ err), c, n)
          | Except.ok job => some (Except.ok job, c, n)

/-- DeleteJob deletes a job from the Chainlink node. The error is `none` for nil. -/
def Client.DeleteJob (fuel : Nat) (c : Client) (n : Net) (jobID : String) :
    Option (Option String × Client × Net) :=
  match doRequest fuel c n "DELETE" ("/v2/jobs/" ++ jobID) Payload.nil [] with
  | none => none
  | some (Except.error err, c, n) => some (some ("delete job request failed: " ++ err), c, n)
  | some (Except.ok resp, c, n) =>
    if resp.StatusCode = 404 then
      some (some ("job " ++ jobID ++ " not found"), c, n)
    else if resp.StatusCode ≠ 204 && resp.StatusCode ≠ 200 then
      some (some ("delete job failed: " ++ toString resp.StatusCode ++ " - " ++ resp.Body), c, n)
    else
      some (none, c, n)

/-- ClientManager manages connections to multiple Chainlink nodes. -/
structure ClientManager where
  clients : GoMap Client
  deriving DecidableEq

/-- NewClientManager creates a new client manager. -/
def NewClientManager : ClientManager := ⟨GoMap.empty⟩

/-- GetClient returns a client for a specific node. -/
def ClientManager.GetClient (m : ClientManager) (nodeID : String) : Option Client :=
  m.clients.get? nodeID

/-- The function `strings.TrimSuffix(s, "/")`. -/
def trimSlash (s : String) : String :=
  match s.toList.reverse with
  | '/' :: rest => String.mk rest.reverse
  | _ => s

/-- AddNode adds a new node to the client manager. -/
def ClientManager.AddNode (fuel : Nat) (m : ClientManager) (n : Net)
    (nodeID url email password : String) : Option (Option String × ClientManager × Net) :=
  match Client.authenticate fuel
      { NodeID := nodeID, BaseURL := trimSlash url, SessionCookie := email, AuthToken := password }
      n with
  | none => none
  | some (some err, _, n) =>
    some (some ("failed to authenticate with node " ++ nodeID ++ ": " ++ err), m, n)
  | some (none, client, n) => some (none, { m with clients := m.clients.set nodeID client }, n)

/-! ## The service (`internal/server/server.go`) -/

/-- The gRPC status codes the service returns. -/
inductive Code where
  | NotFound | InvalidArgument | Internal
  deriving DecidableEq, Repr

/-- The name `Code.String` prints. -/
def Code.name : Code → String
  | Code.NotFound => "NotFound"
  | Code.InvalidArgument => "InvalidArgument"
  | Code.Internal => "Internal"

/-- An error made by `status.Errorf(code, ...)`. -/
structure StatusError where
  code : Code
  desc : String
  deriving DecidableEq, Repr

/-- The method `Error` of a status error. -/
def StatusError.Error (e : StatusError) : String :=
  "rpc error: code = " ++ e.code.name ++ " desc = " ++ e.desc

/-- The request of ProposeJob. -/
structure ProposeJobRequest where
  NodeId : String
  Spec : String
  Labels : List Label
  deriving DecidableEq, Repr

/-- The response of ProposeJob. -/
structure ProposeJobResponse where
  Proposal : Proposal
  deriving DecidableEq, Repr

/-- The failure BatchProposeJob records for a node. -/
structure ProposeJobFailure where
  ErrorMessage : String
  deriving DecidableEq, Repr

/-- The request of BatchProposeJob. -/
structure BatchProposeJobRequest where
  NodeIds : List String
  Spec : String
  Labels : List Label
  deriving DecidableEq, Repr

/-- The response of BatchProposeJob: two maps keyed by node id. -/
structure BatchProposeJobResponse where
  SuccessResponses : GoMap ProposeJobResponse
  FailedResponses : GoMap ProposeJobFailure
  deriving DecidableEq

/-- The request of UpdateJob. -/
structure UpdateJobRequest where
  Id : String
  Labels : List Label
  deriving DecidableEq, Repr

/-- The request of RegisterNode. -/
structure RegisterNodeRequest where
  Name : String
  PublicKey : String
  Labels : List Label
  deriving DecidableEq, Repr

/-- JobDistributorServer implements all the required gRPC interfaces. -/
structure JobDistributorServer where
  storage : Storage
  chainlink : ClientManager
  deriving DecidableEq

/-- NewJobDistributorServer creates a new Job Distributor server. -/
def NewJobDistributorServer : JobDistributorServer :=
  { storage := NewStorage, chainlink := NewClientManager }

/-- What a call of the service may consult outside the server: the wall clock,
the network, and the order of the `range` loops over maps. -/
structure World where
  clock : Clock
  net : Net
  iter : Iter

/-- The result of a service call: response or status error, with the server
and the world as they are afterwards. -/
abbrev Outcome (α : Type) := Except StatusError α × JobDistributorServer × World

/-- extractJobIDFromSpec: the job id declared by the spec, else one made from
the clock. -/
def extractJobIDFromSpec (clk : Clock) (spec : String) : Except String String × Clock :=
  if ExtractJobIDFromTOML spec ≠ "" then
    (Except.ok (ExtractJobIDFromTOML spec), clk)
  else
    (Except.ok ("job_" ++ toString clk.Now.1.Unix), clk.Now.2)

/-- generateUUID: an identifier made from two readings of the clock. -/
def generateUUID (clk : Clock) : String × Clock :=
  ("uuid_" ++ toString clk.Now.1.Unix ++ "_" ++ toString clk.Now.2.Now.1.Nanosecond,
    clk.Now.2.Now.2)

namespace JobDistributorServer

/-- submitJobToNode submits a job to the actual Chainlink node. -/
def submitJobToNode (fuel : Nat) (s : JobDistributorServer) (n : Net) (nodeID spec : String) :
    Option (Bool × JobDistributorServer × Net) :=
  match s.chainlink.GetClient nodeID with
  | none => some (false, s, n)
  | some client =>
    match ValidateJobSpec spec with
    | some _ => some (false, s, n)
    | none =>
      match client.CreateJob fuel n spec with
      | none => none
      | some (Except.error _, client, n) =>
        some (false, { s with chainlink := ⟨s.chainlink.clients.set nodeID client⟩ }, n)
      | some (Except.ok _, client, n) =>
        some (true, { s with chainlink := ⟨s.chainlink.clients.set nodeID client⟩ }, n)

/-- deleteJobFromNode deletes a job from the actual Chainlink node. -/
def deleteJobFromNode (fuel : Nat) (s : JobDistributorServer) (n : Net) (jobID : String) :
    Option (Bool × JobDistributorServer × Net) :=
  match s.storage.GetJob jobID with
  | none => some (false, s, n)
  | some job =>
    match s.chainlink.GetClient job.NodeId with
    | none => some (false, s, n)
    | some client =>
      match client.DeleteJob fuel n jobID with
      | none => none
      | some (some _, client, n) =>
        some (false, { s with chainlink := ⟨s.chainlink.clients.set job.NodeId client⟩ }, n)
      | some (none, client, n) =>
        some (true, { s with chainlink := ⟨s.chainlink.clients.set job.NodeId client⟩ }, n)

/-- ProposeJob handles job proposal requests. -/
def ProposeJob (fuel : Nat) (s : JobDistributorServer) (w : World) (req : ProposeJobRequest) :
    Option (Outcome ProposeJobResponse) :=
  if !s.storage.NodeExists req.NodeId then
    some (Except.error ⟨Code.NotFound, "node " ++ req.NodeId ++ " not found"⟩, s, w)
  else
    match extractJobIDFromSpec w.clock req.Spec with
    | (Except.error err, clk) =>
      some (Except.error
        ⟨Code.InvalidArgument, "failed to extract job ID from spec: " ++ err⟩,
        s, { w with clock := clk })
    | (Except.ok jobID, clk) =>
      let proposalID := (generateUUID clk).1
      let clk := (generateUUID clk).2
      let createdAt := clk.timestampNow.1
      let clk := clk.timestampNow.2
      let updatedAt := clk.timestampNow.1
      let clk := clk.timestampNow.2
      let proposal : Proposal :=
        { Id := proposalID
          JobId := jobID
          Spec := req.Spec
          Status := ProposalStatus.PENDING
          DeliveryStatus := ProposalDeliveryStatus.DELIVERED
          CreatedAt := createdAt
          UpdatedAt := updatedAt }
      match submitJobToNode fuel s w.net req.NodeId req.Spec with
      | none => none
      | some (true, s, net) =>
        let proposal := { proposal with Status := ProposalStatus.APPROVED }
        let job : Job :=
          { Id := jobID
            Uuid := jobID
            NodeId := req.NodeId
            ProposalIds := [proposalID]
            Labels := req.Labels
            CreatedAt := clk.timestampNow.1
            UpdatedAt := clk.timestampNow.2.timestampNow.1 }
        let clk := clk.timestampNow.2.timestampNow.2
        some (Except.ok ⟨proposal⟩,
          { s with storage := (s.storage.StoreJob job).StoreProposal proposal },
          { w with clock := clk, net := net })
      | some (false, s, net) =>
        let proposal := { proposal with Status := ProposalStatus.REJECTED }
        some (Except.ok ⟨proposal⟩,
          { s with storage := s.storage.StoreProposal proposal },
          { w with clock := clk, net := net })

/-- The loop of BatchProposeJob over the node ids. -/
def batchLoop (fuel : Nat) (spec : String) (labels : List Label) :
    List String → BatchProposeJobResponse → JobDistributorServer → World →
      Option (BatchProposeJobResponse × JobDistributorServer × World)
  | [], resp, s, w => some (resp, s, w)
  | nodeID :: rest, resp, s, w =>
    match ProposeJob fuel s w { NodeId := nodeID, Spec := spec, Labels := labels } with
    | none => none
    | some (Except.error err, s, w) =>
      batchLoop fuel spec labels rest
        { resp with FailedResponses := resp.FailedResponses.set nodeID ⟨err.Error⟩ } s w
    | some (Except.ok proposeResp, s, w) =>
      batchLoop fuel spec labels rest
        { resp with SuccessResponses := resp.SuccessResponses.set nodeID proposeResp } s w

/-- BatchProposeJob handles batch job proposals. -/
def BatchProposeJob (fuel : Nat) (s : JobDistributorServer) (w : World)
    (req : BatchProposeJobRequest) : Option (Outcome BatchProposeJobResponse) :=
  match batchLoop fuel req.Spec req.Labels req.NodeIds ⟨GoMap.empty, GoMap.empty⟩ s w with
  | none => none
  | some (resp, s, w) => some (Except.ok resp, s, w)

/-- ListJobs returns all stored jobs. -/
def ListJobs (s : JobDistributorServer) (w : World) (filter : Option ListJobsRequest_Filter) :
    Outcome (List Job) :=
  (Except.ok (s.storage.ListJobs w.iter filter).1, s,
    { w with iter := (s.storage.ListJobs w.iter filter).2 })

/-- GetJob retrieves a specific job. -/
def GetJob (s : JobDistributorServer) (w : World) (id : String) : Outcome Job :=
  if id ≠ "" then
    match s.storage.GetJob id with
    | none => (Except.error ⟨Code.NotFound, "job " ++ id ++ " not found"⟩, s, w)
    | some job => (Except.ok job, s, w)
  else
    (Except.error ⟨Code.InvalidArgument, "job ID is required"⟩, s, w)

/-- ListProposals returns all stored proposals. -/
def ListProposals (s : JobDistributorServer) (w : World)
    (filter : Option ListProposalsRequest_Filter) : Outcome (List Proposal) :=
  (Except.ok ((s.storage.ListProposals w.iter filter).1.map Prod.snd), s,
    { w with iter := (s.storage.ListProposals w.iter filter).2 })

/-- GetProposal retrieves a specific proposal. -/
def GetProposal (s : JobDistributorServer) (w : World) (id : String) : Outcome Proposal :=
  match s.storage.GetProposal id with
  | none => (Except.error ⟨Code.NotFound, "proposal " ++ id ++ " not found"⟩, s, w)
  | some proposal => (Except.ok proposal, s, w)

/-- The loop of RevokeJob that finds the latest proposal, started from the
first element of the slice. -/
def latestOf (first : String × Proposal) (proposals : List (String × Proposal)) :
    String × Proposal :=
  proposals.foldl
    (fun latestProposal p =>
      if p.2.UpdatedAt.AsTime.After latestProposal.2.UpdatedAt.AsTime then p else latestProposal)
    first

/-- RevokeJob revokes a job proposal. -/
def RevokeJob (s : JobDistributorServer) (w : World) (id : String) : Outcome Proposal :=
  if id ≠ "" then
    match (s.storage.ListProposals w.iter (some ⟨[id]⟩)).1 with
    | [] =>
      (Except.error ⟨Code.NotFound, "no proposals found for job " ++ id⟩, s,
        { w with iter := (s.storage.ListProposals w.iter (some ⟨[id]⟩)).2 })
    | first :: rest =>
      let latestProposal := latestOf first (first :: rest)
      let revoked : Proposal :=
        { latestProposal.2 with
          Status := ProposalStatus.REVOKED
          UpdatedAt := w.clock.timestampNow.1 }
      (Except.ok revoked,
        { s with
          storage := (s.storage.writeProposal latestProposal.1 revoked).StoreProposal revoked },
        { w with
          clock := w.clock.timestampNow.2
          iter := (s.storage.ListProposals w.iter (some ⟨[id]⟩)).2 })
  else
    (Except.error ⟨Code.InvalidArgument, "job ID is required"⟩, s, w)

/-- DeleteJob deletes a job. -/
def DeleteJob (fuel : Nat) (s : JobDistributorServer) (w : World) (id : String) :
    Option (Outcome Unit) :=
  if id ≠ "" then
    match deleteJobFromNode fuel s w.net id with
    | none => none
    | some (true, s, net) =>
      some (Except.ok (), { s with storage := s.storage.DeleteJob id }, { w with net := net })
    | some (false, s, net) => some (Except.ok (), s, { w with net := net })
  else
    some (Except.error ⟨Code.InvalidArgument, "job ID is required"⟩, s, w)

/-- UpdateJob updates a job. -/
def UpdateJob (s : JobDistributorServer) (w : World) (req : UpdateJobRequest) : Outcome Job :=
  if req.Id ≠ "" then
    match s.storage.GetJob req.Id with
    | none => (Except.error ⟨Code.NotFound, "job " ++ req.Id ++ " not found"⟩, s, w)
    | some existingJob =>
      match s.chainlink.GetClient existingJob.NodeId with
      | none =>
        (Except.error ⟨Code.Internal, "no client found for node " ++ existingJob.NodeId⟩, s, w)
      | some _ =>
        let updatedJob : Job :=
          { Id := req.Id
            Uuid := existingJob.Uuid
            NodeId := existingJob.NodeId
            ProposalIds := existingJob.ProposalIds
            Labels := req.Labels
            CreatedAt := existingJob.CreatedAt
            UpdatedAt := w.clock.timestampNow.1 }
        (Except.ok updatedJob, { s with storage := s.storage.StoreJob updatedJob },
          { w with clock := w.clock.timestampNow.2 })
  else
    (Except.error ⟨Code.InvalidArgument, "job ID is required"⟩, s, w)

/-- ListNodes returns all configured nodes. -/
def ListNodes (s : JobDistributorServer) (w : World) (filter : Option ListNodesRequest_Filter) :
    Outcome (List Node) :=
  (Except.ok (s.storage.ListNodes w.iter filter).1, s,
    { w with iter := (s.storage.ListNodes w.iter filter).2 })

/-- GetNode retrieves a specific node. -/
def GetNode (s : JobDistributorServer) (w : World) (id : String) : Outcome Node :=
  match s.storage.GetNode id with
  | none => (Except.error ⟨Code.NotFound, "node " ++ id ++ " not found"⟩, s, w)
  | some node => (Except.ok node, s, w)

/-- RegisterNode registers a new node. -/
def RegisterNode (s : JobDistributorServer) (w : World) (req : RegisterNodeRequest) :
    Outcome Node :=
  match (s.storage.GetNodeByCSAKey w.iter req.PublicKey).1 with
  | some existingNode =>
    (Except.ok existingNode, s,
      { w with iter := (s.storage.GetNodeByCSAKey w.iter req.PublicKey).2 })
  | none =>
    let nodeID := (generateUUID w.clock).1
    let clk := (generateUUID w.clock).2
    let newNode : Node :=
      { Id := nodeID
        Name := req.Name
        PublicKey := req.PublicKey
        Labels := req.Labels
        IsConnected := true
        IsEnabled := true
        CreatedAt := clk.timestampNow.1
        UpdatedAt := clk.timestampNow.2.timestampNow.1 }
    (Except.ok newNode, { s with storage := s.storage.StoreNode newNode },
      { w with
        clock := clk.timestampNow.2.timestampNow.2
        iter := (s.storage.GetNodeByCSAKey w.iter req.PublicKey).2 })

/-- EnableNode, DisableNode, UpdateNode and ListNodeChainConfigs: an empty
response, nothing read or written. -/
def noOp (s : JobDistributorServer) (w : World) : Outcome Unit := (Except.ok (), s, w)

/-- ListKeypairs returns all CSA keypairs from registered nodes. -/
def ListKeypairs (s : JobDistributorServer) (w : World) : Outcome (List Keypair) :=
  (Except.ok
    (((s.storage.ListNodes w.iter none).1.filter (fun node => node.PublicKey ≠ "")).map
      (fun node => Keypair.mk node.PublicKey)),
    s, { w with iter := (s.storage.ListNodes w.iter none).2 })

/-- GetKeypair retrieves a keypair: that of the first node met that has one. -/
def GetKeypair (s : JobDistributorServer) (w : World) : Outcome Keypair :=
  match (s.storage.ListNodes w.iter none).1.find? (fun node => node.PublicKey ≠ "") with
  | some node =>
    (Except.ok ⟨node.PublicKey⟩, s, { w with iter := (s.storage.ListNodes w.iter none).2 })
  | none =>
    (Except.error ⟨Code.NotFound, "no keypairs available"⟩, s,
      { w with iter := (s.storage.ListNodes w.iter none).2 })

end JobDistributorServer

/-! ## Runs of the service -/

/-- A call of one operation of the service. -/
inductive Call where
  | ProposeJob (req : ProposeJobRequest)
  | BatchProposeJob (req : BatchProposeJobRequest)
  | ListJobs (filter : Option ListJobsRequest_Filter)
  | GetJob (id : String)
  | ListProposals (filter : Option ListProposalsRequest_Filter)
  | GetProposal (id : String)
  | RevokeJob (id : String)
  | DeleteJob (id : String)
  | UpdateJob (req : UpdateJobRequest)
  | ListNodes (filter : Option ListNodesRequest_Filter)
  | GetNode (id : String)
  | RegisterNode (req : RegisterNodeRequest)
  | EnableNode
  | DisableNode
  | UpdateNode
  | ListNodeChainConfigs
  | ListKeypairs
  | GetKeypair

/-- The server and the world after a call, when the call returns. -/
def serve (fuel : Nat) (s : JobDistributorServer) (w : World) :
    Call → Option (JobDistributorServer × World)
  | Call.ProposeJob req => (s.ProposeJob fuel w req).map Prod.snd
  | Call.BatchProposeJob req => (s.BatchProposeJob fuel w req).map Prod.snd
  | Call.ListJobs filter => some (s.ListJobs w filter).2
  | Call.GetJob id => some (s.GetJob w id).2
  | Call.ListProposals filter => some (s.ListProposals w filter).2
  | Call.GetProposal id => some (s.GetProposal w id).2
  | Call.RevokeJob id => some (s.RevokeJob w id).2
  | Call.DeleteJob id => (s.DeleteJob fuel w id).map Prod.snd
  | Call.UpdateJob req => some (s.UpdateJob w req).2
  | Call.ListNodes filter => some (s.ListNodes w filter).2
  | Call.GetNode id => some (s.GetNode w id).2
  | Call.RegisterNode req => some (s.RegisterNode w req).2
  | Call.EnableNode => some (s.noOp w).2
  | Call.DisableNode => some (s.noOp w).2
  | Call.UpdateNode => some (s.noOp w).2
  | Call.ListNodeChainConfigs => some (s.noOp w).2
  | Call.ListKeypairs => some (s.ListKeypairs w).2
  | Call.GetKeypair => some (s.GetKeypair w).2

/-- The servers reached from a new server by calls of the service, whatever
the clock, the network and the order of the map loops do at each call. -/
inductive Reachable : JobDistributorServer → Prop where
  | init : Reachable NewJobDistributorServer
  | step (fuel : Nat) (s : JobDistributorServer) (w : World) (call : Call)
      (s' : JobDistributorServer) (w' : World) :
      Reachable s → serve fuel s w call = some (s', w') → Reachable s'

/-- A sequence of calls, each made in the world the one before it leaves. -/
def serveAll (fuel : Nat) :
    List Call → JobDistributorServer → World → Option (JobDistributorServer × World)
  | [], s, w => some (s, w)
  | call :: rest, s, w =>
    match serve fuel s w call with
    | none => none
    | some (s, w) => serveAll fuel rest s w

/-! ## Properties of stores and specs used in the statements -/

/-- Every proposal is stored under its own id, as `StoreProposal` does. -/
def Storage.proposalsKeyed (s : Storage) : Prop :=
  ∀ e ∈ s.proposals.entries, e.1 = e.2.Id

/-- No two node records carry the same public key. -/
def Storage.uniquePublicKeys (s : Storage) : Prop :=
  (s.nodes.values.map (fun node => node.PublicKey)).Nodup

/-- The lines of a spec, as `ExtractJobIDFromTOML` splits it. -/
def specLines (spec : String) : List (List Char) := Split '\n' spec.toList

/-- A spec declares a field when one of its lines assigns to it: the text
before the first `=` of the line is, up to surrounding whitespace, the name of
the field. -/
def declaresField (spec field : String) : Bool :=
  (specLines spec).any fun line =>
    match Split '=' line with
    | key :: _ :: _ => TrimSpace key == field.toList
    | _ => false

/-- Equality of results is decidable. -/
instance {ε α : Type} [DecidableEq ε] [DecidableEq α] : DecidableEq (Except ε α) := fun a b =>
  match a, b with
  | Except.ok x, Except.ok y =>
    if h : x = y then isTrue (by rw [h]) else isFalse (fun h2 => h (Except.ok.inj h2))
  | Except.error x, Except.error y =>
    if h : x = y then isTrue (by rw [h]) else isFalse (fun h2 => h (Except.error.inj h2))
  | Except.ok _, Except.error _ => isFalse (fun h => Except.noConfusion h)
  | Except.error _, Except.ok _ => isFalse (fun h => Except.noConfusion h)

/-! ## Concrete worlds and servers for the examples -/

/-- A clock that reads the same instant at every call. -/
def Clock.stuck (unixNano : Int) : Clock := ⟨fun _ => ⟨unixNano⟩, 0⟩

/-- Map loops that visit the entries in the order of the representation. -/
def Iter.plain : Iter := ⟨fun _ => [], 0⟩

/-- A network on which every request gets the same response, and whose
responses always decode to a job. -/
def Net.always (resp : Response) : Net :=
  { roundTrip := fun _ _ => Except.ok resp
    sent := 0
    newRequestErr := fun _ _ => none
    unmarshalData := fun _ => Except.ok ⟨"1"⟩
    unmarshalJob := fun _ => Except.ok ⟨"1"⟩ }

/-- A node that accepts every request. -/
def Net.accepting : Net := Net.always ⟨200, [], "ok", none⟩

/-- A node that answers 401 Unauthorized to every request. -/
def Net.unauthorized : Net := Net.always ⟨401, [], "unauthorized", none⟩

/-- A clock that advances by one second and one nanosecond at every reading. -/
def Clock.running : Clock := ⟨fun i => ⟨1000000001 * (i + 1)⟩, 0⟩

/-- A world with a running clock. -/
def World.running (net : Net) : World := ⟨Clock.running, net, Iter.plain⟩

/-- A world with a stuck clock. -/
def World.at (unixNano : Int) (net : Net) : World := ⟨Clock.stuck unixNano, net, Iter.plain⟩

/-- A node record as `RegisterNode` makes it. -/
def Node.sample (id publicKey : String) : Node :=
  { Id := id, Name := id, PublicKey := publicKey, Labels := [], IsConnected := true,
    IsEnabled := true, CreatedAt := ⟨0, 0⟩, UpdatedAt := ⟨0, 0⟩ }

/-- A client as `AddNode` stores it after a session login. -/
def Client.sample (nodeID : String) : Client :=
  { NodeID := nodeID, BaseURL := "http://" ++ nodeID, SessionCookie := "token",
    AuthToken := "secret" }

/-- A server with two registered nodes `A` and `B` and a client for `B` only. -/
def twoNodes : JobDistributorServer :=
  { storage :=
      (NewStorage.StoreNode (Node.sample "A" "keyA")).StoreNode (Node.sample "B" "keyB")
    chainlink := ⟨GoMap.empty.set "B" (Client.sample "B")⟩ }

/-- A proposal of job `j1`, last updated at the given second. -/
def Proposal.sample (id : String) (status : ProposalStatus) (seconds : Int) : Proposal :=
  { Id := id, JobId := "j1", Spec := "type schemaVersion", Status := status,
    DeliveryStatus := ProposalDeliveryStatus.DELIVERED, CreatedAt := ⟨0, 0⟩,
    UpdatedAt := ⟨seconds, 0⟩ }

/-- A server holding three proposals of job `j1`, updated at seconds 1, 3 and
2, and one proposal of another job. -/
def threeProposals : JobDistributorServer :=
  { storage :=
      (((NewStorage.StoreProposal (Proposal.sample "p1" ProposalStatus.REJECTED 1)).StoreProposal
        (Proposal.sample "p2" ProposalStatus.APPROVED 3)).StoreProposal
        (Proposal.sample "p3" ProposalStatus.REJECTED 2)).StoreProposal
        { Proposal.sample "p4" ProposalStatus.APPROVED 9 with JobId := "j2" }
    chainlink := NewClientManager }


/-! ## Definitions for the statements on batches, filters, jobs and the client -/

/-- BatchProposeJob in the words of the spec: ProposeJob once per node id, in
the order of the list, each call made on the server and in the world that the
call before it leaves; the outcome of each call is kept with its node id. No
call is skipped or undone because another one failed. -/
def proposeEach (fuel : Nat) (spec : String) (labels : List Label) :
    List String → JobDistributorServer → World →
      Option (List (String × Except StatusError ProposeJobResponse) ×
        JobDistributorServer × World)
  | [], s, w => some ([], s, w)
  | nodeID :: rest, s, w =>
    match s.ProposeJob fuel w ⟨nodeID, spec, labels⟩ with
    | none => none
    | some (r, s, w) =>
      match proposeEach fuel spec labels rest s w with
      | none => none
      | some (rs, s, w) => some ((nodeID, r) :: rs, s, w)

/-- The filter of ListJobs in the words of the spec: an absent filter lets
every job pass; a non-empty list of node ids lets pass the jobs whose node id
is in it; a non-empty list of ids lets pass the jobs whose id is in it; both
lists are applied together. -/
def passesFilter (job : Job) : Option ListJobsRequest_Filter → Bool
  | none => true
  | some filter =>
    (filter.NodeIds.isEmpty || filter.NodeIds.contains job.NodeId) &&
      (filter.Ids.isEmpty || filter.Ids.contains job.Id)

/-- Every job is stored under its own id, as `StoreJob` does. -/
def Storage.jobsKeyed (s : Storage) : Prop :=
  ∀ e ∈ s.jobs.entries, e.1 = e.2.Id

/-- A node whose sessions expire at once: it answers a session login with 200
and a fresh `clsession` cookie, and every other request with 401. -/
def Net.expiring : Net :=
  { roundTrip := fun _ req =>
      match req.Body with
      | Payload.SessionRequest _ _ => Except.ok ⟨200, [("clsession", "fresh")], "", none⟩
      | _ => Except.ok ⟨401, [], "unauthorized", none⟩
    sent := 0
    newRequestErr := fun _ _ => none
    unmarshalData := fun _ => Except.ok ⟨"1"⟩
    unmarshalJob := fun _ => Except.ok ⟨"1"⟩ }

/-- A node that answers a session login with 200 and no cookie, and accepts
every other request. -/
def Net.legacy : Net :=
  { roundTrip := fun _ _ => Except.ok ⟨200, [], "ok", none⟩
    sent := 0
    newRequestErr := fun _ _ => none
    unmarshalData := fun _ => Except.ok ⟨"1"⟩
    unmarshalJob := fun _ => Except.ok ⟨"1"⟩ }

/-- A job record as ProposeJob makes it. -/
def Job.sample (id nodeID : String) : Job :=
  { Id := id, Uuid := id, NodeId := nodeID, ProposalIds := ["p-" ++ id], Labels := [],
    CreatedAt := ⟨0, 0⟩, UpdatedAt := ⟨0, 0⟩ }

/-- The server `twoNodes` holding a job `ja` on node `A`, which has no client,
and a job `jb` on node `B`, which has one. -/
def twoJobs : JobDistributorServer :=
  { storage := (twoNodes.storage.StoreJob (Job.sample "ja" "A")).StoreJob (Job.sample "jb" "B")
    chainlink := twoNodes.chainlink }

/-- A node whose sessions expire until the network has carried `k` requests:
it answers a session login with 200 and a fresh `clsession` cookie, every other
request with 401 while fewer than `k` requests have been sent, and with 200
afterwards. -/
def Net.expiringUntil (k : Nat) : Net :=
  { roundTrip := fun i req =>
      match req.Body with
      | Payload.SessionRequest _ _ => Except.ok ⟨200, [("clsession", "fresh")], "", none⟩
      | _ => if i < k then Except.ok ⟨401, [], "unauthorized", none⟩
        else Except.ok ⟨200, [], "ok", none⟩
    sent := 0
    newRequestErr := fun _ _ => none
    unmarshalData := fun _ => Except.ok ⟨"1"⟩
    unmarshalJob := fun _ => Except.ok ⟨"1"⟩ }

/-- Every job references at least one proposal id, and every proposal id it
references is the key of a stored proposal. -/
def Storage.jobsReferToProposals (s : Storage) : Prop :=
  ∀ job ∈ s.jobs.values,
    job.ProposalIds ≠ [] ∧ ∀ pid ∈ job.ProposalIds, (s.GetProposal pid).isSome = true

/-- The servers reached from the server `s0` by calls of the service. -/
inductive ReachableFrom (s0 : JobDistributorServer) : JobDistributorServer → Prop where
  | init : ReachableFrom s0 s0
  | step (fuel : Nat) (s : JobDistributorServer) (w : World) (call : Call)
      (s' : JobDistributorServer) (w' : World) :
      ReachableFrom s0 s → serve fuel s w call = some (s', w') → ReachableFrom s0 s'

/-! ## Definitions for the statements on the job id, the registry and keypairs -/

/-- A line declares `externalJobID`, in the words of the spec: trimmed of
whitespace it starts with the token `externalJobID` and it contains an `=`. -/
def declaresExternalJobID (line : List Char) : Bool :=
  HasPrefix (TrimSpace line) "externalJobID".toList && (TrimSpace line).contains '='

/-- The right-hand side of an assignment, in the words of the spec: everything
after the first `=` of the line. -/
def rightHandSide (line : List Char) : List Char :=
  (line.dropWhile (fun c => c ≠ '=')).drop 1

/-- The characters `strings.Trim(s, "\"'")` removes. -/
def quotes : List Char := [Char.ofNat 34, Char.ofNat 39]

/-- A node that accepts every request and reports, in the body of its answer,
the authentication the request carried. It issues no session cookie, so that a
client can log in to it through the legacy scheme only. -/
def Net.inspecting : Net :=
  { roundTrip := fun _ req =>
      Except.ok ⟨200, [],
        (match req.Cookie, req.BasicAuth with
          | some value, _ => "cookie clsession=" ++ value
          | none, some (user, password) => "basic " ++ user ++ ":" ++ password
          | none, none => "none"),
        none⟩
    sent := 0
    newRequestErr := fun _ _ => none
    unmarshalData := fun _ => Except.ok ⟨"1"⟩
    unmarshalJob := fun _ => Except.ok ⟨"1"⟩ }

/-- A node with one account, `admin@a` with password `pw`. It answers a login
under this account with 200, the session login with the cookie `clsession=tok`
as well, and any other login with 403 and the name it was given. The session
is valid while fewer than `k` requests have been sent; afterwards every other
request is answered with 401. -/
def Net.strict (k : Nat) : Net :=
  { roundTrip := fun i req =>
      match req.Body with
      | Payload.SessionRequest email password =>
        if email = "admin@a" ∧ password = "pw" then
          Except.ok ⟨200, [("clsession", "tok")], "", none⟩
        else Except.ok ⟨403, [], "unknown user " ++ email, none⟩
      | Payload.LoginRequest email password =>
        if email = "admin@a" ∧ password = "pw" then Except.ok ⟨200, [], "", none⟩
        else Except.ok ⟨403, [], "unknown user " ++ email, none⟩
      | _ =>
        if i < k then Except.ok ⟨200, [], "ok", none⟩
        else Except.ok ⟨401, [], "session expired", none⟩
    sent := 0
    newRequestErr := fun _ _ => none
    unmarshalData := fun _ => Except.ok ⟨"1"⟩
    unmarshalJob := fun _ => Except.ok ⟨"1"⟩ }

/-- The server a new server becomes when one node registers at second 5,
nanosecond 7: the node gets the id `uuid_5_7`. -/
def oneNode : JobDistributorServer :=
  (NewJobDistributorServer.RegisterNode (World.at 5000000007 Net.accepting)
    ⟨"node", "key", []⟩).2.1

/-- The server `twoNodes` with a client for each of its nodes `A` and `B`. -/
def twoClients : JobDistributorServer :=
  { storage := twoNodes.storage
    chainlink := ⟨(GoMap.empty.set "A" (Client.sample "A")).set "B" (Client.sample "B")⟩ }

/-! ## Definitions for the statements on calls that return -/

/-- The node answers the request: the request can be built, and what the
transport returns for it now is a response with a status other than 401, or an
error. Such a request is attempted once. -/
def Net.answers (n : Net) (req : Request) : Bool :=
  (n.newRequestErr req.Method req.URL).isNone &&
    match n.roundTrip n.sent req with
    | Except.ok resp => resp.StatusCode != 401
    | Except.error _ => true

/-- The request by which `CreateJob` hands a spec to the node. -/
def createJobRequest (client : Client) (spec : String) : Request :=
  buildRequest client "POST" "/v2/jobs" (Payload.CreateJobRequest spec)
    [("Content-Type", "application/json")]

/-- The request by which the client's `DeleteJob` asks the node to delete a job. -/
def deleteJobRequest (client : Client) (jobID : String) : Request :=
  buildRequest client "DELETE" ("/v2/jobs/" ++ jobID) Payload.nil []

open JobDistributorServer

theorem find?_setEntry {V : Type} (k k' : String) (v : V) (es : List (String × V)) :
    ((setEntry k v es).find? (fun e => e.1 == k')).map Prod.snd =
      if k' = k then some v else (es.find? (fun e => e.1 == k')).map Prod.snd := by
  induction es with
  | nil =>
    by_cases h : k' = k
    · simp [setEntry, h]
    · have h2 : ¬ k = k' := fun h3 => h h3.symm
      simp [setEntry, h, h2]
  | cons e es ih =>
    by_cases h : e.1 = k
    · by_cases h' : k' = k
      · simp [setEntry, h, h']
      · have h2 : ¬ k = k' := fun h3 => h' h3.symm
        simp [setEntry, h, h', h2, List.find?_cons]
    · by_cases h' : e.1 = k'
      · have h3 : ¬ k' = k := fun h4 => h (h'.trans h4)
        simp [setEntry, h, h', h3, List.find?_cons]
      · have hb : (e.1 == k') = false := by simp [h']
        simp only [setEntry, h, if_false, List.find?_cons, hb]
        exact ih

theorem GoMap.get?_set {V : Type} (m : GoMap V) (k k' : String) (v : V) :
    (m.set k v).get? k' = if k' = k then some v else m.get? k' :=
  find?_setEntry k k' v m.entries

theorem GoMap.get?_set_self {V : Type} (m : GoMap V) (k : String) (v : V) :
    (m.set k v).get? k = some v := by
  rw [GoMap.get?_set, if_pos rfl]

/-! ## Lemmas on delivery -/

/-- Delivery reads and writes the client registry only. -/
theorem submitJobToNode_storage (fuel : Nat) (s : JobDistributorServer) (n : Net)
    (nodeID spec : String) (b : Bool) (s1 : JobDistributorServer) (n1 : Net)
    (h : s.submitJobToNode fuel n nodeID spec = some (b, s1, n1)) :
    s1.storage = s.storage := by
  unfold submitJobToNode at h
  split at h
  · cases h; rfl
  · split at h
    · cases h; rfl
    · split at h
      · cases h
      · cases h; rfl
      · cases h; rfl

/-! ## ProposeJob -/

/-- C1: for every server state and every request whose node id is not in
Store, ProposeJob fails with NotFound, and the server (its nodes, jobs and
proposals) is exactly as before: no Proposal and no Job is created. -/
theorem ProposeJob_unknown_node (fuel : Nat) (s : JobDistributorServer) (w : World)
    (req : ProposeJobRequest) (h : s.storage.NodeExists req.NodeId = false) :
    s.ProposeJob fuel w req =
      some (Except.error ⟨Code.NotFound, "node " ++ req.NodeId ++ " not found"⟩, s, w) := by
  unfold ProposeJob
  simp [h]

theorem ProposeJob_unknown_node_witness :
    twoNodes.storage.NodeExists "C" = false ∧
    twoNodes.ProposeJob 0 (World.at 0 Net.accepting) ⟨"C", "type schemaVersion", []⟩ =
      some (Except.error ⟨Code.NotFound, "node " ++ "C" ++ " not found"⟩, twoNodes,
        World.at 0 Net.accepting) :=
  ⟨by decide, ProposeJob_unknown_node 0 twoNodes (World.at 0 Net.accepting)
    ⟨"C", "type schemaVersion", []⟩ (by decide)⟩

/-- The extraction of the job id never fails and never yields the empty id. -/
theorem extractJobIDFromSpec_ok (clk : Clock) (spec : String) :
    ∃ (jobID : String) (clk' : Clock),
      extractJobIDFromSpec clk spec = (Except.ok jobID, clk') ∧
      (ExtractJobIDFromTOML spec ≠ "" → jobID = ExtractJobIDFromTOML spec ∧ clk' = clk) ∧
      (ExtractJobIDFromTOML spec = "" →
        jobID = "job_" ++ toString clk.Now.1.Unix ∧ clk' = clk.Now.2) := by
  unfold extractJobIDFromSpec
  by_cases h : ExtractJobIDFromTOML spec = ""
  · exact ⟨_, _, by simp only [h, ne_eq, not_true_eq_false, if_false],
      fun h2 => absurd h h2, fun _ => ⟨rfl, rfl⟩⟩
  · exact ⟨_, _, by simp only [h, ne_eq, not_false_eq_true, if_true],
      fun _ => ⟨rfl, rfl⟩, fun h2 => absurd h2 h⟩

/-- C2: for every ProposeJob call on a node present in Store, if delivery to
the node succeeds the returned proposal is APPROVED and Store afterwards holds
a Job whose id is the proposal's job id, whose node id is the requested node,
whose proposal ids are exactly the new proposal id and whose labels are the
request's; if delivery fails the returned proposal is REJECTED and the jobs
collection is unchanged. -/
theorem ProposeJob_delivery_outcome (fuel : Nat) (s : JobDistributorServer) (w : World)
    (req : ProposeJobRequest) (delivered : Bool) (s1 : JobDistributorServer) (n1 : Net)
    (hnode : s.storage.NodeExists req.NodeId = true)
    (hsub : s.submitJobToNode fuel w.net req.NodeId req.Spec = some (delivered, s1, n1)) :
    ∃ (p : Proposal) (s' : JobDistributorServer) (w' : World),
      s.ProposeJob fuel w req = some (Except.ok ⟨p⟩, s', w') ∧
      (delivered = true →
        p.Status = ProposalStatus.APPROVED ∧
        ∃ job, s'.storage.GetJob p.JobId = some job ∧ job.Id = p.JobId ∧
          job.NodeId = req.NodeId ∧ job.ProposalIds = [p.Id] ∧ job.Labels = req.Labels) ∧
      (delivered = false →
        p.Status = ProposalStatus.REJECTED ∧ s'.storage.jobs = s.storage.jobs) := by
  have hst := submitJobToNode_storage fuel s w.net req.NodeId req.Spec delivered s1 n1 hsub
  obtain ⟨jobID, clk, he, -, -⟩ := extractJobIDFromSpec_ok w.clock req.Spec
  unfold ProposeJob
  simp only [hnode, Bool.not_true, Bool.false_eq_true, if_false, he, hsub]
  cases delivered with
  | true =>
    refine ⟨_, _, _, rfl, ?_, ?_⟩
    · intro _
      refine ⟨rfl, ?_⟩
      simp [Storage.GetJob, Storage.StoreJob, Storage.StoreProposal, GoMap.get?_set_self]
    · intro h; cases h
  | false =>
    refine ⟨_, _, _, rfl, ?_, ?_⟩
    · intro h; cases h
    · intro _
      refine ⟨rfl, ?_⟩
      simp [Storage.StoreProposal, hst]

theorem ProposeJob_delivery_outcome_witness :
    twoNodes.storage.NodeExists "B" = true ∧
    ∃ (p : Proposal) (s' : JobDistributorServer) (w' : World),
      twoNodes.ProposeJob 1 (World.at 5000000007 Net.accepting) ⟨"B", "type schemaVersion", []⟩ =
        some (Except.ok ⟨p⟩, s', w') ∧
      (true = true →
        p.Status = ProposalStatus.APPROVED ∧
        ∃ job, s'.storage.GetJob p.JobId = some job ∧ job.Id = p.JobId ∧
          job.NodeId = "B" ∧ job.ProposalIds = [p.Id] ∧ job.Labels = []) ∧
      (true = false →
        p.Status = ProposalStatus.REJECTED ∧ s'.storage.jobs = twoNodes.storage.jobs) :=
  ⟨by decide,
    ProposeJob_delivery_outcome 1 twoNodes (World.at 5000000007 Net.accepting)
      ⟨"B", "type schemaVersion", []⟩ true twoNodes { Net.accepting with sent := 1 }
      (by decide) (by rfl)⟩

/-- Whatever the delivery attempt returns, ProposeJob returns success, never a
service error; the returned proposal carries the request's spec, has status
APPROVED or REJECTED, never PENDING, and a subsequent GetProposal with its id
returns that same proposal. -/
theorem ProposeJob_persists_of_delivery (fuel : Nat) (s : JobDistributorServer) (w : World)
    (req : ProposeJobRequest) (delivered : Bool) (s1 : JobDistributorServer) (n1 : Net)
    (hnode : s.storage.NodeExists req.NodeId = true)
    (hsub : s.submitJobToNode fuel w.net req.NodeId req.Spec = some (delivered, s1, n1)) :
    ∃ (p : Proposal) (s' : JobDistributorServer) (w' : World),
      s.ProposeJob fuel w req = some (Except.ok ⟨p⟩, s', w') ∧
      p.Spec = req.Spec ∧
      (p.Status = ProposalStatus.APPROVED ∨ p.Status = ProposalStatus.REJECTED) ∧
      p.Status ≠ ProposalStatus.PENDING ∧
      s'.GetProposal w' p.Id = (Except.ok p, s', w') := by
  obtain ⟨jobID, clk, he, -, -⟩ := extractJobIDFromSpec_ok w.clock req.Spec
  unfold ProposeJob
  simp only [hnode, Bool.not_true, Bool.false_eq_true, if_false, he, hsub]
  cases delivered with
  | true =>
    refine ⟨_, _, _, rfl, rfl, Or.inl rfl, by simp, ?_⟩
    simp [GetProposal, Storage.GetProposal, Storage.StoreProposal, GoMap.get?_set_self]
  | false =>
    refine ⟨_, _, _, rfl, rfl, Or.inr rfl, by simp, ?_⟩
    simp [GetProposal, Storage.GetProposal, Storage.StoreProposal, GoMap.get?_set_self]

/-! ## Lemmas on the `strings` functions -/

theorem Split_of_not_mem (sep : Char) (a : List Char) (h : sep ∉ a) : Split sep a = [a] := by
  induction a with
  | nil => rfl
  | cons c cs ih =>
    have hc : ¬ c = sep := fun h2 => h (h2 ▸ List.mem_cons_self _ _)
    have hcs : sep ∉ cs := fun h2 => h (List.mem_cons_of_mem _ h2)
    simp [Split, hc, ih hcs]

theorem Split_append_sep (sep : Char) (a b : List Char) (h : sep ∉ a) :
    Split sep (a ++ sep :: b) = a :: Split sep b := by
  induction a with
  | nil => simp [Split]
  | cons c cs ih =>
    have hc : ¬ c = sep := fun h2 => h (h2 ▸ List.mem_cons_self _ _)
    have hcs : sep ∉ cs := fun h2 => h (List.mem_cons_of_mem _ h2)
    simp [Split, hc, ih hcs]

theorem TrimFunc_cons_of_pos (f : Char → Bool) (c : Char) (s : List Char) (h : f c = true) :
    TrimFunc f (c :: s) = TrimFunc f s := by
  simp [TrimFunc, List.dropWhile_cons, h]

/-- Trimming leaves alone a string whose first and last characters are kept. -/
theorem TrimFunc_eq_self (f : Char → Bool) (a z : Char) (m : List Char)
    (ha : f a = false) (hz : f z = false) :
    TrimFunc f (a :: (m ++ [z])) = a :: (m ++ [z]) := by
  simp [TrimFunc, List.dropWhile_cons, ha, hz]

/-- Trimming a non-empty string none of whose characters is cut, wrapped in
one cut character on each side, gives the string back. -/
theorem TrimFunc_wrapped (f : Char → Bool) (q : Char) (s : List Char) (hq : f q = true)
    (hs : s ≠ []) (hf : ∀ c ∈ s, f c = false) :
    TrimFunc f (q :: (s ++ [q])) = s := by
  have h1 : (q :: (s ++ [q])).dropWhile f = s ++ [q] := by
    cases s with
    | nil => exact absurd rfl hs
    | cons a t =>
      have ha : f a = false := hf a (List.mem_cons_self _ _)
      simp [List.dropWhile_cons, hq, ha]
  have h2 : (s ++ [q]).reverse.dropWhile f = s.reverse := by
    rw [List.reverse_append]
    have hr : s.reverse ≠ [] := fun h => hs (List.reverse_eq_nil_iff.mp h)
    cases hsr : s.reverse with
    | nil => exact absurd hsr hr
    | cons a t =>
      have ha : f a = false := hf a (List.mem_reverse.mp (hsr ▸ List.mem_cons_self _ _))
      simp [List.dropWhile_cons, hq, ha]
  unfold TrimFunc
  rw [h1, h2, List.reverse_reverse]

theorem scanLines_skip (before rest : List (List Char))
    (h : ∀ l ∈ before, HasPrefix (TrimSpace l) "externalJobID".toList = false) :
    scanLines (before ++ rest) = scanLines rest := by
  induction before with
  | nil => rfl
  | cons l ls ih =>
    have hl := h l (List.mem_cons_self _ _)
    have hls : ∀ l' ∈ ls, HasPrefix (TrimSpace l') "externalJobID".toList = false :=
      fun l' hl' => h l' (List.mem_cons_of_mem _ hl')
    simp only [List.cons_append, scanLines, hl, Bool.false_eq_true, if_false]
    exact ih hls

/-- The line `externalJobID = "<id>"` yields `id`. -/
theorem scanLines_declared (id : List Char) (after : List (List Char)) (hid : id ≠ [])
    (hchars : ∀ c ∈ id, c ≠ '=' ∧ c ≠ Char.ofNat 34 ∧ c ≠ Char.ofNat 39) :
    scanLines (("externalJobID = \"".toList ++ id ++ "\"".toList) :: after) = id := by
  have hline : "externalJobID = \"".toList ++ id ++ "\"".toList =
      'e' :: (("xternalJobID = \"".toList ++ id) ++ [Char.ofNat 34]) := by
    simp
  have htrim : TrimSpace ("externalJobID = \"".toList ++ id ++ "\"".toList) =
      "externalJobID = \"".toList ++ id ++ "\"".toList := by
    rw [hline]
    exact TrimFunc_eq_self isSpace 'e' (Char.ofNat 34) _ (by decide) (by decide)
  have hsplit : Split '=' ("externalJobID = \"".toList ++ id ++ "\"".toList) =
      ["externalJobID ".toList, ' ' :: Char.ofNat 34 :: (id ++ [Char.ofNat 34])] := by
    have e1 : "externalJobID = \"".toList ++ id ++ "\"".toList =
        "externalJobID ".toList ++ '=' :: (' ' :: Char.ofNat 34 :: (id ++ [Char.ofNat 34])) := by
      simp
    rw [e1, Split_append_sep _ _ _ (by decide), Split_of_not_mem]
    intro hm
    simp only [List.mem_cons, List.mem_append, List.mem_singleton, List.not_mem_nil,
      or_false] at hm
    rcases hm with h | h | h | h
    · exact absurd h (by decide)
    · exact absurd h (by decide)
    · exact (hchars _ h).1 rfl
    · exact absurd h (by decide)
  have hpre : HasPrefix ("externalJobID = \"".toList ++ id ++ "\"".toList)
      "externalJobID".toList = true := by
    have e2 : "externalJobID = \"".toList ++ id ++ "\"".toList =
        "externalJobID".toList ++ (" = \"".toList ++ id ++ "\"".toList) := by
      simp
    rw [e2]
    simp [HasPrefix]
  have hp1 : TrimSpace (' ' :: Char.ofNat 34 :: (id ++ [Char.ofNat 34])) =
      Char.ofNat 34 :: (id ++ [Char.ofNat 34]) := by
    unfold TrimSpace
    rw [TrimFunc_cons_of_pos _ _ _ (by decide)]
    exact TrimFunc_eq_self isSpace _ _ _ (by decide) (by decide)
  simp only [scanLines, htrim, hpre, if_true, hsplit, hp1, Trim]
  refine TrimFunc_wrapped _ (Char.ofNat 34) id (by decide) hid ?_
  intro c hc
  have h3 := hchars c hc
  have hb1 : (c == Char.ofNat 34) = false := by simp [h3.2.1]
  have hb2 : (c == Char.ofNat 39) = false := by simp [h3.2.2]
  simp [List.contains, List.elem, hb1, hb2]

/-- The job id of a spec whose first line starting with `externalJobID` is
`externalJobID = "<id>"`. -/
theorem ExtractJobIDFromTOML_declared (spec id : String) (before after : List (List Char))
    (hid : id ≠ "")
    (hchars : ∀ c ∈ id.toList, c ≠ '=' ∧ c ≠ Char.ofNat 34 ∧ c ≠ Char.ofNat 39)
    (hlines : specLines spec = before ++ ("externalJobID = \"" ++ id ++ "\"").toList :: after)
    (hbefore : ∀ l ∈ before, HasPrefix (TrimSpace l) "externalJobID".toList = false) :
    ExtractJobIDFromTOML spec = id := by
  have hne : id.toList ≠ [] := by
    intro h
    apply hid
    cases id with
    | mk data =>
      simp only [String.toList] at h
      rw [h]
  unfold ExtractJobIDFromTOML
  unfold specLines at hlines
  rw [hlines, scanLines_skip before _ hbefore]
  have e : ("externalJobID = \"" ++ id ++ "\"").toList =
      "externalJobID = \"".toList ++ id.toList ++ "\"".toList := by
    simp [String.toList]
  rw [e, scanLines_declared id.toList after hne hchars]
  cases id
  rfl

/-- When the delivery attempt returns, the proposal has the job id the spec
declares, and on delivery success the stored Job has it too. -/
theorem ProposeJob_declared_job_id_of_delivery (fuel : Nat) (s : JobDistributorServer) (w : World)
    (req : ProposeJobRequest) (id : String) (before after : List (List Char))
    (delivered : Bool) (s1 : JobDistributorServer) (n1 : Net)
    (hid : id ≠ "")
    (hchars : ∀ c ∈ id.toList, c ≠ '=' ∧ c ≠ Char.ofNat 34 ∧ c ≠ Char.ofNat 39)
    (hlines : specLines req.Spec =
      before ++ ("externalJobID = \"" ++ id ++ "\"").toList :: after)
    (hbefore : ∀ l ∈ before, HasPrefix (TrimSpace l) "externalJobID".toList = false)
    (hnode : s.storage.NodeExists req.NodeId = true)
    (hsub : s.submitJobToNode fuel w.net req.NodeId req.Spec = some (delivered, s1, n1)) :
    ∃ (p : Proposal) (s' : JobDistributorServer) (w' : World),
      s.ProposeJob fuel w req = some (Except.ok ⟨p⟩, s', w') ∧
      p.JobId = id ∧
      (delivered = true → ∃ job, s'.storage.GetJob id = some job ∧ job.Id = id) := by
  have hx := ExtractJobIDFromTOML_declared req.Spec id before after hid hchars hlines hbefore
  obtain ⟨jobID, clk, he, hj, -⟩ := extractJobIDFromSpec_ok w.clock req.Spec
  have hjob : jobID = id := by
    rw [(hj (by rw [hx]; exact hid)).1, hx]
  subst hjob
  unfold ProposeJob
  simp only [hnode, Bool.not_true, Bool.false_eq_true, if_false, he, hsub]
  cases delivered with
  | true =>
    refine ⟨_, _, _, rfl, rfl, ?_⟩
    intro _
    simp [Storage.GetJob, Storage.StoreJob, Storage.StoreProposal, GoMap.get?_set_self]
  | false =>
    exact ⟨_, _, _, rfl, rfl, fun h => by cases h⟩

/-- A spec that lacks one of the two words fails local validation. -/
theorem ValidateJobSpec_missing (spec : String)
    (h : Contains spec.toList "type".toList = false ∨
      Contains spec.toList "schemaVersion".toList = false) :
    ∃ err, ValidateJobSpec spec = some err := by
  have hne : ValidateJobSpec spec ≠ none := by
    unfold ValidateJobSpec
    by_cases he : spec = ""
    · simp [he]
    · by_cases ht : Contains spec.toList "type".toList = false
      · simp only [he, if_false, List.find?_cons, ht, Bool.not_false, Option.map_some']
        exact fun h2 => Option.noConfusion h2
      · have hs : Contains spec.toList "schemaVersion".toList = false := by
          rcases h with h | h
          · exact absurd h ht
          · exact h
        have ht2 : Contains spec.toList "type".toList = true := by
          cases hc : Contains spec.toList "type".toList
          · exact absurd hc ht
          · rfl
        simp only [he, if_false, List.find?_cons, ht2, hs, Bool.not_false, Bool.not_true,
          Option.map_some']
        exact fun h2 => Option.noConfusion h2
  cases hv : ValidateJobSpec spec with
  | none => exact absurd hv hne
  | some err => exact ⟨err, rfl⟩

/-- A spec that fails local validation is not delivered, and no request is sent. -/
theorem submitJobToNode_invalid (fuel : Nat) (s : JobDistributorServer) (n : Net)
    (nodeID spec err : String) (h : ValidateJobSpec spec = some err) :
    s.submitJobToNode fuel n nodeID spec = some (false, s, n) := by
  unfold submitJobToNode
  cases s.chainlink.GetClient nodeID with
  | none => rfl
  | some client => simp only [h]

/-- C5, the claim as stated fails: a spec that declares neither `type` nor
`schemaVersion` but mentions both words is delivered and APPROVED. -/
theorem ProposeJob_undeclared_fields_approved :
    declaresField "# no type, no schemaVersion\nname = \"x\"" "type" = false ∧
    declaresField "# no type, no schemaVersion\nname = \"x\"" "schemaVersion" = false ∧
    twoNodes.storage.NodeExists "B" = true ∧
    (twoNodes.ProposeJob 1 (World.at 5000000007 Net.accepting)
        ⟨"B", "# no type, no schemaVersion\nname = \"x\"", []⟩).map
      (fun r => r.1.map (fun resp => resp.Proposal.Status)) =
      some (Except.ok ProposalStatus.APPROVED) := by
  refine ⟨by decide, by decide, by decide, by decide⟩

/-- C5, amended: for every spec that does not contain the text `type` or does
not contain the text `schemaVersion`, ProposeJob on a node in Store returns a
REJECTED proposal without any call to the node: response and server are the
same whatever the network is and does, and the proposal is stored and returned
by GetProposal. -/
theorem ProposeJob_missing_word_rejected (s : JobDistributorServer) (w : World)
    (req : ProposeJobRequest)
    (hnode : s.storage.NodeExists req.NodeId = true)
    (hspec : Contains req.Spec.toList "type".toList = false ∨
      Contains req.Spec.toList "schemaVersion".toList = false) :
    ∃ (p : Proposal) (clk : Clock),
      p.Status = ProposalStatus.REJECTED ∧
      (∀ (fuel : Nat) (net : Net),
        s.ProposeJob fuel { w with net := net } req =
          some (Except.ok ⟨p⟩, { s with storage := s.storage.StoreProposal p },
            { w with net := net, clock := clk })) ∧
      (∀ w' : World,
        JobDistributorServer.GetProposal { s with storage := s.storage.StoreProposal p } w' p.Id =
          (Except.ok p, { s with storage := s.storage.StoreProposal p }, w')) := by
  obtain ⟨err, hv⟩ := ValidateJobSpec_missing req.Spec hspec
  obtain ⟨jobID, clk, he, -, -⟩ := extractJobIDFromSpec_ok w.clock req.Spec
  refine ⟨⟨(generateUUID clk).1, jobID, req.Spec, ProposalStatus.REJECTED,
      ProposalDeliveryStatus.DELIVERED, (generateUUID clk).2.timestampNow.1,
      (generateUUID clk).2.timestampNow.2.timestampNow.1⟩,
    (generateUUID clk).2.timestampNow.2.timestampNow.2, rfl, ?_, ?_⟩
  · intro fuel net
    unfold ProposeJob
    simp only [hnode, Bool.not_true, Bool.false_eq_true, if_false, he,
      submitJobToNode_invalid fuel s net req.NodeId req.Spec err hv]
  · intro w'
    simp [GetProposal, Storage.GetProposal, Storage.StoreProposal, GoMap.get?_set_self]

theorem ProposeJob_missing_word_rejected_witness :
    twoNodes.storage.NodeExists "B" = true ∧
    ∃ (p : Proposal) (clk : Clock),
      p.Status = ProposalStatus.REJECTED ∧
      (∀ (fuel : Nat) (net : Net),
        twoNodes.ProposeJob fuel { World.at 0 Net.accepting with net := net }
            ⟨"B", "type = \"cron\"", []⟩ =
          some (Except.ok ⟨p⟩, { twoNodes with storage := twoNodes.storage.StoreProposal p },
            { World.at 0 Net.accepting with net := net, clock := clk })) ∧
      (∀ w' : World,
        JobDistributorServer.GetProposal
            { twoNodes with storage := twoNodes.storage.StoreProposal p } w' p.Id =
          (Except.ok p, { twoNodes with storage := twoNodes.storage.StoreProposal p }, w')) :=
  ⟨by decide,
    ProposeJob_missing_word_rejected twoNodes (World.at 0 Net.accepting)
      ⟨"B", "type = \"cron\"", []⟩ (by decide) (Or.inr (by decide))⟩

/-! ## Lemmas on map loops -/

theorem rangeOrder_perm {α : Type} (choices : List Nat) (xs : List α) :
    (rangeOrder choices xs).Perm xs := by
  induction choices generalizing xs with
  | nil => exact List.Perm.refl _
  | cons c cs ih =>
    unfold rangeOrder
    cases h : xs.rotate c with
    | nil =>
      have hx : xs = [] := List.rotate_eq_nil_iff.mp h
      rw [hx]
    | cons x rest =>
      have hp : (x :: rest).Perm xs := h ▸ List.rotate_perm xs c
      exact ((ih rest).cons x).trans hp

theorem mem_rangeOrder {α : Type} (choices : List Nat) (xs : List α) (a : α) :
    a ∈ rangeOrder choices xs ↔ a ∈ xs :=
  (rangeOrder_perm choices xs).mem_iff

theorem GoMap.get?_of_mem {V : Type} (m : GoMap V) (k : String) (v : V)
    (h : (k, v) ∈ m.entries) : m.get? k = some v := by
  unfold GoMap.get?
  have key : ∀ es : List (String × V), (es.map Prod.fst).Nodup → (k, v) ∈ es →
      (es.find? (fun e => e.1 == k)).map Prod.snd = some v := by
    intro es
    induction es with
    | nil => intro _ hm; cases hm
    | cons e es ih =>
      intro hnd hm
      rw [List.map_cons, List.nodup_cons] at hnd
      rcases List.mem_cons.mp hm with he | he
      · subst he
        simp [List.find?_cons]
      · have hne : ¬ e.1 = k := by
          intro hek
          apply hnd.1
          rw [hek]
          exact List.mem_map_of_mem Prod.fst he
        have hb : (e.1 == k) = false := by simp [hne]
        simp only [List.find?_cons, hb]
        exact ih hnd.2 he
  exact key m.entries m.nodup h

theorem GoMap.mem_of_get? {V : Type} (m : GoMap V) (k : String) (v : V)
    (h : m.get? k = some v) : (k, v) ∈ m.entries := by
  unfold GoMap.get? at h
  cases hf : m.entries.find? (fun e => e.1 == k) with
  | none => rw [hf] at h; cases h
  | some e =>
    rw [hf] at h
    have h1 := List.find?_some hf
    have h2 := List.mem_of_find?_eq_some hf
    simp only [Option.map_some', Option.some.injEq] at h
    simp only [beq_iff_eq] at h1
    have : e = (k, v) := by
      cases e
      simp only at h1 h
      rw [h1, h]
    exact this ▸ h2

/-! ## RevokeJob -/

theorem proposalMatchesFilter_job (p : Proposal) (id : String) :
    Storage.proposalMatchesFilter p (some ⟨[id]⟩) = (p.JobId == id) := by
  unfold Storage.proposalMatchesFilter
  cases h : (p.JobId == id) <;> simp [h]

/-- What ListProposals returns for one job id: entries of the map whose
proposal has that job id, and all of them. -/
theorem mem_ListProposals_job (s : Storage) (it : Iter) (id : String) (e : String × Proposal) :
    e ∈ (s.ListProposals it (some ⟨[id]⟩)).1 ↔ e ∈ s.proposals.entries ∧ e.2.JobId = id := by
  unfold Storage.ListProposals Iter.range
  simp only [List.mem_filter, mem_rangeOrder, proposalMatchesFilter_job, beq_iff_eq]

/-- The loop keeps an element of the slice that none is after. -/
theorem latestOf_spec (first : String × Proposal) (proposals : List (String × Proposal)) :
    (latestOf first proposals = first ∨ latestOf first proposals ∈ proposals) ∧
    (first.2.UpdatedAt.AsTime.unixNano ≤ (latestOf first proposals).2.UpdatedAt.AsTime.unixNano) ∧
    ∀ q ∈ proposals,
      q.2.UpdatedAt.AsTime.unixNano ≤ (latestOf first proposals).2.UpdatedAt.AsTime.unixNano := by
  induction proposals generalizing first with
  | nil => exact ⟨Or.inl rfl, le_refl _, fun q hq => by cases hq⟩
  | cons p ps ih =>
    unfold latestOf
    rw [List.foldl_cons]
    by_cases hp : p.2.UpdatedAt.AsTime.After first.2.UpdatedAt.AsTime = true
    · simp only [hp, if_true]
      obtain ⟨h1, h2, h3⟩ := ih p
      unfold latestOf at h1 h2 h3
      have hlt : first.2.UpdatedAt.AsTime.unixNano < p.2.UpdatedAt.AsTime.unixNano := by
        simpa [Time.After] using hp
      refine ⟨Or.inr ?_, le_trans (le_of_lt hlt) h2, ?_⟩
      · rcases h1 with h1 | h1
        · rw [h1]; exact List.mem_cons_self _ _
        · exact List.mem_cons_of_mem _ h1
      · intro q hq
        rcases List.mem_cons.mp hq with hq | hq
        · rw [hq]; exact h2
        · exact h3 q hq
    · simp only [hp, Bool.false_eq_true, if_false]
      obtain ⟨h1, h2, h3⟩ := ih first
      unfold latestOf at h1 h2 h3
      have hle : p.2.UpdatedAt.AsTime.unixNano ≤ first.2.UpdatedAt.AsTime.unixNano := by
        have : ¬ first.2.UpdatedAt.AsTime.unixNano < p.2.UpdatedAt.AsTime.unixNano := by
          simpa [Time.After] using hp
        exact not_lt.mp this
      refine ⟨?_, h2, ?_⟩
      · rcases h1 with h1 | h1
        · exact Or.inl h1
        · exact Or.inr (List.mem_cons_of_mem _ h1)
      · intro q hq
        rcases List.mem_cons.mp hq with hq | hq
        · rw [hq]; exact le_trans hle h2
        · exact h3 q hq

/-- A valid timestamp converts to the instant it denotes: nothing wraps. -/
theorem Timestamp.AsTime_of_IsValid (x : Timestamp) (h : x.IsValid = true) :
    x.AsTime.unixNano = x.seconds * 1000000000 + x.nanos := by
  simp only [Timestamp.IsValid, Bool.and_eq_true, decide_eq_true_eq] at h
  obtain ⟨⟨⟨h1, h2⟩, h3⟩, h4⟩ := h
  have e32 : int32 x.nanos = x.nanos := by unfold int32; omega
  have e64 : int64 x.seconds = x.seconds := by unfold int64; omega
  have e64' : int64 (x.seconds + 62135596800) = x.seconds + 62135596800 := by
    unfold int64; omega
  unfold Timestamp.AsTime timeUnix
  rw [e32, e64, if_neg (by omega)]
  unfold unixTime
  rw [e64']
  ring

/-- The timestamps the service makes from a clock that reads a time between
the years 1 and 9999 are valid. -/
theorem Timestamp.New_IsValid (t : Time) (h1 : -62135596800 * 1000000000 ≤ t.unixNano)
    (h2 : t.unixNano < 253402300800 * 1000000000) : (Timestamp.New t).IsValid = true := by
  simp only [Timestamp.IsValid, Timestamp.New, Time.Unix, Time.Nanosecond, Bool.and_eq_true,
    decide_eq_true_eq]
  omega

/-- Outside the valid range the comparison is that of the wrapped seconds: a
proposal stamped with the largest `int64` second counts as older than one
stamped with second 1, and RevokeJob revokes the latter. -/
theorem RevokeJob_wraps_seconds :
    ((JobDistributorServer.RevokeJob
        ⟨(NewStorage.StoreProposal (Proposal.sample "p1" ProposalStatus.REJECTED 1)).StoreProposal
          (Proposal.sample "p2" ProposalStatus.REJECTED 9223372036854775807), NewClientManager⟩
        (World.at 5000000007 Net.accepting) "j1").1.map (fun p => p.Id)) = Except.ok "p1" := by
  decide

/-- C6: for every job id with at least one stored proposal, RevokeJob sets to
REVOKED exactly one proposal of that job, one whose updated timestamp is
maximal among the job's proposals (strictly later than every proposal of the
job whose timestamp differs from it, so the unique most recent one when the
timestamps are pairwise distinct), and leaves every other proposal in Store,
of this job or any other, unchanged. The order is that of `AsTime` and
`After`; for valid timestamps, such as the service makes, it is the order of
the seconds and then of the nanoseconds. -/
theorem RevokeJob_revokes_latest (s : JobDistributorServer) (w : World) (id : String)
    (hid : id ≠ "") (hkeyed : s.storage.proposalsKeyed)
    (hex : ∃ p ∈ s.storage.proposals.values, p.JobId = id) :
    ∃ latest : Proposal,
      s.storage.GetProposal latest.Id = some latest ∧ latest.JobId = id ∧
      (∀ q ∈ s.storage.proposals.values, q.JobId = id →
        q.UpdatedAt.AsTime.After latest.UpdatedAt.AsTime = false) ∧
      (∀ q ∈ s.storage.proposals.values, q.JobId = id →
        q.UpdatedAt.AsTime ≠ latest.UpdatedAt.AsTime →
        latest.UpdatedAt.AsTime.After q.UpdatedAt.AsTime = true) ∧
      ((∀ q ∈ s.storage.proposals.values, q.JobId = id → q.UpdatedAt.IsValid = true) →
        ∀ q ∈ s.storage.proposals.values, q.JobId = id →
          q.UpdatedAt.seconds < latest.UpdatedAt.seconds ∨
          (q.UpdatedAt.seconds = latest.UpdatedAt.seconds ∧
            q.UpdatedAt.nanos ≤ latest.UpdatedAt.nanos)) ∧
      (s.RevokeJob w id).1 =
        Except.ok { latest with
          Status := ProposalStatus.REVOKED, UpdatedAt := w.clock.timestampNow.1 } ∧
      (s.RevokeJob w id).2.1.storage.GetProposal latest.Id =
        some { latest with
          Status := ProposalStatus.REVOKED, UpdatedAt := w.clock.timestampNow.1 } ∧
      (∀ k, k ≠ latest.Id →
        (s.RevokeJob w id).2.1.storage.GetProposal k = s.storage.GetProposal k) ∧
      (s.RevokeJob w id).2.1.storage.jobs = s.storage.jobs ∧
      (s.RevokeJob w id).2.1.storage.nodes = s.storage.nodes := by
  obtain ⟨p0, hp0, hp0id⟩ := hex
  obtain ⟨e0, he0, he0p⟩ := List.mem_map.mp hp0
  have hne : (s.storage.ListProposals w.iter (some ⟨[id]⟩)).1 ≠ [] := by
    intro hnil
    have hm : e0 ∈ (s.storage.ListProposals w.iter (some ⟨[id]⟩)).1 :=
      (mem_ListProposals_job s.storage w.iter id e0).mpr ⟨he0, by rw [he0p]; exact hp0id⟩
    rw [hnil] at hm
    cases hm
  cases hl : (s.storage.ListProposals w.iter (some ⟨[id]⟩)).1 with
  | nil => exact absurd hl hne
  | cons first rest =>
    obtain ⟨hmem, -, hmax⟩ := latestOf_spec first (first :: rest)
    have hin : latestOf first (first :: rest) ∈
        (s.storage.ListProposals w.iter (some ⟨[id]⟩)).1 := by
      rw [hl]
      rcases hmem with h | h
      · rw [h]; exact List.mem_cons_self _ _
      · exact h
    obtain ⟨hentry, hjob⟩ := (mem_ListProposals_job s.storage w.iter id _).mp hin
    have hkey : (latestOf first (first :: rest)).1 = (latestOf first (first :: rest)).2.Id :=
      hkeyed _ hentry
    have hget : s.storage.GetProposal (latestOf first (first :: rest)).2.Id =
        some (latestOf first (first :: rest)).2 := by
      unfold Storage.GetProposal
      apply GoMap.get?_of_mem
      rw [← hkey]
      exact hentry
    have hle : ∀ q ∈ s.storage.proposals.values, q.JobId = id →
        q.UpdatedAt.AsTime.unixNano ≤
          (latestOf first (first :: rest)).2.UpdatedAt.AsTime.unixNano := by
      intro q hq hqid
      obtain ⟨e, he, hep⟩ := List.mem_map.mp hq
      have hm : e ∈ first :: rest := by
        rw [← hl]
        exact (mem_ListProposals_job s.storage w.iter id e).mpr ⟨he, by rw [hep]; exact hqid⟩
      have := hmax e hm
      rw [hep] at this
      exact this
    generalize hL : latestOf first (first :: rest) = latest at hin hentry hjob hkey hget hle
    have hrun : s.RevokeJob w id =
        (Except.ok ⟨latest.2.Id, latest.2.JobId, latest.2.Spec, ProposalStatus.REVOKED,
            latest.2.DeliveryStatus, latest.2.CreatedAt, w.clock.timestampNow.1⟩,
          ⟨(s.storage.writeProposal latest.1
              ⟨latest.2.Id, latest.2.JobId, latest.2.Spec, ProposalStatus.REVOKED,
                latest.2.DeliveryStatus, latest.2.CreatedAt,
                w.clock.timestampNow.1⟩).StoreProposal
              ⟨latest.2.Id, latest.2.JobId, latest.2.Spec, ProposalStatus.REVOKED,
                latest.2.DeliveryStatus, latest.2.CreatedAt, w.clock.timestampNow.1⟩,
            s.chainlink⟩,
          ⟨w.clock.timestampNow.2, w.net,
            (s.storage.ListProposals w.iter (some ⟨[id]⟩)).2⟩) := by
      unfold RevokeJob
      simp only [hid, ne_eq, not_false_eq_true, if_true, hl, hL]
    have hlatest : latest.2 ∈ s.storage.proposals.values :=
      List.mem_map.mpr ⟨latest, hentry, rfl⟩
    refine ⟨latest.2, hget, hjob, ?_, ?_, ?_, ?_, ?_, ?_, ?_, ?_⟩
    · intro q hq hqid
      have := hle q hq hqid
      simp only [Time.After, decide_eq_false_iff_not, not_lt]
      exact this
    · intro q hq hqid hdiff
      have h1 := hle q hq hqid
      simp only [Time.After, decide_eq_true_eq]
      refine lt_of_le_of_ne h1 ?_
      intro heq
      apply hdiff
      cases hq' : q.UpdatedAt.AsTime
      cases hl' : latest.2.UpdatedAt.AsTime
      rw [hq', hl'] at heq
      simp only at heq
      rw [heq]
    · intro hvalid q hq hqid
      have h1 := hle q hq hqid
      have vq := hvalid q hq hqid
      have vl := hvalid latest.2 hlatest hjob
      rw [Timestamp.AsTime_of_IsValid _ vq, Timestamp.AsTime_of_IsValid _ vl] at h1
      simp only [Timestamp.IsValid, Bool.and_eq_true, decide_eq_true_eq] at vq vl
      omega
    · rw [hrun]
    · rw [hrun]
      simp only [Storage.GetProposal, Storage.StoreProposal, Storage.writeProposal]
      rw [GoMap.get?_set_self]
    · intro k hk
      rw [hrun]
      simp only [Storage.GetProposal, Storage.StoreProposal, Storage.writeProposal]
      rw [GoMap.get?_set, if_neg hk, GoMap.get?_set, if_neg (by rw [hkey]; exact hk)]
    · rw [hrun]; rfl
    · rw [hrun]; rfl

theorem RevokeJob_revokes_latest_witness :
    ((threeProposals.RevokeJob (World.at 5000000007 Net.accepting) "j1").2.1.storage.proposals.values.map
      (fun p => (p.Id, p.Status))) =
      [("p1", ProposalStatus.REJECTED), ("p2", ProposalStatus.REVOKED),
        ("p3", ProposalStatus.REJECTED), ("p4", ProposalStatus.APPROVED)] ∧
    ∃ latest : Proposal,
      threeProposals.storage.GetProposal latest.Id = some latest ∧ latest.JobId = "j1" ∧
      (∀ q ∈ threeProposals.storage.proposals.values, q.JobId = "j1" →
        q.UpdatedAt.AsTime.After latest.UpdatedAt.AsTime = false) ∧
      (∀ q ∈ threeProposals.storage.proposals.values, q.JobId = "j1" →
        q.UpdatedAt.AsTime ≠ latest.UpdatedAt.AsTime →
        latest.UpdatedAt.AsTime.After q.UpdatedAt.AsTime = true) ∧
      ((∀ q ∈ threeProposals.storage.proposals.values, q.JobId = "j1" →
          q.UpdatedAt.IsValid = true) →
        ∀ q ∈ threeProposals.storage.proposals.values, q.JobId = "j1" →
          q.UpdatedAt.seconds < latest.UpdatedAt.seconds ∨
          (q.UpdatedAt.seconds = latest.UpdatedAt.seconds ∧
            q.UpdatedAt.nanos ≤ latest.UpdatedAt.nanos)) ∧
      (threeProposals.RevokeJob (World.at 5000000007 Net.accepting) "j1").1 =
        Except.ok { latest with
          Status := ProposalStatus.REVOKED
          UpdatedAt := (World.at 5000000007 Net.accepting).clock.timestampNow.1 } ∧
      (threeProposals.RevokeJob (World.at 5000000007 Net.accepting) "j1").2.1.storage.GetProposal
          latest.Id =
        some { latest with
          Status := ProposalStatus.REVOKED
          UpdatedAt := (World.at 5000000007 Net.accepting).clock.timestampNow.1 } ∧
      (∀ k, k ≠ latest.Id →
        (threeProposals.RevokeJob (World.at 5000000007 Net.accepting) "j1").2.1.storage.GetProposal k =
          threeProposals.storage.GetProposal k) ∧
      (threeProposals.RevokeJob (World.at 5000000007 Net.accepting) "j1").2.1.storage.jobs =
        threeProposals.storage.jobs ∧
      (threeProposals.RevokeJob (World.at 5000000007 Net.accepting) "j1").2.1.storage.nodes =
        threeProposals.storage.nodes :=
  ⟨by decide,
    RevokeJob_revokes_latest threeProposals (World.at 5000000007 Net.accepting) "j1" (by decide)
      (by unfold Storage.proposalsKeyed; decide) ⟨Proposal.sample "p1" ProposalStatus.REJECTED 1, by decide, rfl⟩⟩

/-- C7 fails on the code: with a clock that reads the same instant twice,
`generateUUID` gives a new proposal the id of an old one, and ProposeJob then
replaces a REVOKED proposal by a REJECTED one under the same id. The run
starts from a new server: register a node, propose, revoke, propose again. -/
theorem ProposeJob_overwrites_revoked :
    (serveAll 0
        [Call.RegisterNode ⟨"node", "key", []⟩,
          Call.ProposeJob ⟨"uuid_5_7", "type schemaVersion", []⟩,
          Call.RevokeJob "job_5"]
        NewJobDistributorServer (World.at 5000000007 Net.accepting)).map
      (fun r => (r.1.storage.GetProposal "uuid_5_7").map (fun p => p.Status)) =
      some (some ProposalStatus.REVOKED) ∧
    (serveAll 0
        [Call.RegisterNode ⟨"node", "key", []⟩,
          Call.ProposeJob ⟨"uuid_5_7", "type schemaVersion", []⟩,
          Call.RevokeJob "job_5",
          Call.ProposeJob ⟨"uuid_5_7", "type schemaVersion", []⟩]
        NewJobDistributorServer (World.at 5000000007 Net.accepting)).map
      (fun r => (r.1.storage.GetProposal "uuid_5_7").map (fun p => p.Status)) =
      some (some ProposalStatus.REJECTED) := by
  refine ⟨by decide, by decide⟩

/-! ## RegisterNode -/

theorem mem_setEntry {V : Type} (k : String) (v : V) (es : List (String × V))
    (e : String × V) (h : e ∈ setEntry k v es) : e = (k, v) ∨ e ∈ es := by
  induction es with
  | nil =>
    simp only [setEntry, List.mem_singleton] at h
    exact Or.inl h
  | cons d ds ih =>
    by_cases hd : d.1 = k
    · simp only [setEntry, hd, if_true, List.mem_cons] at h
      rcases h with h | h
      · exact Or.inl h
      · exact Or.inr (List.mem_cons_of_mem _ h)
    · simp only [setEntry, hd, if_false, List.mem_cons] at h
      rcases h with h | h
      · exact Or.inr (h ▸ List.mem_cons_self _ _)
      · rcases ih h with h1 | h1
        · exact Or.inl h1
        · exact Or.inr (List.mem_cons_of_mem _ h1)

theorem mem_setEntry_self {V : Type} (k : String) (v : V) (es : List (String × V)) :
    (k, v) ∈ setEntry k v es := by
  induction es with
  | nil => simp [setEntry]
  | cons d ds ih =>
    by_cases hd : d.1 = k
    · simp [setEntry, hd]
    · simp only [setEntry, hd, if_false]
      exact List.mem_cons_of_mem _ ih

theorem GoMap.mem_values_set {V : Type} (m : GoMap V) (k : String) (v x : V)
    (h : x ∈ (m.set k v).values) : x = v ∨ x ∈ m.values := by
  obtain ⟨e, he, hx⟩ := List.mem_map.mp h
  rcases mem_setEntry k v m.entries e he with h1 | h1
  · left; rw [← hx, h1]
  · right; exact List.mem_map.mpr ⟨e, h1, hx⟩

theorem GoMap.mem_values_set_self {V : Type} (m : GoMap V) (k : String) (v : V) :
    v ∈ (m.set k v).values :=
  List.mem_map.mpr ⟨(k, v), mem_setEntry_self k v m.entries, rfl⟩

/-- A node found by public key is a stored node with that key. -/
theorem GetNodeByCSAKey_some (s : Storage) (it : Iter) (publicKey : String) (node : Node)
    (h : (s.GetNodeByCSAKey it publicKey).1 = some node) :
    node ∈ s.nodes.values ∧ node.PublicKey = publicKey := by
  unfold Storage.GetNodeByCSAKey Iter.range at h
  have h1 := List.find?_some h
  have h2 := List.mem_of_find?_eq_some h
  obtain ⟨e, he, hx⟩ := List.mem_map.mp h2
  refine ⟨List.mem_map.mpr ⟨e, (mem_rangeOrder _ _ e).mp he, hx⟩, ?_⟩
  simpa using h1

/-- No node is found by public key only if no stored node has that key. -/
theorem GetNodeByCSAKey_none (s : Storage) (it : Iter) (publicKey : String)
    (h : (s.GetNodeByCSAKey it publicKey).1 = none) :
    ∀ node ∈ s.nodes.values, node.PublicKey ≠ publicKey := by
  unfold Storage.GetNodeByCSAKey Iter.range at h
  intro node hn
  obtain ⟨e, he, hx⟩ := List.mem_map.mp hn
  have hm : node ∈ (rangeOrder (it.order it.ranges) s.nodes.entries).map Prod.snd :=
    List.mem_map.mpr ⟨e, (mem_rangeOrder _ _ e).mpr he, hx⟩
  have := List.find?_eq_none.mp h node hm
  simpa using this

/-- C8: RegisterNode is idempotent on public key. If a node in Store already
carries the request's public key, it returns such a node unchanged and leaves
the server unchanged, whatever name and labels the request has; otherwise it
stores and returns a new node with the request's name, public key and labels
and connected = enabled = true. So, public keys being unique in Store, a
second call with the same key returns the same node and changes nothing. -/
theorem RegisterNode_idempotent (s : JobDistributorServer) (w : World)
    (req : RegisterNodeRequest) :
    ((∃ node ∈ s.storage.nodes.values, node.PublicKey = req.PublicKey) →
      ∃ node ∈ s.storage.nodes.values, node.PublicKey = req.PublicKey ∧
        (s.RegisterNode w req).1 = Except.ok node ∧ (s.RegisterNode w req).2.1 = s) ∧
    ((∀ node ∈ s.storage.nodes.values, node.PublicKey ≠ req.PublicKey) →
      ∃ node, (s.RegisterNode w req).1 = Except.ok node ∧
        node.Name = req.Name ∧ node.PublicKey = req.PublicKey ∧ node.Labels = req.Labels ∧
        node.IsConnected = true ∧ node.IsEnabled = true ∧
        (s.RegisterNode w req).2.1.storage.GetNode node.Id = some node ∧
        (s.RegisterNode w req).2.1.storage.jobs = s.storage.jobs ∧
        (s.RegisterNode w req).2.1.storage.proposals = s.storage.proposals) ∧
    (s.storage.uniquePublicKeys →
      ∀ (w2 : World) (req2 : RegisterNodeRequest), req2.PublicKey = req.PublicKey →
        ((s.RegisterNode w req).2.1.RegisterNode w2 req2).1 = (s.RegisterNode w req).1 ∧
        ((s.RegisterNode w req).2.1.RegisterNode w2 req2).2.1 = (s.RegisterNode w req).2.1) := by
  refine ⟨?_, ?_, ?_⟩
  · rintro ⟨n0, hn0, hk0⟩
    cases hg : (s.storage.GetNodeByCSAKey w.iter req.PublicKey).1 with
    | none => exact absurd hk0 (GetNodeByCSAKey_none _ _ _ hg n0 hn0)
    | some node =>
      obtain ⟨h1, h2⟩ := GetNodeByCSAKey_some _ _ _ _ hg
      refine ⟨node, h1, h2, ?_, ?_⟩ <;> simp only [RegisterNode, hg]
  · intro hno
    cases hg : (s.storage.GetNodeByCSAKey w.iter req.PublicKey).1 with
    | some node =>
      obtain ⟨h1, h2⟩ := GetNodeByCSAKey_some _ _ _ _ hg
      exact absurd h2 (hno node h1)
    | none =>
      simp only [RegisterNode, hg]
      refine ⟨_, rfl, rfl, rfl, rfl, rfl, rfl, ?_, rfl, rfl⟩
      simp only [Storage.GetNode, Storage.StoreNode]
      rw [GoMap.get?_set_self]
  · intro huniq w2 req2 hk
    cases hg : (s.storage.GetNodeByCSAKey w.iter req.PublicKey).1 with
    | some node =>
      obtain ⟨h1, h2⟩ := GetNodeByCSAKey_some _ _ _ _ hg
      have hs : (s.RegisterNode w req).2.1 = s := by simp only [RegisterNode, hg]
      have hr : (s.RegisterNode w req).1 = Except.ok node := by simp only [RegisterNode, hg]
      rw [hs, hr]
      cases hg2 : (s.storage.GetNodeByCSAKey w2.iter req2.PublicKey).1 with
      | none => exact absurd (h2.trans hk.symm) (GetNodeByCSAKey_none _ _ _ hg2 node h1)
      | some node2 =>
        obtain ⟨h3, h4⟩ := GetNodeByCSAKey_some _ _ _ _ hg2
        have heq : node2 = node :=
          List.inj_on_of_nodup_map huniq h3 h1 (by rw [h4, h2, hk])
        simp only [RegisterNode, hg2, heq, and_self]
    | none =>
      have hno := GetNodeByCSAKey_none _ _ _ hg
      simp only [RegisterNode, hg]
      generalize hnew : (⟨(generateUUID w.clock).1, req.Name, req.PublicKey, req.Labels, true, true,
        (generateUUID w.clock).2.timestampNow.1,
        (generateUUID w.clock).2.timestampNow.2.timestampNow.1⟩ : Node) = newNode
      have hpk : newNode.PublicKey = req.PublicKey := by rw [← hnew]
      cases hg2 : (Storage.GetNodeByCSAKey (s.storage.StoreNode newNode) w2.iter
          req2.PublicKey).1 with
      | none =>
        have := GetNodeByCSAKey_none _ _ _ hg2 newNode
          (GoMap.mem_values_set_self s.storage.nodes newNode.Id newNode)
        exact absurd (hpk.trans hk.symm) this
      | some node2 =>
        obtain ⟨h3, h4⟩ := GetNodeByCSAKey_some _ _ _ _ hg2
        have heq : node2 = newNode := by
          rcases GoMap.mem_values_set s.storage.nodes newNode.Id newNode node2 h3 with h5 | h5
          · exact h5
          · exact absurd (h4.trans hk) (hno node2 h5)
        simp only [heq, and_self]

theorem RegisterNode_idempotent_witness :
    (∃ node ∈ twoNodes.storage.nodes.values, node.PublicKey = "keyA" ∧
      (twoNodes.RegisterNode (World.at 5000000007 Net.accepting) ⟨"other", "keyA", []⟩).1 =
        Except.ok node ∧
      (twoNodes.RegisterNode (World.at 5000000007 Net.accepting) ⟨"other", "keyA", []⟩).2.1 =
        twoNodes) ∧
    (((twoNodes.RegisterNode (World.at 5000000007 Net.accepting) ⟨"other", "keyA", []⟩).2.1.RegisterNode
        (World.at 7 Net.accepting) ⟨"again", "keyA", []⟩).1 =
      (twoNodes.RegisterNode (World.at 5000000007 Net.accepting) ⟨"other", "keyA", []⟩).1 ∧
    ((twoNodes.RegisterNode (World.at 5000000007 Net.accepting) ⟨"other", "keyA", []⟩).2.1.RegisterNode
        (World.at 7 Net.accepting) ⟨"again", "keyA", []⟩).2.1 =
      (twoNodes.RegisterNode (World.at 5000000007 Net.accepting) ⟨"other", "keyA", []⟩).2.1) :=
  ⟨(RegisterNode_idempotent twoNodes (World.at 5000000007 Net.accepting)
      ⟨"other", "keyA", []⟩).1 ⟨Node.sample "A" "keyA", by decide, rfl⟩,
    (RegisterNode_idempotent twoNodes (World.at 5000000007 Net.accepting)
      ⟨"other", "keyA", []⟩).2.2 (by unfold Storage.uniquePublicKeys; decide)
      (World.at 7 Net.accepting) ⟨"again", "keyA", []⟩ rfl⟩

/-! ## The nodes collection along a run -/

theorem ProposeJob_nodes (fuel : Nat) (s : JobDistributorServer) (w : World)
    (req : ProposeJobRequest) (r : Outcome ProposeJobResponse)
    (h : s.ProposeJob fuel w req = some r) : r.2.1.storage.nodes = s.storage.nodes := by
  unfold ProposeJob at h
  by_cases hn : s.storage.NodeExists req.NodeId = true
  · obtain ⟨jobID, clk, he, -, -⟩ := extractJobIDFromSpec_ok w.clock req.Spec
    simp only [hn, Bool.not_true, Bool.false_eq_true, if_false, he] at h
    cases hsub : s.submitJobToNode fuel w.net req.NodeId req.Spec with
    | none => rw [hsub] at h; cases h
    | some out =>
      obtain ⟨delivered, s1, n1⟩ := out
      have hst := submitJobToNode_storage fuel s w.net req.NodeId req.Spec delivered s1 n1 hsub
      rw [hsub] at h
      cases delivered with
      | true =>
        simp only [Option.some.injEq] at h
        rw [← h]
        simp only [Storage.StoreJob, Storage.StoreProposal, hst]
      | false =>
        simp only [Option.some.injEq] at h
        rw [← h]
        simp only [Storage.StoreProposal, hst]
  · have hn2 : s.storage.NodeExists req.NodeId = false := by
      cases hc : s.storage.NodeExists req.NodeId
      · rfl
      · exact absurd hc hn
    simp only [hn2, Bool.not_false, if_true, Option.some.injEq] at h
    rw [← h]

theorem batchLoop_nodes (fuel : Nat) (spec : String) (labels : List Label)
    (nodeIDs : List String) (resp : BatchProposeJobResponse) (s : JobDistributorServer)
    (w : World) (r : BatchProposeJobResponse × JobDistributorServer × World)
    (h : batchLoop fuel spec labels nodeIDs resp s w = some r) :
    r.2.1.storage.nodes = s.storage.nodes := by
  induction nodeIDs generalizing resp s w with
  | nil =>
    simp only [batchLoop, Option.some.injEq] at h
    rw [← h]
  | cons nodeID rest ih =>
    unfold batchLoop at h
    cases hp : s.ProposeJob fuel w ⟨nodeID, spec, labels⟩ with
    | none => rw [hp] at h; cases h
    | some out =>
      have hn := ProposeJob_nodes fuel s w _ out hp
      obtain ⟨res, s1, w1⟩ := out
      rw [hp] at h
      cases res with
      | error err => exact (ih _ _ _ h).trans hn
      | ok proposeResp => exact (ih _ _ _ h).trans hn

theorem deleteJobFromNode_storage (fuel : Nat) (s : JobDistributorServer) (n : Net)
    (jobID : String) (b : Bool) (s1 : JobDistributorServer) (n1 : Net)
    (h : s.deleteJobFromNode fuel n jobID = some (b, s1, n1)) : s1.storage = s.storage := by
  unfold deleteJobFromNode at h
  split at h
  · cases h; rfl
  · split at h
    · cases h; rfl
    · split at h
      · cases h
      · cases h; rfl
      · cases h; rfl

theorem DeleteJob_nodes (fuel : Nat) (s : JobDistributorServer) (w : World) (id : String)
    (r : Outcome Unit) (h : s.DeleteJob fuel w id = some r) :
    r.2.1.storage.nodes = s.storage.nodes := by
  unfold DeleteJob at h
  by_cases hid : id = ""
  · simp only [hid, ne_eq, not_true_eq_false, if_false, Option.some.injEq] at h
    rw [← h]
  · simp only [hid, ne_eq, not_false_eq_true, if_true] at h
    cases hd : s.deleteJobFromNode fuel w.net id with
    | none => rw [hd] at h; cases h
    | some out =>
      obtain ⟨deleted, s1, n1⟩ := out
      have hst := deleteJobFromNode_storage fuel s w.net id deleted s1 n1 hd
      rw [hd] at h
      cases deleted with
      | true =>
        simp only [Option.some.injEq] at h
        rw [← h]
        simp only [Storage.DeleteJob, hst]
      | false =>
        simp only [Option.some.injEq] at h
        rw [← h]
        simp only [hst]

theorem RevokeJob_nodes (s : JobDistributorServer) (w : World) (id : String) :
    (s.RevokeJob w id).2.1.storage.nodes = s.storage.nodes := by
  unfold RevokeJob
  by_cases hid : id = ""
  · simp only [hid, ne_eq, not_true_eq_false, if_false]
  · simp only [hid, ne_eq, not_false_eq_true, if_true]
    split <;> rfl

theorem UpdateJob_nodes (s : JobDistributorServer) (w : World) (req : UpdateJobRequest) :
    (s.UpdateJob w req).2.1.storage.nodes = s.storage.nodes := by
  unfold UpdateJob
  by_cases hid : req.Id = ""
  · simp only [hid, ne_eq, not_true_eq_false, if_false]
  · simp only [hid, ne_eq, not_false_eq_true, if_true]
    split
    · rfl
    · split <;> rfl

theorem GetJob_server (s : JobDistributorServer) (w : World) (id : String) :
    (s.GetJob w id).2.1 = s := by
  unfold GetJob
  split
  · split <;> rfl
  · rfl

theorem GetProposal_server (s : JobDistributorServer) (w : World) (id : String) :
    (s.GetProposal w id).2.1 = s := by
  unfold GetProposal
  split <;> rfl

theorem GetNode_server (s : JobDistributorServer) (w : World) (id : String) :
    (s.GetNode w id).2.1 = s := by
  unfold GetNode
  split <;> rfl

theorem GetKeypair_server (s : JobDistributorServer) (w : World) :
    (s.GetKeypair w).2.1 = s := by
  unfold GetKeypair
  split <;> rfl

/-- Storing a node whose public key no stored node has keeps the keys unique. -/
theorem uniquePublicKeys_StoreNode (s : Storage) (node : Node)
    (huniq : s.uniquePublicKeys)
    (hnew : ∀ other ∈ s.nodes.values, other.PublicKey ≠ node.PublicKey) :
    (s.StoreNode node).uniquePublicKeys := by
  unfold Storage.uniquePublicKeys Storage.StoreNode GoMap.values GoMap.set at *
  simp only [List.map_map] at *
  have key : ∀ es : List (String × Node),
      (es.map ((fun n : Node => n.PublicKey) ∘ Prod.snd)).Nodup →
      (∀ e ∈ es, e.2.PublicKey ≠ node.PublicKey) →
      ((setEntry node.Id node es).map ((fun n : Node => n.PublicKey) ∘ Prod.snd)).Nodup := by
    intro es
    induction es with
    | nil => intro _ _; simp [setEntry]
    | cons d ds ih =>
      intro hnd hne
      rw [List.map_cons, List.nodup_cons] at hnd
      have hds : ∀ e ∈ ds, e.2.PublicKey ≠ node.PublicKey :=
        fun e he => hne e (List.mem_cons_of_mem _ he)
      by_cases hd : d.1 = node.Id
      · simp only [setEntry, hd, if_true, List.map_cons, List.nodup_cons]
        refine ⟨?_, hnd.2⟩
        intro hm
        obtain ⟨e, he, hx⟩ := List.mem_map.mp hm
        exact hds e he hx
      · simp only [setEntry, hd, if_false, List.map_cons, List.nodup_cons]
        refine ⟨?_, ih hnd.2 hds⟩
        intro hm
        obtain ⟨e, he, hx⟩ := List.mem_map.mp hm
        rcases mem_setEntry node.Id node ds e he with h1 | h1
        · rw [h1] at hx
          exact hne d (List.mem_cons_self _ _) hx.symm
        · exact hnd.1 (List.mem_map.mpr ⟨e, h1, hx⟩)
  apply key s.nodes.entries huniq
  intro e he
  exact hnew e.2 (List.mem_map.mpr ⟨e, he, rfl⟩)

theorem RegisterNode_uniquePublicKeys (s : JobDistributorServer) (w : World)
    (req : RegisterNodeRequest) (huniq : s.storage.uniquePublicKeys) :
    (s.RegisterNode w req).2.1.storage.uniquePublicKeys := by
  cases hg : (s.storage.GetNodeByCSAKey w.iter req.PublicKey).1 with
  | some node =>
    simp only [RegisterNode, hg]
    exact huniq
  | none =>
    simp only [RegisterNode, hg]
    exact uniquePublicKeys_StoreNode s.storage _ huniq (GetNodeByCSAKey_none _ _ _ hg)

/-- After RegisterNode some stored node carries the request's public key. -/
theorem RegisterNode_key_present (s : JobDistributorServer) (w : World)
    (req : RegisterNodeRequest) :
    ∃ node ∈ (s.RegisterNode w req).2.1.storage.nodes.values,
      node.PublicKey = req.PublicKey := by
  cases hg : (s.storage.GetNodeByCSAKey w.iter req.PublicKey).1 with
  | some node =>
    obtain ⟨h1, h2⟩ := GetNodeByCSAKey_some _ _ _ _ hg
    simp only [RegisterNode, hg]
    exact ⟨node, h1, h2⟩
  | none =>
    simp only [RegisterNode, hg]
    exact ⟨_, GoMap.mem_values_set_self _ _ _, rfl⟩

/-- Every call of the service keeps the public keys unique. -/
theorem serve_uniquePublicKeys (fuel : Nat) (s : JobDistributorServer) (w : World)
    (call : Call) (s' : JobDistributorServer) (w' : World)
    (h : serve fuel s w call = some (s', w')) (huniq : s.storage.uniquePublicKeys) :
    s'.storage.uniquePublicKeys := by
  have same : s'.storage.nodes = s.storage.nodes → s'.storage.uniquePublicKeys := by
    intro hn
    unfold Storage.uniquePublicKeys at *
    rw [hn]
    exact huniq
  cases call with
  | ProposeJob req =>
    simp only [serve, Option.map_eq_some'] at h
    obtain ⟨r, hr, hs⟩ := h
    have := ProposeJob_nodes fuel s w req r hr
    rw [hs] at this
    exact same this
  | BatchProposeJob req =>
    simp only [serve, Option.map_eq_some'] at h
    obtain ⟨r, hr, hs⟩ := h
    unfold BatchProposeJob at hr
    cases hb : batchLoop fuel req.Spec req.Labels req.NodeIds ⟨GoMap.empty, GoMap.empty⟩ s w with
    | none => rw [hb] at hr; cases hr
    | some out =>
      have := batchLoop_nodes fuel _ _ _ _ s w out hb
      rw [hb] at hr
      simp only [Option.some.injEq] at hr
      rw [← hr] at hs
      simp only [Prod.mk.injEq] at hs
      rw [hs.1] at this
      exact same this
  | ListJobs filter =>
    simp only [serve, ListJobs, Option.some.injEq, Prod.mk.injEq] at h
    exact same (by rw [← h.1])
  | GetJob id =>
    simp only [serve, Option.some.injEq] at h
    have := GetJob_server s w id
    rw [h] at this
    have hs : s' = s := this
    exact same (by rw [hs])
  | ListProposals filter =>
    simp only [serve, ListProposals, Option.some.injEq, Prod.mk.injEq] at h
    exact same (by rw [← h.1])
  | GetProposal id =>
    simp only [serve, Option.some.injEq] at h
    have := GetProposal_server s w id
    rw [h] at this
    have hs : s' = s := this
    exact same (by rw [hs])
  | RevokeJob id =>
    simp only [serve, Option.some.injEq] at h
    have := RevokeJob_nodes s w id
    rw [h] at this
    exact same this
  | DeleteJob id =>
    simp only [serve, Option.map_eq_some'] at h
    obtain ⟨r, hr, hs⟩ := h
    have := DeleteJob_nodes fuel s w id r hr
    rw [hs] at this
    exact same this
  | UpdateJob req =>
    simp only [serve, Option.some.injEq] at h
    have := UpdateJob_nodes s w req
    rw [h] at this
    exact same this
  | ListNodes filter =>
    simp only [serve, ListNodes, Option.some.injEq, Prod.mk.injEq] at h
    exact same (by rw [← h.1])
  | GetNode id =>
    simp only [serve, Option.some.injEq] at h
    have := GetNode_server s w id
    rw [h] at this
    have hs : s' = s := this
    exact same (by rw [hs])
  | RegisterNode req =>
    simp only [serve, Option.some.injEq] at h
    have := RegisterNode_uniquePublicKeys s w req huniq
    rw [h] at this
    exact this
  | EnableNode =>
    simp only [serve, noOp, Option.some.injEq, Prod.mk.injEq] at h
    exact same (by rw [← h.1])
  | DisableNode =>
    simp only [serve, noOp, Option.some.injEq, Prod.mk.injEq] at h
    exact same (by rw [← h.1])
  | UpdateNode =>
    simp only [serve, noOp, Option.some.injEq, Prod.mk.injEq] at h
    exact same (by rw [← h.1])
  | ListNodeChainConfigs =>
    simp only [serve, noOp, Option.some.injEq, Prod.mk.injEq] at h
    exact same (by rw [← h.1])
  | ListKeypairs =>
    simp only [serve, ListKeypairs, Option.some.injEq, Prod.mk.injEq] at h
    exact same (by rw [← h.1])
  | GetKeypair =>
    simp only [serve, Option.some.injEq] at h
    have := GetKeypair_server s w
    rw [h] at this
    have hs : s' = s := this
    exact same (by rw [hs])

theorem Reachable_uniquePublicKeys (s : JobDistributorServer) (h : Reachable s) :
    s.storage.uniquePublicKeys := by
  induction h with
  | init => unfold Storage.uniquePublicKeys; decide
  | step fuel s w call s' w' _ hstep ih => exact serve_uniquePublicKeys fuel s w call s' w' hstep ih

/-- Unique keys, one of them `k`: exactly one record carries `k`. -/
theorem one_record_of_unique (nodes : List Node) (k : String)
    (huniq : (nodes.map (fun node => node.PublicKey)).Nodup)
    (hex : ∃ node ∈ nodes, node.PublicKey = k) :
    (nodes.filter (fun node => node.PublicKey == k)).length = 1 := by
  induction nodes with
  | nil => obtain ⟨n, hn, -⟩ := hex; cases hn
  | cons a rest ih =>
    rw [List.map_cons, List.nodup_cons] at huniq
    by_cases ha : a.PublicKey = k
    · have hnone : rest.filter (fun node => node.PublicKey == k) = [] := by
        rw [List.filter_eq_nil_iff]
        intro b hb hbk
        apply huniq.1
        have : b.PublicKey = a.PublicKey := by
          rw [ha]
          simpa using hbk
        rw [← this]
        exact List.mem_map_of_mem _ hb
      have hb : (a.PublicKey == k) = true := by simp [ha]
      rw [List.filter_cons, hb, if_pos rfl, hnone]
      rfl
    · have hb : (a.PublicKey == k) = false := by simp [ha]
      rw [List.filter_cons, hb]
      simp only [Bool.false_eq_true, if_false]
      apply ih huniq.2
      obtain ⟨n, hn, hk⟩ := hex
      rcases List.mem_cons.mp hn with h1 | h1
      · rw [h1] at hk; exact absurd hk ha
      · exact ⟨n, h1, hk⟩

/-- C9: in every state reachable from a new server through any sequence of
service operations, no two Node records in Store carry the same public key; in
particular registering the same public key twice, at any two moments, leaves
exactly one Node record with that key. -/
theorem public_keys_unique (s : JobDistributorServer) (h : Reachable s) :
    s.storage.uniquePublicKeys ∧
    ∀ (w1 w2 : World) (req1 req2 : RegisterNodeRequest), req2.PublicKey = req1.PublicKey →
      (((s.RegisterNode w1 req1).2.1.RegisterNode w2 req2).2.1.storage.nodes.values.filter
        (fun node => node.PublicKey == req1.PublicKey)).length = 1 := by
  have hu := Reachable_uniquePublicKeys s h
  refine ⟨hu, ?_⟩
  intro w1 w2 req1 req2 hk
  have h1 := RegisterNode_uniquePublicKeys s w1 req1 hu
  have h2 := RegisterNode_uniquePublicKeys _ w2 req2 h1
  obtain ⟨node, hn, hpk⟩ := RegisterNode_key_present (s.RegisterNode w1 req1).2.1 w2 req2
  exact one_record_of_unique _ _ h2 ⟨node, hn, hpk.trans hk⟩

theorem public_keys_unique_witness :
    Reachable NewJobDistributorServer ∧
    NewJobDistributorServer.storage.uniquePublicKeys ∧
    (((NewJobDistributorServer.RegisterNode (World.at 5000000007 Net.accepting)
        ⟨"first", "key", []⟩).2.1.RegisterNode (World.at 6000000008 Net.accepting)
        ⟨"second", "key", []⟩).2.1.storage.nodes.values.filter
      (fun node => node.PublicKey == "key")).length = 1 :=
  ⟨Reachable.init, (public_keys_unique NewJobDistributorServer Reachable.init).1,
    (public_keys_unique NewJobDistributorServer Reachable.init).2
      (World.at 5000000007 Net.accepting) (World.at 6000000008 Net.accepting)
      ⟨"first", "key", []⟩ ⟨"second", "key", []⟩ rfl⟩

/-! ## BatchProposeJob -/

/-- Delivery depends on the client registry and the network only. -/
theorem submitJobToNode_congr (fuel : Nat) (s t : JobDistributorServer) (n : Net)
    (nodeID spec : String) (b : Bool) (s1 : JobDistributorServer) (n1 : Net)
    (hc : t.chainlink = s.chainlink)
    (h : s.submitJobToNode fuel n nodeID spec = some (b, s1, n1)) :
    t.submitJobToNode fuel n nodeID spec = some (b, { s1 with storage := t.storage }, n1) := by
  unfold submitJobToNode at h ⊢
  rw [hc]
  cases hg : s.chainlink.GetClient nodeID with
  | none =>
    rw [hg] at h
    simp only [Option.some.injEq, Prod.mk.injEq] at h
    obtain ⟨h1, h2, h3⟩ := h
    subst h1 h2 h3
    cases t
    simp only at hc
    subst hc
    rfl
  | some client =>
    rw [hg] at h
    simp only at h ⊢
    cases hv : ValidateJobSpec spec with
    | some err =>
      rw [hv] at h
      simp only [Option.some.injEq, Prod.mk.injEq] at h
      obtain ⟨h1, h2, h3⟩ := h
      subst h1 h2 h3
      cases t
      simp only at hc
      subst hc
      rfl
    | none =>
      rw [hv] at h
      simp only at h ⊢
      cases hcj : client.CreateJob fuel n spec with
      | none => rw [hcj] at h; cases h
      | some out =>
        obtain ⟨res, c1, n2⟩ := out
        rw [hcj] at h
        cases res with
        | error err =>
          simp only [Option.some.injEq, Prod.mk.injEq] at h ⊢
          obtain ⟨h1, h2, h3⟩ := h
          subst h1 h2 h3
          exact ⟨rfl, rfl, rfl⟩
        | ok job =>
          simp only [Option.some.injEq, Prod.mk.injEq] at h ⊢
          obtain ⟨h1, h2, h3⟩ := h
          subst h1 h2 h3
          exact ⟨rfl, rfl, rfl⟩

/-- What one ProposeJob call returns and leaves, given the outcome of delivery. -/
theorem ProposeJob_summary (fuel : Nat) (s : JobDistributorServer) (w : World)
    (req : ProposeJobRequest) (delivered : Bool) (s1 : JobDistributorServer) (n1 : Net)
    (hnode : s.storage.NodeExists req.NodeId = true)
    (hsub : s.submitJobToNode fuel w.net req.NodeId req.Spec = some (delivered, s1, n1)) :
    ∃ (p : Proposal) (s' : JobDistributorServer) (w' : World),
      s.ProposeJob fuel w req = some (Except.ok ⟨p⟩, s', w') ∧
      p.Status = (if delivered then ProposalStatus.APPROVED else ProposalStatus.REJECTED) ∧
      s'.chainlink = s1.chainlink ∧ s'.storage.nodes = s.storage.nodes ∧ w'.net = n1 ∧
      (delivered = true →
        ∃ job, s'.storage.GetJob p.JobId = some job ∧ job.NodeId = req.NodeId) := by
  have hst := submitJobToNode_storage fuel s w.net req.NodeId req.Spec delivered s1 n1 hsub
  obtain ⟨jobID, clk, he, -, -⟩ := extractJobIDFromSpec_ok w.clock req.Spec
  unfold ProposeJob
  simp only [hnode, Bool.not_true, Bool.false_eq_true, if_false, he, hsub]
  cases delivered with
  | true =>
    refine ⟨_, _, _, rfl, rfl, rfl, ?_, rfl, ?_⟩
    · simp only [Storage.StoreJob, Storage.StoreProposal, hst]
    · intro _
      simp [Storage.GetJob, Storage.StoreJob, Storage.StoreProposal, GoMap.get?_set_self]
  | false =>
    refine ⟨_, _, _, rfl, rfl, rfl, ?_, rfl, fun h => by cases h⟩
    simp only [Storage.StoreProposal, hst]

/-- C10, the claim as stated fails: with no client for `A` and an accepting
node behind `B`, BatchProposeJob over `A` and `B` returns no failure entry for
`A`; `A` is in the success responses with a REJECTED proposal. -/
theorem BatchProposeJob_no_failure_entry :
    twoNodes.chainlink.GetClient "A" = none ∧
    (twoNodes.BatchProposeJob 1 (World.running Net.accepting)
        ⟨["A", "B"], "type schemaVersion", []⟩).map
      (fun r => r.1.map (fun resp =>
        (resp.FailedResponses.get? "A",
          (resp.SuccessResponses.get? "A").map (fun x => x.Proposal.Status),
          (resp.SuccessResponses.get? "B").map (fun x => x.Proposal.Status)))) =
      some (Except.ok (none, some ProposalStatus.REJECTED, some ProposalStatus.APPROVED)) := by
  refine ⟨by decide, by decide⟩

/-- C10, amended: for distinct registered nodes `A` and `B` where the registry
holds no client for `A` and delivery to `B` succeeds, BatchProposeJob over
`A` and `B` returns no failure entry at all: both nodes are in the success
responses, `A` with a REJECTED proposal and `B` with an APPROVED one, and the
Job delivered to `B` is in Store afterwards. -/
theorem BatchProposeJob_rejected_and_approved (fuel : Nat) (s : JobDistributorServer)
    (w : World) (A B spec : String) (labels : List Label) (s1 : JobDistributorServer)
    (n1 : Net) (hAB : A ≠ B)
    (hA : s.storage.NodeExists A = true) (hB : s.storage.NodeExists B = true)
    (hnoclient : s.chainlink.GetClient A = none)
    (hsub : s.submitJobToNode fuel w.net B spec = some (true, s1, n1)) :
    ∃ (resp : BatchProposeJobResponse) (s' : JobDistributorServer) (w' : World)
      (pA pB : Proposal),
      s.BatchProposeJob fuel w ⟨[A, B], spec, labels⟩ = some (Except.ok resp, s', w') ∧
      resp.FailedResponses = GoMap.empty ∧
      resp.SuccessResponses.get? A = some ⟨pA⟩ ∧ pA.Status = ProposalStatus.REJECTED ∧
      resp.SuccessResponses.get? B = some ⟨pB⟩ ∧ pB.Status = ProposalStatus.APPROVED ∧
      ∃ job, s'.storage.GetJob pB.JobId = some job ∧ job.NodeId = B := by
  have hsubA : s.submitJobToNode fuel w.net A spec = some (false, s, w.net) := by
    unfold submitJobToNode
    rw [hnoclient]
  obtain ⟨pA, sA, wA, hrunA, hstA, hchA, hnodesA, hnetA, -⟩ :=
    ProposeJob_summary fuel s w ⟨A, spec, labels⟩ false s w.net hA hsubA
  have hB' : sA.storage.NodeExists B = true := by
    unfold Storage.NodeExists at hB ⊢
    rw [hnodesA]
    exact hB
  have hsubB : sA.submitJobToNode fuel wA.net B spec =
      some (true, { s1 with storage := sA.storage }, n1) := by
    rw [hnetA]
    exact submitJobToNode_congr fuel s sA w.net B spec true s1 n1 hchA hsub
  obtain ⟨pB, sB, wB, hrunB, hstB, -, -, -, hjob⟩ :=
    ProposeJob_summary fuel sA wA ⟨B, spec, labels⟩ true _ n1 hB' hsubB
  refine ⟨⟨(GoMap.empty.set A ⟨pA⟩).set B ⟨pB⟩, GoMap.empty⟩, sB, wB, pA, pB,
    ?_, ?_, ?_, ?_, ?_, ?_, hjob rfl⟩
  · unfold BatchProposeJob
    simp only [batchLoop, hrunA, hrunB]
  · rfl
  · simp only [GoMap.get?_set, hAB, if_false, if_true]
  · simpa using hstA
  · simp only [GoMap.get?_set, if_true]
  · simpa using hstB

theorem BatchProposeJob_rejected_and_approved_witness :
    ∃ (resp : BatchProposeJobResponse) (s' : JobDistributorServer) (w' : World)
      (pA pB : Proposal),
      twoNodes.BatchProposeJob 1 (World.running Net.accepting)
          ⟨["A", "B"], "type schemaVersion", []⟩ = some (Except.ok resp, s', w') ∧
      resp.FailedResponses = GoMap.empty ∧
      resp.SuccessResponses.get? "A" = some ⟨pA⟩ ∧ pA.Status = ProposalStatus.REJECTED ∧
      resp.SuccessResponses.get? "B" = some ⟨pB⟩ ∧ pB.Status = ProposalStatus.APPROVED ∧
      ∃ job, s'.storage.GetJob pB.JobId = some job ∧ job.NodeId = "B" :=
  BatchProposeJob_rejected_and_approved 1 twoNodes (World.running Net.accepting) "A" "B"
    "type schemaVersion" [] twoNodes { Net.accepting with sent := 1 } (by decide) (by decide)
    (by decide) (by decide) (by rfl)

/-! ## Calls that do not return

A delivery attempt need not return: `doRequest` answers a 401 by
authenticating and calling itself again, and authenticating goes through
`doRequest` too. -/

/-- Against a node that answers 401 to every request, `doRequest` returns for
no bound on the depth of its recursion. -/
theorem doRequest_unauthorized (fuel sent : Nat) (c : Client) (method path : String)
    (body : Payload) (headers : List (String × String)) :
    doRequest fuel c { Net.unauthorized with sent := sent } method path body headers = none := by
  induction fuel generalizing sent c method path body headers with
  | zero => rfl
  | succ fuel ih =>
    have hauth : authenticateVia (doRequest fuel) c { Net.unauthorized with sent := sent + 1 } =
        none := by
      unfold authenticateVia authenticateSessionVia
      rw [ih]
    unfold doRequest
    simp only [Net.unauthorized, Net.always, Net.Do]
    simp only [Net.unauthorized, Net.always] at hauth
    simp only [if_true, hauth]

/-- A ProposeJob call for a node whose client gets 401 to every request never
returns. -/
theorem ProposeJob_unauthorized (fuel : Nat) :
    twoNodes.ProposeJob fuel (World.at 5000000007 Net.unauthorized)
      ⟨"B", "type schemaVersion", []⟩ = none := by
  have hc : twoNodes.chainlink.GetClient "B" = some (Client.sample "B") := by decide
  have hv : ValidateJobSpec "type schemaVersion" = none := by decide
  have hn : twoNodes.storage.NodeExists "B" = true := by decide
  have hd := doRequest_unauthorized fuel 0 (Client.sample "B") "POST" "/v2/jobs"
    (Payload.CreateJobRequest "type schemaVersion") [("Content-Type", "application/json")]
  have hs : twoNodes.submitJobToNode fuel Net.unauthorized "B" "type schemaVersion" = none := by
    unfold submitJobToNode
    rw [hc]
    simp only [hv]
    unfold Client.CreateJob
    have : ({ Net.unauthorized with sent := 0 } : Net) = Net.unauthorized := rfl
    rw [this] at hd
    rw [hd]
  obtain ⟨jobID, clk, he, -, -⟩ :=
    extractJobIDFromSpec_ok (World.at 5000000007 Net.unauthorized).clock "type schemaVersion"
  unfold ProposeJob
  simp only [hn, Bool.not_true, Bool.false_eq_true, if_false, he]
  have hw : (World.at 5000000007 Net.unauthorized).net = Net.unauthorized := rfl
  rw [hw, hs]

/-! ## Proposals are stored under their own ids

The hypothesis of the statement on RevokeJob holds in every reachable state. -/

theorem proposalsKeyed_StoreProposal (s : Storage) (p : Proposal) (h : s.proposalsKeyed) :
    (s.StoreProposal p).proposalsKeyed := by
  intro e he
  rcases mem_setEntry p.Id p s.proposals.entries e he with h1 | h1
  · rw [h1]
  · exact h e h1

theorem ProposeJob_proposalsKeyed (fuel : Nat) (s : JobDistributorServer) (w : World)
    (req : ProposeJobRequest) (r : Outcome ProposeJobResponse)
    (h : s.ProposeJob fuel w req = some r) (hk : s.storage.proposalsKeyed) :
    r.2.1.storage.proposalsKeyed := by
  unfold ProposeJob at h
  by_cases hn : s.storage.NodeExists req.NodeId = true
  · obtain ⟨jobID, clk, he, -, -⟩ := extractJobIDFromSpec_ok w.clock req.Spec
    simp only [hn, Bool.not_true, Bool.false_eq_true, if_false, he] at h
    cases hsub : s.submitJobToNode fuel w.net req.NodeId req.Spec with
    | none => rw [hsub] at h; cases h
    | some out =>
      obtain ⟨delivered, s1, n1⟩ := out
      have hst := submitJobToNode_storage fuel s w.net req.NodeId req.Spec delivered s1 n1 hsub
      have hk1 : s1.storage.proposalsKeyed := by rw [hst]; exact hk
      rw [hsub] at h
      cases delivered with
      | true =>
        simp only [Option.some.injEq] at h
        rw [← h]
        exact proposalsKeyed_StoreProposal _ _ hk1
      | false =>
        simp only [Option.some.injEq] at h
        rw [← h]
        exact proposalsKeyed_StoreProposal _ _ hk1
  · have hn2 : s.storage.NodeExists req.NodeId = false := by
      cases hc : s.storage.NodeExists req.NodeId
      · rfl
      · exact absurd hc hn
    simp only [hn2, Bool.not_false, if_true, Option.some.injEq] at h
    rw [← h]
    exact hk

theorem batchLoop_proposalsKeyed (fuel : Nat) (spec : String) (labels : List Label)
    (nodeIDs : List String) (resp : BatchProposeJobResponse) (s : JobDistributorServer)
    (w : World) (r : BatchProposeJobResponse × JobDistributorServer × World)
    (h : batchLoop fuel spec labels nodeIDs resp s w = some r)
    (hk : s.storage.proposalsKeyed) : r.2.1.storage.proposalsKeyed := by
  induction nodeIDs generalizing resp s w with
  | nil =>
    simp only [batchLoop, Option.some.injEq] at h
    rw [← h]
    exact hk
  | cons nodeID rest ih =>
    unfold batchLoop at h
    cases hp : s.ProposeJob fuel w ⟨nodeID, spec, labels⟩ with
    | none => rw [hp] at h; cases h
    | some out =>
      have hn := ProposeJob_proposalsKeyed fuel s w _ out hp hk
      obtain ⟨res, s1, w1⟩ := out
      rw [hp] at h
      cases res with
      | error err => exact ih _ _ _ h hn
      | ok proposeResp => exact ih _ _ _ h hn

theorem RevokeJob_proposalsKeyed (s : JobDistributorServer) (w : World) (id : String)
    (hk : s.storage.proposalsKeyed) : (s.RevokeJob w id).2.1.storage.proposalsKeyed := by
  unfold RevokeJob
  by_cases hid : id = ""
  · simp only [hid, ne_eq, not_true_eq_false, if_false]
    exact hk
  · simp only [hid, ne_eq, not_false_eq_true, if_true]
    cases hl : (s.storage.ListProposals w.iter (some ⟨[id]⟩)).1 with
    | nil => exact hk
    | cons first rest =>
      simp only
      obtain ⟨hmem, -, -⟩ := latestOf_spec first (first :: rest)
      have hin : latestOf first (first :: rest) ∈
          (s.storage.ListProposals w.iter (some ⟨[id]⟩)).1 := by
        rw [hl]
        rcases hmem with h | h
        · rw [h]; exact List.mem_cons_self _ _
        · exact h
      have hkey := hk _ ((mem_ListProposals_job s.storage w.iter id _).mp hin).1
      apply proposalsKeyed_StoreProposal
      intro e he
      rcases mem_setEntry _ _ s.storage.proposals.entries e he with h1 | h1
      · rw [h1]
        exact hkey
      · exact hk e h1

theorem DeleteJob_proposals (fuel : Nat) (s : JobDistributorServer) (w : World) (id : String)
    (r : Outcome Unit) (h : s.DeleteJob fuel w id = some r) :
    r.2.1.storage.proposals = s.storage.proposals := by
  unfold DeleteJob at h
  by_cases hid : id = ""
  · simp only [hid, ne_eq, not_true_eq_false, if_false, Option.some.injEq] at h
    rw [← h]
  · simp only [hid, ne_eq, not_false_eq_true, if_true] at h
    cases hd : s.deleteJobFromNode fuel w.net id with
    | none => rw [hd] at h; cases h
    | some out =>
      obtain ⟨deleted, s1, n1⟩ := out
      have hst := deleteJobFromNode_storage fuel s w.net id deleted s1 n1 hd
      rw [hd] at h
      cases deleted with
      | true =>
        simp only [Option.some.injEq] at h
        rw [← h]
        simp only [Storage.DeleteJob, hst]
      | false =>
        simp only [Option.some.injEq] at h
        rw [← h]
        simp only [hst]

theorem UpdateJob_proposals (s : JobDistributorServer) (w : World) (req : UpdateJobRequest) :
    (s.UpdateJob w req).2.1.storage.proposals = s.storage.proposals := by
  unfold UpdateJob
  by_cases hid : req.Id = ""
  · simp only [hid, ne_eq, not_true_eq_false, if_false]
  · simp only [hid, ne_eq, not_false_eq_true, if_true]
    split
    · rfl
    · split <;> rfl

theorem RegisterNode_proposals (s : JobDistributorServer) (w : World)
    (req : RegisterNodeRequest) :
    (s.RegisterNode w req).2.1.storage.proposals = s.storage.proposals := by
  unfold RegisterNode
  split <;> rfl

/-- Every call of the service keeps each proposal stored under its own id. -/
theorem serve_proposalsKeyed (fuel : Nat) (s : JobDistributorServer) (w : World)
    (call : Call) (s' : JobDistributorServer) (w' : World)
    (h : serve fuel s w call = some (s', w')) (hk : s.storage.proposalsKeyed) :
    s'.storage.proposalsKeyed := by
  have same : s'.storage.proposals = s.storage.proposals → s'.storage.proposalsKeyed := by
    intro hn
    unfold Storage.proposalsKeyed at *
    rw [hn]
    exact hk
  cases call with
  | ProposeJob req =>
    simp only [serve, Option.map_eq_some'] at h
    obtain ⟨r, hr, hs⟩ := h
    have := ProposeJob_proposalsKeyed fuel s w req r hr hk
    rw [hs] at this
    exact this
  | BatchProposeJob req =>
    simp only [serve, Option.map_eq_some'] at h
    obtain ⟨r, hr, hs⟩ := h
    unfold BatchProposeJob at hr
    cases hb : batchLoop fuel req.Spec req.Labels req.NodeIds ⟨GoMap.empty, GoMap.empty⟩ s w with
    | none => rw [hb] at hr; cases hr
    | some out =>
      have := batchLoop_proposalsKeyed fuel _ _ _ _ s w out hb hk
      rw [hb] at hr
      simp only [Option.some.injEq] at hr
      rw [← hr] at hs
      simp only [Prod.mk.injEq] at hs
      rw [hs.1] at this
      exact this
  | ListJobs filter =>
    simp only [serve, ListJobs, Option.some.injEq, Prod.mk.injEq] at h
    exact same (by rw [← h.1])
  | GetJob id =>
    simp only [serve, Option.some.injEq] at h
    have := GetJob_server s w id
    rw [h] at this
    have hs : s' = s := this
    exact same (by rw [hs])
  | ListProposals filter =>
    simp only [serve, ListProposals, Option.some.injEq, Prod.mk.injEq] at h
    exact same (by rw [← h.1])
  | GetProposal id =>
    simp only [serve, Option.some.injEq] at h
    have := GetProposal_server s w id
    rw [h] at this
    have hs : s' = s := this
    exact same (by rw [hs])
  | RevokeJob id =>
    simp only [serve, Option.some.injEq] at h
    have := RevokeJob_proposalsKeyed s w id hk
    rw [h] at this
    exact this
  | DeleteJob id =>
    simp only [serve, Option.map_eq_some'] at h
    obtain ⟨r, hr, hs⟩ := h
    have := DeleteJob_proposals fuel s w id r hr
    rw [hs] at this
    exact same this
  | UpdateJob req =>
    simp only [serve, Option.some.injEq] at h
    have := UpdateJob_proposals s w req
    rw [h] at this
    exact same this
  | ListNodes filter =>
    simp only [serve, ListNodes, Option.some.injEq, Prod.mk.injEq] at h
    exact same (by rw [← h.1])
  | GetNode id =>
    simp only [serve, Option.some.injEq] at h
    have := GetNode_server s w id
    rw [h] at this
    have hs : s' = s := this
    exact same (by rw [hs])
  | RegisterNode req =>
    simp only [serve, Option.some.injEq] at h
    have := RegisterNode_proposals s w req
    rw [h] at this
    exact same this
  | EnableNode =>
    simp only [serve, noOp, Option.some.injEq, Prod.mk.injEq] at h
    exact same (by rw [← h.1])
  | DisableNode =>
    simp only [serve, noOp, Option.some.injEq, Prod.mk.injEq] at h
    exact same (by rw [← h.1])
  | UpdateNode =>
    simp only [serve, noOp, Option.some.injEq, Prod.mk.injEq] at h
    exact same (by rw [← h.1])
  | ListNodeChainConfigs =>
    simp only [serve, noOp, Option.some.injEq, Prod.mk.injEq] at h
    exact same (by rw [← h.1])
  | ListKeypairs =>
    simp only [serve, ListKeypairs, Option.some.injEq, Prod.mk.injEq] at h
    exact same (by rw [← h.1])
  | GetKeypair =>
    simp only [serve, Option.some.injEq] at h
    have := GetKeypair_server s w
    rw [h] at this
    have hs : s' = s := this
    exact same (by rw [hs])

/-- In every reachable state each proposal is stored under its own id. -/
theorem Reachable_proposalsKeyed (s : JobDistributorServer) (h : Reachable s) :
    s.storage.proposalsKeyed := by
  induction h with
  | init => intro e he; cases he
  | step fuel s w call s' w' _ hstep ih => exact serve_proposalsKeyed fuel s w call s' w' hstep ih


/-! ## BatchProposeJob as a fan-out -/

/-- What the loop of BatchProposeJob adds to the two maps for one outcome. -/
theorem batchLoop_proposeEach (fuel : Nat) (spec : String) (labels : List Label)
    (nodeIDs : List String) (resp : BatchProposeJobResponse) (s : JobDistributorServer)
    (w : World) :
    (proposeEach fuel spec labels nodeIDs s w = none →
      batchLoop fuel spec labels nodeIDs resp s w = none) ∧
    (∀ results s' w', proposeEach fuel spec labels nodeIDs s w = some (results, s', w') →
      ∃ resp', batchLoop fuel spec labels nodeIDs resp s w = some (resp', s', w') ∧
        results.map Prod.fst = nodeIDs ∧
        (∀ id, id ∉ nodeIDs →
          resp'.SuccessResponses.get? id = resp.SuccessResponses.get? id ∧
          resp'.FailedResponses.get? id = resp.FailedResponses.get? id) ∧
        (nodeIDs.Nodup → ∀ id r, (id, r) ∈ results →
          match r with
          | Except.error err =>
            resp'.FailedResponses.get? id = some ⟨err.Error⟩ ∧
            resp'.SuccessResponses.get? id = resp.SuccessResponses.get? id
          | Except.ok proposeResp =>
            resp'.SuccessResponses.get? id = some proposeResp ∧
            resp'.FailedResponses.get? id = resp.FailedResponses.get? id)) := by
  induction nodeIDs generalizing resp s w with
  | nil =>
    refine ⟨fun h => by simp [proposeEach] at h, ?_⟩
    intro results s' w' h
    simp only [proposeEach, Option.some.injEq, Prod.mk.injEq] at h
    obtain ⟨h1, h2, h3⟩ := h
    subst h1 h2 h3
    exact ⟨resp, rfl, rfl, fun _ _ => ⟨rfl, rfl⟩, fun _ id r hm => by cases hm⟩
  | cons nodeID rest ih =>
    cases hp : s.ProposeJob fuel w ⟨nodeID, spec, labels⟩ with
    | none =>
      refine ⟨fun _ => by simp only [batchLoop, hp], ?_⟩
      intro results s' w' h
      simp [proposeEach, hp] at h
    | some out =>
      obtain ⟨r, s1, w1⟩ := out
      have hstep : ∀ resp1 : BatchProposeJobResponse,
          (match r with
            | Except.error err =>
              ({ resp with FailedResponses := resp.FailedResponses.set nodeID ⟨err.Error⟩ } :
                BatchProposeJobResponse)
            | Except.ok proposeResp =>
              { resp with SuccessResponses := resp.SuccessResponses.set nodeID proposeResp }) =
            resp1 →
          batchLoop fuel spec labels (nodeID :: rest) resp s w =
            batchLoop fuel spec labels rest resp1 s1 w1 := by
        intro resp1 h1
        subst h1
        cases r <;> simp only [batchLoop, hp]
      cases r with
      | error err =>
        have hb := hstep _ rfl
        simp only at hb
        obtain ⟨ihn, ihs⟩ := ih
          { resp with FailedResponses := resp.FailedResponses.set nodeID ⟨err.Error⟩ } s1 w1
        refine ⟨?_, ?_⟩
        · intro h
          rw [hb]
          apply ihn
          cases hr : proposeEach fuel spec labels rest s1 w1 with
          | none => rfl
          | some o => simp [proposeEach, hp, hr] at h
        · intro results s' w' h
          cases hr : proposeEach fuel spec labels rest s1 w1 with
          | none => simp [proposeEach, hp, hr] at h
          | some o =>
            obtain ⟨rs, s2, w2⟩ := o
            simp only [proposeEach, hp, hr, Option.some.injEq, Prod.mk.injEq] at h
            obtain ⟨h1, h2, h3⟩ := h
            subst h1 h2 h3
            obtain ⟨resp', hrun, hkeys, hout, hin⟩ := ihs rs s2 w2 hr
            refine ⟨resp', by rw [hb]; exact hrun, by simp [hkeys], ?_, ?_⟩
            · intro id hid
              have hne : id ≠ nodeID := fun h => hid (h ▸ List.mem_cons_self _ _)
              have hnr : id ∉ rest := fun h => hid (List.mem_cons_of_mem _ h)
              obtain ⟨h1, h2⟩ := hout id hnr
              refine ⟨h1, ?_⟩
              rw [h2]
              simp only [GoMap.get?_set, hne, if_false]
            · intro hnd id r hm
              rw [List.nodup_cons] at hnd
              rcases List.mem_cons.mp hm with h1 | h1
              · simp only [Prod.mk.injEq] at h1
                obtain ⟨h1, h2⟩ := h1
                subst h1 h2
                obtain ⟨h3, h4⟩ := hout id hnd.1
                simp only
                refine ⟨?_, h3⟩
                rw [h4]
                simp only [GoMap.get?_set, if_true]
              · have hidr : id ∈ rest := by
                  rw [← hkeys]
                  exact List.mem_map_of_mem Prod.fst h1
                have hne : id ≠ nodeID := fun h => hnd.1 (h ▸ hidr)
                have := hin hnd.2 id r h1
                cases r with
                | error e =>
                  simp only at this ⊢
                  exact this
                | ok pr =>
                  simp only at this ⊢
                  refine ⟨this.1, ?_⟩
                  rw [this.2]
                  simp only [GoMap.get?_set, hne, if_false]
      | ok proposeResp =>
        have hb := hstep _ rfl
        simp only at hb
        obtain ⟨ihn, ihs⟩ := ih
          { resp with SuccessResponses := resp.SuccessResponses.set nodeID proposeResp } s1 w1
        refine ⟨?_, ?_⟩
        · intro h
          rw [hb]
          apply ihn
          cases hr : proposeEach fuel spec labels rest s1 w1 with
          | none => rfl
          | some o => simp [proposeEach, hp, hr] at h
        · intro results s' w' h
          cases hr : proposeEach fuel spec labels rest s1 w1 with
          | none => simp [proposeEach, hp, hr] at h
          | some o =>
            obtain ⟨rs, s2, w2⟩ := o
            simp only [proposeEach, hp, hr, Option.some.injEq, Prod.mk.injEq] at h
            obtain ⟨h1, h2, h3⟩ := h
            subst h1 h2 h3
            obtain ⟨resp', hrun, hkeys, hout, hin⟩ := ihs rs s2 w2 hr
            refine ⟨resp', by rw [hb]; exact hrun, by simp [hkeys], ?_, ?_⟩
            · intro id hid
              have hne : id ≠ nodeID := fun h => hid (h ▸ List.mem_cons_self _ _)
              have hnr : id ∉ rest := fun h => hid (List.mem_cons_of_mem _ h)
              obtain ⟨h1, h2⟩ := hout id hnr
              refine ⟨?_, h2⟩
              rw [h1]
              simp only [GoMap.get?_set, hne, if_false]
            · intro hnd id r hm
              rw [List.nodup_cons] at hnd
              rcases List.mem_cons.mp hm with h1 | h1
              · simp only [Prod.mk.injEq] at h1
                obtain ⟨h1, h2⟩ := h1
                subst h1 h2
                obtain ⟨h3, h4⟩ := hout id hnd.1
                simp only
                refine ⟨?_, h4⟩
                rw [h3]
                simp only [GoMap.get?_set, if_true]
              · have hidr : id ∈ rest := by
                  rw [← hkeys]
                  exact List.mem_map_of_mem Prod.fst h1
                have hne : id ≠ nodeID := fun h => hnd.1 (h ▸ hidr)
                have := hin hnd.2 id r h1
                cases r with
                | error e =>
                  simp only at this ⊢
                  refine ⟨this.1, ?_⟩
                  rw [this.2]
                  simp only [GoMap.get?_set, hne, if_false]
                | ok pr =>
                  simp only at this ⊢
                  exact this

/-- C11: BatchProposeJob is the sequential fan-out of ProposeJob. For every
list of pairwise distinct node ids it returns exactly when the ProposeJob
calls made one after the other return, and then never with a service error:
its final server and world are those the sequence of calls leaves, every
listed node id is a key of exactly one of the success and failure maps, with
the response or the error of its own call, the failure map holding it exactly
when that call returned an error, and no other id is a key of either map. -/
theorem BatchProposeJob_fan_out (fuel : Nat) (s : JobDistributorServer) (w : World)
    (req : BatchProposeJobRequest) (hd : req.NodeIds.Nodup) :
    (proposeEach fuel req.Spec req.Labels req.NodeIds s w = none →
      s.BatchProposeJob fuel w req = none) ∧
    (∀ results s' w',
      proposeEach fuel req.Spec req.Labels req.NodeIds s w = some (results, s', w') →
      ∃ resp, s.BatchProposeJob fuel w req = some (Except.ok resp, s', w') ∧
        results.map Prod.fst = req.NodeIds ∧
        (∀ id r, (id, r) ∈ results →
          match r with
          | Except.error err =>
            resp.FailedResponses.get? id = some ⟨err.Error⟩ ∧
            resp.SuccessResponses.get? id = none
          | Except.ok proposeResp =>
            resp.SuccessResponses.get? id = some proposeResp ∧
            resp.FailedResponses.get? id = none) ∧
        (∀ id, id ∉ req.NodeIds →
          resp.SuccessResponses.get? id = none ∧ resp.FailedResponses.get? id = none)) := by
  obtain ⟨hn, hs⟩ := batchLoop_proposeEach fuel req.Spec req.Labels req.NodeIds
    ⟨GoMap.empty, GoMap.empty⟩ s w
  refine ⟨?_, ?_⟩
  · intro h
    unfold BatchProposeJob
    rw [hn h]
  · intro results s' w' h
    obtain ⟨resp, hrun, hkeys, hout, hin⟩ := hs results s' w' h
    refine ⟨resp, ?_, hkeys, ?_, ?_⟩
    · unfold BatchProposeJob
      rw [hrun]
    · intro id r hm
      have := hin hd id r hm
      cases r with
      | error err => simp only at this ⊢; exact ⟨this.1, this.2⟩
      | ok pr => simp only at this ⊢; exact ⟨this.1, this.2⟩
    · intro id hid
      obtain ⟨h1, h2⟩ := hout id hid
      exact ⟨h1, h2⟩

theorem BatchProposeJob_fan_out_witness :
    ["A", "C", "B"].Nodup ∧
    (twoNodes.BatchProposeJob 1 (World.running Net.accepting)
        ⟨["A", "C", "B"], "type schemaVersion", []⟩).map
      (fun r => r.1.map (fun resp =>
        ((resp.SuccessResponses.get? "A").map (fun x => x.Proposal.Status),
          resp.FailedResponses.get? "C",
          (resp.SuccessResponses.get? "B").map (fun x => x.Proposal.Status)))) =
      some (Except.ok (some ProposalStatus.REJECTED,
        some ⟨"rpc error: code = NotFound desc = node C not found"⟩,
        some ProposalStatus.APPROVED)) ∧
    ∃ results s' w' resp,
      proposeEach 1 "type schemaVersion" [] ["A", "C", "B"] twoNodes
        (World.running Net.accepting) = some (results, s', w') ∧
      twoNodes.BatchProposeJob 1 (World.running Net.accepting)
        ⟨["A", "C", "B"], "type schemaVersion", []⟩ = some (Except.ok resp, s', w') ∧
      results.map Prod.fst = ["A", "C", "B"] := by
  refine ⟨by decide, by decide, ?_⟩
  have hsome : (proposeEach 1 "type schemaVersion" [] ["A", "C", "B"] twoNodes
      (World.running Net.accepting)).isSome = true := by decide
  cases h : proposeEach 1 "type schemaVersion" [] ["A", "C", "B"] twoNodes
      (World.running Net.accepting) with
  | none => rw [h] at hsome; cases hsome
  | some o =>
    obtain ⟨results, s', w'⟩ := o
    obtain ⟨resp, hrun, hkeys, -, -⟩ :=
      (BatchProposeJob_fan_out 1 twoNodes (World.running Net.accepting)
        ⟨["A", "C", "B"], "type schemaVersion", []⟩ (by decide)).2 results s' w' h
    exact ⟨results, s', w', resp, rfl, hrun, hkeys⟩

/-! ## DeleteJob, ListJobs, UpdateJob and the failures of RevokeJob -/

theorem GoMap.get?_delete {V : Type} (m : GoMap V) (k k' : String) :
    (m.delete k).get? k' = if k' = k then none else m.get? k' := by
  unfold GoMap.get? GoMap.delete
  simp only
  induction m.entries with
  | nil => simp
  | cons e es ih =>
    by_cases hk : k' = k
    · subst hk
      simp only [if_true] at ih ⊢
      by_cases he : e.1 = k'
      · have hb : (!(e.1 == k')) = false := by simp [he]
        rw [List.filter_cons, hb]
        simp only [Bool.false_eq_true, if_false]
        exact ih
      · have hb : (!(e.1 == k')) = true := by simp [he]
        have hb2 : (e.1 == k') = false := by simp [he]
        rw [List.filter_cons, hb]
        simp only [if_true, List.find?_cons, hb2]
        exact ih
    · simp only [hk, if_false] at ih ⊢
      by_cases he : e.1 = k
      · have hb : (!(e.1 == k)) = false := by simp [he]
        have hb2 : (e.1 == k') = false := by
          simp only [beq_eq_false_iff_ne, ne_eq]
          intro h
          exact hk (h.symm.trans he)
        rw [List.filter_cons, hb]
        simp only [Bool.false_eq_true, if_false, List.find?_cons, hb2]
        exact ih
      · have hb : (!(e.1 == k)) = true := by simp [he]
        rw [List.filter_cons, hb]
        simp only [if_true, List.find?_cons]
        cases (e.1 == k')
        · exact ih
        · rfl

/-- DeleteJob case by case: no job, no client, and what the client's DeleteJob
returns. -/
theorem DeleteJob_cases (fuel : Nat) (s : JobDistributorServer) (w : World)
    (id : String) (hid : id ≠ "") :
    (s.storage.GetJob id = none → s.DeleteJob fuel w id = some (Except.ok (), s, w)) ∧
    (∀ job, s.storage.GetJob id = some job → s.chainlink.GetClient job.NodeId = none →
      s.DeleteJob fuel w id = some (Except.ok (), s, w)) ∧
    (∀ job client res c1 n1, s.storage.GetJob id = some job →
      s.chainlink.GetClient job.NodeId = some client →
      client.DeleteJob fuel w.net id = some (res, c1, n1) →
      ∃ s', s.DeleteJob fuel w id = some (Except.ok (), s', { w with net := n1 }) ∧
        s'.storage.proposals = s.storage.proposals ∧
        s'.storage.nodes = s.storage.nodes ∧
        (∀ err, res = some err → s'.storage = s.storage) ∧
        (res = none → s'.storage.GetJob id = none ∧
          ∀ k, k ≠ id → s'.storage.GetJob k = s.storage.GetJob k)) := by
  refine ⟨?_, ?_, ?_⟩
  · intro hj
    simp only [DeleteJob, hid, ne_eq, not_false_eq_true, if_true, deleteJobFromNode, hj]
  · intro job hj hc
    simp only [DeleteJob, hid, ne_eq, not_false_eq_true, if_true, deleteJobFromNode, hj, hc]
  · intro job client res c1 n1 hj hc hd
    cases res with
    | some err =>
      refine ⟨⟨s.storage, ⟨s.chainlink.clients.set job.NodeId c1⟩⟩, ?_, rfl, rfl,
        fun _ _ => rfl, fun h => by cases h⟩
      simp only [DeleteJob, hid, ne_eq, not_false_eq_true, if_true, deleteJobFromNode, hj, hc,
        hd]
    | none =>
      refine ⟨⟨s.storage.DeleteJob id, ⟨s.chainlink.clients.set job.NodeId c1⟩⟩, ?_, rfl, rfl,
        (fun _ h => by cases h), fun _ => ⟨?_, ?_⟩⟩
      · simp only [DeleteJob, hid, ne_eq, not_false_eq_true, if_true, deleteJobFromNode, hj,
          hc, hd]
      · simp only [Storage.GetJob, Storage.DeleteJob]
        rw [GoMap.get?_delete, if_pos rfl]
      · intro k hk
        simp only [Storage.GetJob, Storage.DeleteJob]
        rw [GoMap.get?_delete, if_neg hk]

theorem jobMatchesFilter_eq_passesFilter (job : Job) (filter : Option ListJobsRequest_Filter) :
    Storage.jobMatchesFilter job filter = passesFilter job filter := by
  cases filter with
  | none => rfl
  | some f =>
    obtain ⟨ids, nodeIds⟩ := f
    have hany : ∀ (l : List String) (a : String),
        (decide (0 < l.length) && !(l.any (fun x => a == x))) = !(l.isEmpty || l.contains a) := by
      intro l a
      cases l with
      | nil => rfl
      | cons x xs =>
        have hc : (x :: xs).contains a = (x :: xs).any (fun y => a == y) := by
          induction (x :: xs) with
          | nil => rfl
          | cons y ys ih =>
            simp only [List.contains, List.elem, List.any_cons] at ih ⊢
            cases hay : a == y
            · simp only [Bool.false_or]
              exact ih
            · rfl
        rw [hc]
        simp
    unfold Storage.jobMatchesFilter passesFilter
    simp only
    rw [hany nodeIds job.NodeId, hany ids job.Id]
    cases (nodeIds.isEmpty || nodeIds.contains job.NodeId) <;>
      cases (ids.isEmpty || ids.contains job.Id) <;> rfl

/-- C13: ListJobs returns exactly the stored jobs that pass the filter, each
once, in an order left unspecified, and changes nothing. With a non-empty
node-id filter every job returned has its node id in the filter; a non-empty
id filter is applied together with it; with an absent filter, or one whose
lists are both empty, every stored job is returned. -/
theorem ListJobs_returns_the_filtered_jobs (s : JobDistributorServer) (w : World)
    (filter : Option ListJobsRequest_Filter) :
    ∃ jobs, (s.ListJobs w filter).1 = Except.ok jobs ∧ (s.ListJobs w filter).2.1 = s ∧
      jobs.Perm (s.storage.jobs.values.filter (fun job => passesFilter job filter)) ∧
      (∀ job, job ∈ jobs ↔ job ∈ s.storage.jobs.values ∧ passesFilter job filter = true) ∧
      (∀ f, filter = some f → f.NodeIds ≠ [] → ∀ job ∈ jobs, job.NodeId ∈ f.NodeIds) ∧
      (∀ f, filter = some f → f.Ids ≠ [] → ∀ job ∈ jobs, job.Id ∈ f.Ids) ∧
      (filter = none ∨ filter = some ⟨[], []⟩ → jobs.Perm s.storage.jobs.values) := by
  have hperm : (s.storage.ListJobs w.iter filter).1.Perm
      (s.storage.jobs.values.filter (fun job => passesFilter job filter)) := by
    have h2 : (fun job => Storage.jobMatchesFilter job filter) =
        (fun job => passesFilter job filter) := by
      funext job
      exact jobMatchesFilter_eq_passesFilter job filter
    unfold Storage.ListJobs Iter.range GoMap.values
    simp only
    rw [h2]
    exact ((rangeOrder_perm (w.iter.order w.iter.ranges) s.storage.jobs.entries).map
      Prod.snd).filter (fun job => passesFilter job filter)
  have hmem : ∀ job, job ∈ (s.storage.ListJobs w.iter filter).1 ↔
      job ∈ s.storage.jobs.values ∧ passesFilter job filter = true := by
    intro job
    rw [hperm.mem_iff, List.mem_filter]
  refine ⟨(s.storage.ListJobs w.iter filter).1, rfl, rfl, hperm, hmem, ?_, ?_, ?_⟩
  · intro f hf hne job hj
    have hp := ((hmem job).mp hj).2
    rw [hf] at hp
    simp only [passesFilter, Bool.and_eq_true, Bool.or_eq_true, List.isEmpty_iff] at hp
    rcases hp.1 with h | h
    · exact absurd h hne
    · simpa using h
  · intro f hf hne job hj
    have hp := ((hmem job).mp hj).2
    rw [hf] at hp
    simp only [passesFilter, Bool.and_eq_true, Bool.or_eq_true, List.isEmpty_iff] at hp
    rcases hp.2 with h | h
    · exact absurd h hne
    · simpa using h
  · intro hf
    have hall : (s.storage.jobs.values.filter (fun job => passesFilter job filter)) =
        s.storage.jobs.values := by
      rw [List.filter_eq_self]
      intro job _
      rcases hf with h | h <;> rw [h] <;> rfl
    rw [hall] at hperm
    exact hperm

theorem ListJobs_returns_the_filtered_jobs_witness :
    (twoJobs.ListJobs (World.at 0 Net.accepting) (some ⟨[], ["B"]⟩)).1 =
      Except.ok [Job.sample "jb" "B"] ∧
    ∃ jobs, (twoJobs.ListJobs (World.at 0 Net.accepting) (some ⟨[], ["B"]⟩)).1 = Except.ok jobs ∧
      ∀ job ∈ jobs, job.NodeId ∈ ["B"] := by
  refine ⟨by decide, ?_⟩
  obtain ⟨jobs, h1, -, -, -, h2, -, -⟩ :=
    ListJobs_returns_the_filtered_jobs twoJobs (World.at 0 Net.accepting) (some ⟨[], ["B"]⟩)
  exact ⟨jobs, h1, h2 ⟨[], ["B"]⟩ rfl (by decide)⟩

/-- C14: UpdateJob fails with InvalidArgument for an empty id, with NotFound
when no Job with that id is in Store, and with Internal when the Job exists but
the registry has no client for its node, leaving the server unchanged in each
failing case; otherwise it replaces only the Job's labels and updated
timestamp with the request's labels and the time of the call, keeping id,
uuid, node id, proposal ids and created timestamp, and changes no other job,
no proposal, no node and no client. -/
theorem UpdateJob_changes_labels_only (s : JobDistributorServer) (w : World)
    (req : UpdateJobRequest) :
    (req.Id = "" →
      s.UpdateJob w req = (Except.error ⟨Code.InvalidArgument, "job ID is required"⟩, s, w)) ∧
    (req.Id ≠ "" → s.storage.GetJob req.Id = none →
      s.UpdateJob w req =
        (Except.error ⟨Code.NotFound, "job " ++ req.Id ++ " not found"⟩, s, w)) ∧
    (req.Id ≠ "" → ∀ job, s.storage.GetJob req.Id = some job →
      s.chainlink.GetClient job.NodeId = none →
      s.UpdateJob w req =
        (Except.error ⟨Code.Internal, "no client found for node " ++ job.NodeId⟩, s, w)) ∧
    (req.Id ≠ "" → ∀ job client, s.storage.GetJob req.Id = some job →
      s.chainlink.GetClient job.NodeId = some client →
      ∃ updated : Job,
        (s.UpdateJob w req).1 = Except.ok updated ∧
        updated.Id = req.Id ∧ (s.storage.jobsKeyed → updated.Id = job.Id) ∧
        updated.Uuid = job.Uuid ∧ updated.NodeId = job.NodeId ∧
        updated.ProposalIds = job.ProposalIds ∧ updated.CreatedAt = job.CreatedAt ∧
        updated.Labels = req.Labels ∧ updated.UpdatedAt = w.clock.timestampNow.1 ∧
        (s.UpdateJob w req).2.1.storage.GetJob req.Id = some updated ∧
        (∀ k, k ≠ req.Id → (s.UpdateJob w req).2.1.storage.GetJob k = s.storage.GetJob k) ∧
        (s.UpdateJob w req).2.1.storage.proposals = s.storage.proposals ∧
        (s.UpdateJob w req).2.1.storage.nodes = s.storage.nodes ∧
        (s.UpdateJob w req).2.1.chainlink = s.chainlink) := by
  refine ⟨?_, ?_, ?_, ?_⟩
  · intro hid
    simp only [UpdateJob, hid, ne_eq, not_true_eq_false, if_false]
  · intro hid hj
    simp only [UpdateJob, hid, ne_eq, not_false_eq_true, if_true, hj]
  · intro hid job hj hc
    simp only [UpdateJob, hid, ne_eq, not_false_eq_true, if_true, hj, hc]
  · intro hid job client hj hc
    have hrun : s.UpdateJob w req =
        (Except.ok ⟨req.Id, job.Uuid, job.NodeId, job.ProposalIds, req.Labels, job.CreatedAt,
            w.clock.timestampNow.1⟩,
          ⟨s.storage.StoreJob ⟨req.Id, job.Uuid, job.NodeId, job.ProposalIds, req.Labels,
            job.CreatedAt, w.clock.timestampNow.1⟩, s.chainlink⟩,
          ⟨w.clock.timestampNow.2, w.net, w.iter⟩) := by
      simp only [UpdateJob, hid, ne_eq, not_false_eq_true, if_true, hj, hc]
    rw [hrun]
    refine ⟨_, rfl, rfl, ?_, rfl, rfl, rfl, rfl, rfl, rfl, ?_, ?_, rfl, rfl, rfl⟩
    · intro hk
      have hm := GoMap.mem_of_get? s.storage.jobs req.Id job hj
      exact hk _ hm
    · simp only [Storage.GetJob, Storage.StoreJob]
      rw [GoMap.get?_set_self]
    · intro k hk
      simp only [Storage.GetJob, Storage.StoreJob]
      rw [GoMap.get?_set, if_neg hk]

theorem UpdateJob_changes_labels_only_witness :
    twoJobs.UpdateJob (World.at 0 Net.accepting) ⟨"ja", [⟨"k", some "v"⟩]⟩ =
      (Except.error ⟨Code.Internal, "no client found for node " ++ "A"⟩, twoJobs,
        World.at 0 Net.accepting) ∧
    ∃ updated : Job,
      (twoJobs.UpdateJob (World.at 5000000007 Net.accepting) ⟨"jb", [⟨"k", some "v"⟩]⟩).1 =
        Except.ok updated ∧
      updated.Id = "jb" ∧ updated.NodeId = "B" ∧ updated.ProposalIds = ["p-jb"] ∧
      updated.Labels = [⟨"k", some "v"⟩] ∧ updated.UpdatedAt = ⟨5, 7⟩ := by
  refine ⟨(UpdateJob_changes_labels_only twoJobs (World.at 0 Net.accepting)
      ⟨"ja", [⟨"k", some "v"⟩]⟩).2.2.1 (by decide) (Job.sample "ja" "A") (by decide)
      (by decide), ?_⟩
  obtain ⟨updated, h1, h2, -, -, h3, h4, -, h5, h6, -⟩ :=
    (UpdateJob_changes_labels_only twoJobs (World.at 5000000007 Net.accepting)
      ⟨"jb", [⟨"k", some "v"⟩]⟩).2.2.2 (by decide) (Job.sample "jb" "B") (Client.sample "B")
      (by decide) (by decide)
  exact ⟨updated, h1, h2, h3, h4, h5, h6⟩

/-- C15: RevokeJob fails with InvalidArgument when the job id is empty and
with NotFound exactly when the id is non-empty and no stored proposal has that
job id; in every failing case the server is unchanged; and RevokeJob never
changes the jobs, the nodes or the clients. -/
theorem RevokeJob_failures (s : JobDistributorServer) (w : World) (id : String) :
    (id = "" →
      (s.RevokeJob w id).1 = Except.error ⟨Code.InvalidArgument, "job ID is required"⟩ ∧
      (s.RevokeJob w id).2.1 = s) ∧
    (id ≠ "" → (∀ p ∈ s.storage.proposals.values, p.JobId ≠ id) →
      (s.RevokeJob w id).1 =
        Except.error ⟨Code.NotFound, "no proposals found for job " ++ id⟩ ∧
      (s.RevokeJob w id).2.1 = s) ∧
    (id ≠ "" → (∃ p ∈ s.storage.proposals.values, p.JobId = id) →
      ∃ revoked : Proposal, (s.RevokeJob w id).1 = Except.ok revoked ∧
        revoked.Status = ProposalStatus.REVOKED ∧ revoked.JobId = id) ∧
    (s.RevokeJob w id).2.1.storage.jobs = s.storage.jobs ∧
    (s.RevokeJob w id).2.1.storage.nodes = s.storage.nodes ∧
    (s.RevokeJob w id).2.1.chainlink = s.chainlink := by
  have hframe : (s.RevokeJob w id).2.1.storage.jobs = s.storage.jobs ∧
      (s.RevokeJob w id).2.1.storage.nodes = s.storage.nodes ∧
      (s.RevokeJob w id).2.1.chainlink = s.chainlink := by
    unfold RevokeJob
    by_cases hid : id = ""
    · simp only [hid, ne_eq, not_true_eq_false, if_false, and_self]
    · simp only [hid, ne_eq, not_false_eq_true, if_true]
      split <;> exact ⟨rfl, rfl, rfl⟩
  refine ⟨?_, ?_, ?_, hframe⟩
  · intro hid
    simp only [RevokeJob, hid, ne_eq, not_true_eq_false, if_false, and_self]
  · intro hid hno
    have hnil : (s.storage.ListProposals w.iter (some ⟨[id]⟩)).1 = [] := by
      cases hl : (s.storage.ListProposals w.iter (some ⟨[id]⟩)).1 with
      | nil => rfl
      | cons e rest =>
        have hm : e ∈ (s.storage.ListProposals w.iter (some ⟨[id]⟩)).1 := by
          rw [hl]; exact List.mem_cons_self _ _
        obtain ⟨h1, h2⟩ := (mem_ListProposals_job s.storage w.iter id e).mp hm
        exact absurd h2 (hno e.2 (List.mem_map_of_mem Prod.snd h1))
    simp only [RevokeJob, hid, ne_eq, not_false_eq_true, if_true, hnil, and_self]
  · rintro hid ⟨p, hp, hpid⟩
    obtain ⟨e, he, hep⟩ := List.mem_map.mp hp
    have hm : e ∈ (s.storage.ListProposals w.iter (some ⟨[id]⟩)).1 :=
      (mem_ListProposals_job s.storage w.iter id e).mpr ⟨he, by rw [hep]; exact hpid⟩
    cases hl : (s.storage.ListProposals w.iter (some ⟨[id]⟩)).1 with
    | nil => rw [hl] at hm; cases hm
    | cons first rest =>
      obtain ⟨hmem, -, -⟩ := latestOf_spec first (first :: rest)
      have hin : latestOf first (first :: rest) ∈
          (s.storage.ListProposals w.iter (some ⟨[id]⟩)).1 := by
        rw [hl]
        rcases hmem with h | h
        · rw [h]; exact List.mem_cons_self _ _
        · exact h
      have hjob := ((mem_ListProposals_job s.storage w.iter id _).mp hin).2
      simp only [RevokeJob, hid, ne_eq, not_false_eq_true, if_true, hl]
      exact ⟨_, rfl, rfl, hjob⟩

theorem RevokeJob_failures_witness :
    (threeProposals.RevokeJob (World.at 0 Net.accepting) "").1 =
      Except.error ⟨Code.InvalidArgument, "job ID is required"⟩ ∧
    ((threeProposals.RevokeJob (World.at 0 Net.accepting) "j9").1 =
      Except.error ⟨Code.NotFound, "no proposals found for job " ++ "j9"⟩ ∧
    (threeProposals.RevokeJob (World.at 0 Net.accepting) "j9").2.1 = threeProposals) :=
  ⟨((RevokeJob_failures threeProposals (World.at 0 Net.accepting) "").1 rfl).1,
    (RevokeJob_failures threeProposals (World.at 0 Net.accepting) "j9").2.1 (by decide)
      (by decide)⟩

/-! ## The registry and the jobs along a run

No operation of the service adds a client to the registry, so a server that
starts with an empty registry keeps it empty and never stores a job. -/

theorem GoMap.get?_empty {V : Type} (k : String) : (GoMap.empty : GoMap V).get? k = none := rfl

/-- Without clients nothing is delivered and the server is left as it is. -/
theorem submitJobToNode_no_clients (fuel : Nat) (s : JobDistributorServer) (n : Net)
    (nodeID spec : String) (h : s.chainlink = NewClientManager) :
    s.submitJobToNode fuel n nodeID spec = some (false, s, n) := by
  unfold submitJobToNode
  rw [h]
  rfl

theorem ProposeJob_no_clients (fuel : Nat) (s : JobDistributorServer) (w : World)
    (req : ProposeJobRequest) (hc : s.chainlink = NewClientManager) :
    ∃ r, s.ProposeJob fuel w req = some r ∧ r.2.1.chainlink = s.chainlink ∧
      r.2.1.storage.jobs = s.storage.jobs := by
  unfold ProposeJob
  by_cases hn : s.storage.NodeExists req.NodeId = true
  · obtain ⟨jobID, clk, he, -, -⟩ := extractJobIDFromSpec_ok w.clock req.Spec
    simp only [hn, Bool.not_true, Bool.false_eq_true, if_false, he,
      submitJobToNode_no_clients fuel s w.net req.NodeId req.Spec hc]
    exact ⟨_, rfl, rfl, rfl⟩
  · have hn2 : s.storage.NodeExists req.NodeId = false := by
      cases hx : s.storage.NodeExists req.NodeId
      · rfl
      · exact absurd hx hn
    simp only [hn2, Bool.not_false, if_true]
    exact ⟨_, rfl, rfl, rfl⟩

theorem batchLoop_no_clients (fuel : Nat) (spec : String) (labels : List Label)
    (nodeIDs : List String) (resp : BatchProposeJobResponse) (s : JobDistributorServer)
    (w : World) (hc : s.chainlink = NewClientManager) :
    ∃ r, batchLoop fuel spec labels nodeIDs resp s w = some r ∧
      r.2.1.chainlink = s.chainlink ∧ r.2.1.storage.jobs = s.storage.jobs := by
  induction nodeIDs generalizing resp s w with
  | nil => exact ⟨_, rfl, rfl, rfl⟩
  | cons nodeID rest ih =>
    obtain ⟨out, hp, h1, h2⟩ := ProposeJob_no_clients fuel s w ⟨nodeID, spec, labels⟩ hc
    obtain ⟨res, s1, w1⟩ := out
    have hc1 : s1.chainlink = NewClientManager := h1.trans hc
    cases res with
    | error err =>
      obtain ⟨r, hr, h3, h4⟩ := ih
        { resp with FailedResponses := resp.FailedResponses.set nodeID ⟨err.Error⟩ } s1 w1 hc1
      refine ⟨r, ?_, h3.trans h1, h4.trans h2⟩
      simp only [batchLoop, hp]
      exact hr
    | ok proposeResp =>
      obtain ⟨r, hr, h3, h4⟩ := ih
        { resp with SuccessResponses := resp.SuccessResponses.set nodeID proposeResp } s1 w1 hc1
      refine ⟨r, ?_, h3.trans h1, h4.trans h2⟩
      simp only [batchLoop, hp]
      exact hr

theorem RevokeJob_frame (s : JobDistributorServer) (w : World) (id : String) :
    (s.RevokeJob w id).2.1.storage.jobs = s.storage.jobs ∧
    (s.RevokeJob w id).2.1.chainlink = s.chainlink := by
  unfold RevokeJob
  by_cases hid : id = ""
  · simp only [hid, ne_eq, not_true_eq_false, if_false, and_self]
  · simp only [hid, ne_eq, not_false_eq_true, if_true]
    split <;> exact ⟨rfl, rfl⟩

theorem RegisterNode_frame (s : JobDistributorServer) (w : World) (req : RegisterNodeRequest) :
    (s.RegisterNode w req).2.1.storage.jobs = s.storage.jobs ∧
    (s.RegisterNode w req).2.1.chainlink = s.chainlink := by
  unfold RegisterNode
  split <;> exact ⟨rfl, rfl⟩

theorem DeleteJob_no_jobs (fuel : Nat) (s : JobDistributorServer) (w : World) (id : String)
    (hj : s.storage.jobs = GoMap.empty) :
    ∃ r, s.DeleteJob fuel w id = some r ∧ r.2.1 = s := by
  have hg : s.storage.GetJob id = none := by
    unfold Storage.GetJob
    rw [hj]
    rfl
  unfold DeleteJob
  by_cases hid : id = ""
  · simp only [hid, ne_eq, not_true_eq_false, if_false]
    exact ⟨_, rfl, rfl⟩
  · simp only [hid, ne_eq, not_false_eq_true, if_true, deleteJobFromNode, hg]
    exact ⟨_, rfl, rfl⟩

theorem UpdateJob_no_jobs (s : JobDistributorServer) (w : World) (req : UpdateJobRequest)
    (hj : s.storage.jobs = GoMap.empty) : (s.UpdateJob w req).2.1 = s := by
  have hg : s.storage.GetJob req.Id = none := by
    unfold Storage.GetJob
    rw [hj]
    rfl
  unfold UpdateJob
  by_cases hid : req.Id = ""
  · simp only [hid, ne_eq, not_true_eq_false, if_false]
  · simp only [hid, ne_eq, not_false_eq_true, if_true, hg]

/-- Every call on a server without clients and without jobs returns and leaves
it without clients and without jobs. -/
theorem serve_no_clients (fuel : Nat) (s : JobDistributorServer) (w : World) (call : Call)
    (hc : s.chainlink = NewClientManager) (hj : s.storage.jobs = GoMap.empty) :
    ∃ s' w', serve fuel s w call = some (s', w') ∧ s'.chainlink = NewClientManager ∧
      s'.storage.jobs = GoMap.empty := by
  have same : ∀ w' : World, ∃ (s'' : JobDistributorServer) (w'' : World),
      some (s, w') = some (s'', w'') ∧
      s''.chainlink = NewClientManager ∧ s''.storage.jobs = GoMap.empty :=
    fun w' => ⟨s, w', rfl, hc, hj⟩
  cases call with
  | ProposeJob req =>
    obtain ⟨r, hr, h1, h2⟩ := ProposeJob_no_clients fuel s w req hc
    exact ⟨r.2.1, r.2.2, by simp only [serve, hr, Option.map_some'], h1.trans hc, h2.trans hj⟩
  | BatchProposeJob req =>
    obtain ⟨r, hr, h1, h2⟩ := batchLoop_no_clients fuel req.Spec req.Labels req.NodeIds
      ⟨GoMap.empty, GoMap.empty⟩ s w hc
    exact ⟨r.2.1, r.2.2, by simp only [serve, BatchProposeJob, hr, Option.map_some'],
      h1.trans hc, h2.trans hj⟩
  | ListJobs filter => exact same _
  | GetJob id =>
    refine ⟨(s.GetJob w id).2.1, (s.GetJob w id).2.2, rfl, ?_, ?_⟩ <;>
      rw [GetJob_server] <;> assumption
  | ListProposals filter => exact same _
  | GetProposal id =>
    refine ⟨(s.GetProposal w id).2.1, (s.GetProposal w id).2.2, rfl, ?_, ?_⟩ <;>
      rw [GetProposal_server] <;> assumption
  | RevokeJob id =>
    obtain ⟨h1, h2⟩ := RevokeJob_frame s w id
    exact ⟨(s.RevokeJob w id).2.1, (s.RevokeJob w id).2.2, rfl, h2.trans hc, h1.trans hj⟩
  | DeleteJob id =>
    obtain ⟨r, hr, h1⟩ := DeleteJob_no_jobs fuel s w id hj
    refine ⟨r.2.1, r.2.2, by simp only [serve, hr, Option.map_some'], ?_, ?_⟩ <;>
      rw [h1] <;> assumption
  | UpdateJob req =>
    refine ⟨(s.UpdateJob w req).2.1, (s.UpdateJob w req).2.2, rfl, ?_, ?_⟩ <;>
      rw [UpdateJob_no_jobs s w req hj] <;> assumption
  | ListNodes filter => exact same _
  | GetNode id =>
    refine ⟨(s.GetNode w id).2.1, (s.GetNode w id).2.2, rfl, ?_, ?_⟩ <;>
      rw [GetNode_server] <;> assumption
  | RegisterNode req =>
    obtain ⟨h1, h2⟩ := RegisterNode_frame s w req
    exact ⟨(s.RegisterNode w req).2.1, (s.RegisterNode w req).2.2, rfl, h2.trans hc,
      h1.trans hj⟩
  | EnableNode => exact same _
  | DisableNode => exact same _
  | UpdateNode => exact same _
  | ListNodeChainConfigs => exact same _
  | ListKeypairs => exact same _
  | GetKeypair =>
    refine ⟨(s.GetKeypair w).2.1, (s.GetKeypair w).2.2, rfl, ?_, ?_⟩ <;>
      rw [GetKeypair_server] <;> assumption

/-- In every reachable state the registry is empty and Store holds no job. -/
theorem Reachable_no_clients (s : JobDistributorServer) (h : Reachable s) :
    s.chainlink = NewClientManager ∧ s.storage.jobs = GoMap.empty := by
  induction h with
  | init => exact ⟨rfl, rfl⟩
  | step fuel s w call s' w' _ hstep ih =>
    obtain ⟨s'', w'', h1, h2, h3⟩ := serve_no_clients fuel s w call ih.1 ih.2
    rw [hstep] at h1
    simp only [Option.some.injEq, Prod.mk.injEq] at h1
    rw [h1.1]
    exact ⟨h2, h3⟩

/-! ## The proposal ids of a job -/

/-- C17, the claim as stated fails: after two successful ProposeJob calls for
the same job id `j`, the stored Job references the second proposal only; the
id of the first is not among its proposal ids. -/
theorem ProposeJob_twice_forgets_first :
    (serveAll 1
        [Call.ProposeJob ⟨"B", "type schemaVersion\nexternalJobID = \"j\"", []⟩]
        twoNodes (World.running Net.accepting)).map
      (fun r => (r.1.storage.proposals.values.map (fun p => (p.Id, p.JobId, p.Status)),
        (r.1.storage.GetJob "j").map (fun job => job.ProposalIds))) =
      some ([("uuid_1_2", "j", ProposalStatus.APPROVED)], some ["uuid_1_2"]) ∧
    (serveAll 1
        [Call.ProposeJob ⟨"B", "type schemaVersion\nexternalJobID = \"j\"", []⟩,
          Call.ProposeJob ⟨"B", "type schemaVersion\nexternalJobID = \"j\"", []⟩]
        twoNodes (World.running Net.accepting)).map
      (fun r => (r.1.storage.proposals.values.map (fun p => (p.Id, p.JobId, p.Status)),
        (r.1.storage.GetJob "j").map (fun job => job.ProposalIds))) =
      some ([("uuid_1_2", "j", ProposalStatus.APPROVED),
          ("uuid_7_8", "j", ProposalStatus.APPROVED)], some ["uuid_7_8"]) := by
  refine ⟨by decide, by decide⟩

/-- After a ProposeJob call that returns an APPROVED proposal, the Job stored
under the proposal's job id references that proposal and no other. -/
theorem ProposeJob_approved_job (fuel : Nat) (s s' : JobDistributorServer) (w w' : World)
    (req : ProposeJobRequest) (p : Proposal)
    (h : s.ProposeJob fuel w req = some (Except.ok ⟨p⟩, s', w'))
    (ha : p.Status = ProposalStatus.APPROVED) :
    ∃ job, s'.storage.GetJob p.JobId = some job ∧ job.ProposalIds = [p.Id] := by
  unfold ProposeJob at h
  by_cases hn : s.storage.NodeExists req.NodeId = true
  · obtain ⟨jobID, clk, he, -, -⟩ := extractJobIDFromSpec_ok w.clock req.Spec
    simp only [hn, Bool.not_true, Bool.false_eq_true, if_false, he] at h
    cases hsub : s.submitJobToNode fuel w.net req.NodeId req.Spec with
    | none => rw [hsub] at h; cases h
    | some out =>
      obtain ⟨delivered, s1, n1⟩ := out
      rw [hsub] at h
      cases delivered with
      | true =>
        simp only [Option.some.injEq, Prod.mk.injEq, Except.ok.injEq,
          ProposeJobResponse.mk.injEq] at h
        obtain ⟨hp, hs, -⟩ := h
        subst hp hs
        refine ⟨?j, ?a, ?b⟩
        case a =>
          simp only [Storage.GetJob, Storage.StoreJob, Storage.StoreProposal]
          exact GoMap.get?_set_self _ _ _
        case b => rfl
      | false =>
        simp only [Option.some.injEq, Prod.mk.injEq, Except.ok.injEq,
          ProposeJobResponse.mk.injEq] at h
        obtain ⟨hp, -, -⟩ := h
        subst hp
        cases ha
  · have hn2 : s.storage.NodeExists req.NodeId = false := by
      cases hx : s.storage.NodeExists req.NodeId
      · rfl
      · exact absurd hx hn
    simp only [hn2, Bool.not_false, if_true, Option.some.injEq, Prod.mk.injEq] at h
    cases h.1

/-- C17, amended: a Job's proposal ids are the id of the last proposal
delivered for it. After two successful ProposeJob calls that resolve to the
same job id, the stored Job's proposal ids, which were exactly the id of the
first proposal after the first call, are exactly the id of the second
proposal; the id of the first is among them only if the two ids are equal. -/
theorem ProposeJob_twice_keeps_last (fuel : Nat) (s s1 s2 : JobDistributorServer)
    (w w1 w2 : World) (req1 req2 : ProposeJobRequest) (p1 p2 : Proposal)
    (h1 : s.ProposeJob fuel w req1 = some (Except.ok ⟨p1⟩, s1, w1))
    (h2 : s1.ProposeJob fuel w1 req2 = some (Except.ok ⟨p2⟩, s2, w2))
    (ha1 : p1.Status = ProposalStatus.APPROVED) (ha2 : p2.Status = ProposalStatus.APPROVED)
    (hjob : p2.JobId = p1.JobId) :
    (∃ job, s1.storage.GetJob p1.JobId = some job ∧ job.ProposalIds = [p1.Id]) ∧
    ∃ job, s2.storage.GetJob p1.JobId = some job ∧ job.ProposalIds = [p2.Id] ∧
      (p1.Id ∈ job.ProposalIds ↔ p1.Id = p2.Id) := by
  refine ⟨ProposeJob_approved_job fuel s s1 w w1 req1 p1 h1 ha1, ?_⟩
  obtain ⟨job, hg, hids⟩ := ProposeJob_approved_job fuel s1 s2 w1 w2 req2 p2 h2 ha2
  rw [hjob] at hg
  refine ⟨job, hg, hids, ?_⟩
  rw [hids, List.mem_singleton]

theorem ProposeJob_twice_keeps_last_witness :
    ∃ (s1 s2 : JobDistributorServer) (w1 w2 : World) (p1 p2 : Proposal),
      twoNodes.ProposeJob 1 (World.running Net.accepting)
        ⟨"B", "type schemaVersion\nexternalJobID = \"j\"", []⟩ = some (Except.ok ⟨p1⟩, s1, w1) ∧
      s1.ProposeJob 1 w1 ⟨"B", "type schemaVersion\nexternalJobID = \"j\"", []⟩ =
        some (Except.ok ⟨p2⟩, s2, w2) ∧
      (∃ job, s1.storage.GetJob p1.JobId = some job ∧ job.ProposalIds = [p1.Id]) ∧
      ∃ job, s2.storage.GetJob p1.JobId = some job ∧ job.ProposalIds = [p2.Id] ∧
        (p1.Id ∈ job.ProposalIds ↔ p1.Id = p2.Id) := by
  have f1 : (twoNodes.ProposeJob 1 (World.running Net.accepting)
      ⟨"B", "type schemaVersion\nexternalJobID = \"j\"", []⟩).map
      (fun r => r.1.map (fun x => (x.Proposal.Status, x.Proposal.JobId))) =
      some (Except.ok (ProposalStatus.APPROVED, "j")) := by decide
  have f2 : ((twoNodes.ProposeJob 1 (World.running Net.accepting)
      ⟨"B", "type schemaVersion\nexternalJobID = \"j\"", []⟩).bind
      (fun r => r.2.1.ProposeJob 1 r.2.2
        ⟨"B", "type schemaVersion\nexternalJobID = \"j\"", []⟩)).map
      (fun r => r.1.map (fun x => (x.Proposal.Status, x.Proposal.JobId))) =
      some (Except.ok (ProposalStatus.APPROVED, "j")) := by decide
  cases h1 : twoNodes.ProposeJob 1 (World.running Net.accepting)
      ⟨"B", "type schemaVersion\nexternalJobID = \"j\"", []⟩ with
  | none => rw [h1] at f1; cases f1
  | some o1 =>
    obtain ⟨res1, s1, w1⟩ := o1
    rw [h1] at f1 f2
    simp only [Option.some_bind] at f2
    cases res1 with
    | error e => cases f1
    | ok x1 =>
      obtain ⟨p1⟩ := x1
      cases h2 : s1.ProposeJob 1 w1 ⟨"B", "type schemaVersion\nexternalJobID = \"j\"", []⟩ with
      | none => rw [h2] at f2; cases f2
      | some o2 =>
        obtain ⟨res2, s2, w2⟩ := o2
        rw [h2] at f2
        cases res2 with
        | error e => cases f2
        | ok x2 =>
          obtain ⟨p2⟩ := x2
          simp only [Option.map_some', Except.map, Option.some.injEq, Except.ok.injEq,
            Prod.mk.injEq] at f1 f2
          exact ⟨s1, s2, w1, w2, p1, p2, rfl, h2,
            ProposeJob_twice_keeps_last 1 twoNodes s1 s2 (World.running Net.accepting) w1 w2
              ⟨"B", "type schemaVersion\nexternalJobID = \"j\"", []⟩
              ⟨"B", "type schemaVersion\nexternalJobID = \"j\"", []⟩ p1 p2 h1 h2 f1.1 f2.1
              (f2.2.trans f1.2.symm)⟩

/-! ## A node without a client -/

/-- C18, the claim as stated fails: for the node `A`, which is in Store and
has no client, ProposeJob returns a proposal and DeleteJob returns an empty
response; neither fails with Internal. -/
theorem no_client_not_internal :
    twoJobs.storage.NodeExists "A" = true ∧ twoJobs.chainlink.GetClient "A" = none ∧
    (twoJobs.storage.GetJob "ja").map (fun job => job.NodeId) = some "A" ∧
    (twoJobs.ProposeJob 1 (World.at 0 Net.accepting) ⟨"A", "type schemaVersion", []⟩).map
      (fun r => r.1.map (fun resp => resp.Proposal.Status)) =
      some (Except.ok ProposalStatus.REJECTED) ∧
    (twoJobs.DeleteJob 1 (World.at 0 Net.accepting) "ja").map (fun r => r.1) =
      some (Except.ok ()) := by
  refine ⟨by decide, by decide, by decide, by decide, by decide⟩

/-- C18, amended: when a node record exists in Store but the registry holds no
client for it, UpdateJob of a job living on that node fails with an Internal
error, distinct from NotFound, and changes nothing; ProposeJob to that node
returns success with a REJECTED proposal, which it stores, and sends nothing;
DeleteJob of a job living on that node returns success and changes nothing. -/
theorem no_client_outcomes (fuel : Nat) (s : JobDistributorServer) (w : World)
    (nodeID : String) (hnode : s.storage.NodeExists nodeID = true)
    (hnone : s.chainlink.GetClient nodeID = none) :
    (∀ spec labels, ∃ (p : Proposal) (clk : Clock),
      s.ProposeJob fuel w ⟨nodeID, spec, labels⟩ =
        some (Except.ok ⟨p⟩, { s with storage := s.storage.StoreProposal p },
          { w with clock := clk }) ∧
      p.Status = ProposalStatus.REJECTED) ∧
    (∀ id job, id ≠ "" → s.storage.GetJob id = some job → job.NodeId = nodeID →
      s.DeleteJob fuel w id = some (Except.ok (), s, w)) ∧
    (∀ (req : UpdateJobRequest) job, req.Id ≠ "" → s.storage.GetJob req.Id = some job →
      job.NodeId = nodeID →
      s.UpdateJob w req =
        (Except.error ⟨Code.Internal, "no client found for node " ++ nodeID⟩, s, w)) := by
  refine ⟨?_, ?_, ?_⟩
  · intro spec labels
    obtain ⟨jobID, clk, he, -, -⟩ := extractJobIDFromSpec_ok w.clock spec
    have hsub : s.submitJobToNode fuel w.net nodeID spec = some (false, s, w.net) := by
      unfold submitJobToNode
      rw [hnone]
    refine ⟨⟨(generateUUID clk).1, jobID, spec, ProposalStatus.REJECTED,
      ProposalDeliveryStatus.DELIVERED, (generateUUID clk).2.timestampNow.1,
      (generateUUID clk).2.timestampNow.2.timestampNow.1⟩,
      (generateUUID clk).2.timestampNow.2.timestampNow.2, ?_, rfl⟩
    unfold ProposeJob
    simp only [hnode, Bool.not_true, Bool.false_eq_true, if_false, he, hsub]
  · intro id job hid hj hn
    subst hn
    simp only [DeleteJob, hid, ne_eq, not_false_eq_true, if_true, deleteJobFromNode, hj, hnone]
  · intro req job hid hj hn
    subst hn
    simp only [UpdateJob, hid, ne_eq, not_false_eq_true, if_true, hj, hnone]

theorem no_client_outcomes_witness :
    twoJobs.storage.NodeExists "A" = true ∧ twoJobs.chainlink.GetClient "A" = none ∧
    twoJobs.DeleteJob 1 (World.at 0 Net.accepting) "ja" =
      some (Except.ok (), twoJobs, World.at 0 Net.accepting) ∧
    twoJobs.UpdateJob (World.at 0 Net.accepting) ⟨"ja", []⟩ =
      (Except.error ⟨Code.Internal, "no client found for node " ++ "A"⟩, twoJobs,
        World.at 0 Net.accepting) :=
  ⟨by decide, by decide,
    (no_client_outcomes 1 twoJobs (World.at 0 Net.accepting) "A" (by decide) (by decide)).2.1
      "ja" (Job.sample "ja" "A") (by decide) (by decide) rfl,
    (no_client_outcomes 1 twoJobs (World.at 0 Net.accepting) "A" (by decide) (by decide)).2.2
      ⟨"ja", []⟩ (Job.sample "ja" "A") (by decide) (by decide) rfl⟩

/-! ## The retry of `doRequest` -/

/-- Against a node that answers every request but the session login with 401,
`doRequest` returns for no bound on the depth of its recursion, although every
re-authentication succeeds. -/
theorem doRequest_expiring (fuel sent : Nat) (c : Client) (method path : String)
    (body : Payload) (headers : List (String × String))
    (hb : ∀ email password, body ≠ Payload.SessionRequest email password) :
    doRequest fuel c { Net.expiring with sent := sent } method path body headers = none := by
  induction fuel generalizing sent c body with
  | zero => rfl
  | succ fuel ih =>
    have hfirst : (({ Net.expiring with sent := sent } : Net).Do
        (buildRequest c method path body headers)) =
        (Except.ok ⟨401, [], "unauthorized", none⟩, { Net.expiring with sent := sent + 1 }) := by
      cases body with
      | SessionRequest e p => exact absurd rfl (hb e p)
      | nil => rfl
      | LoginRequest e p => rfl
      | CreateJobRequest t => rfl
      | drained => rfl
    have hafter : ∀ email password, body.afterSend ≠ Payload.SessionRequest email password := by
      intro e p
      cases body <;> simp [Payload.afterSend]
    have hauth : authenticateVia (doRequest fuel) c { Net.expiring with sent := sent + 1 } = none ∨
        ∃ c1 sent1, authenticateVia (doRequest fuel) c { Net.expiring with sent := sent + 1 } =
          some (none, c1, { Net.expiring with sent := sent1 }) := by
      cases fuel with
      | zero => left; rfl
      | succ k =>
        right
        exact ⟨{ c with SessionCookie := "fresh" }, sent + 2, rfl⟩
    unfold doRequest
    have hnew : ({ Net.expiring with sent := sent } : Net).newRequestErr method
        (c.BaseURL ++ path) = none := rfl
    have hnew2 : Net.expiring.newRequestErr method (c.BaseURL ++ path) = none := rfl
    simp only [hnew, hnew2, hfirst, if_true]
    rcases hauth with h | ⟨c1, sent1, h⟩
    · rw [h]
    · rw [h]
      exact ih sent1 c1 body.afterSend hafter

/-- C19, the claim as stated fails: more than one re-authentication and more
than one retry are performed. A node answers 401 until four requests have been
sent, while each session login succeeds: one call of `doRequest` then
re-authenticates twice and sends the request three times, five round trips in
all. When the node keeps answering 401, the call never returns. -/
theorem doRequest_retries_without_bound :
    (doRequest 3 (Client.sample "B") (Net.expiringUntil 4) "GET" "/v2/jobs" Payload.nil []).map
      (fun r => (r.1.map (fun resp => resp.StatusCode), r.2.2.sent)) =
      some (Except.ok 200, 5) ∧
    (doRequest 2 (Client.sample "B") (Net.expiringUntil 4) "GET" "/v2/jobs" Payload.nil []).isSome =
      false ∧
    ∀ fuel, doRequest fuel (Client.sample "B") Net.expiring "GET" "/v2/jobs" Payload.nil [] =
      none := by
  refine ⟨by decide, by decide, ?_⟩
  intro fuel
  exact doRequest_expiring fuel 0 (Client.sample "B") "GET" "/v2/jobs" Payload.nil []
    (fun _ _ h => by cases h)

/-! ## authenticate -/

/-- C20: authenticate tries session authentication first. When the session
attempt succeeds, which is when the login request is answered with status 200
and a `clsession` cookie, authenticate returns nil at once, nothing more is
sent, and the client holds the value of that cookie as its session token.
When the session attempt fails, by an error of the request, a status other
than 200 or the lack of a `clsession` cookie, authenticate is the legacy
authentication. So it returns an error if and only if both schemes fail, and
the error is that of the legacy scheme. -/
theorem authenticate_session_then_basic (fuel : Nat) (c : Client) (n : Net) :
    (∀ c1 n1, c.authenticateSession fuel n = some (none, c1, n1) →
      c.authenticate fuel n = some (none, c1, n1) ∧
      ∃ c0 resp cookie,
        doRequest fuel c n "POST" "/sessions"
          (Payload.SessionRequest c.SessionCookie c.AuthToken) [] =
          some (Except.ok resp, c0, n1) ∧
        resp.StatusCode = 200 ∧
        resp.Cookies.find? (fun x => x.1 == "clsession") = some cookie ∧
        c1 = { c0 with SessionCookie := cookie.2 } ∧ c1.SessionCookie = cookie.2) ∧
    (∀ err c1 n1, c.authenticateSession fuel n = some (some err, c1, n1) →
      c.authenticate fuel n = c1.authenticateBasic fuel n1 ∧
      ((∃ e, doRequest fuel c n "POST" "/sessions"
          (Payload.SessionRequest c.SessionCookie c.AuthToken) [] =
          some (Except.error e, c1, n1)) ∨
        ∃ resp, doRequest fuel c n "POST" "/sessions"
            (Payload.SessionRequest c.SessionCookie c.AuthToken) [] =
            some (Except.ok resp, c1, n1) ∧
          (resp.StatusCode ≠ 200 ∨
            resp.Cookies.find? (fun x => x.1 == "clsession") = none))) ∧
    (∀ err c2 n2, c.authenticate fuel n = some (some err, c2, n2) ↔
      ∃ err1 c1 n1, c.authenticateSession fuel n = some (some err1, c1, n1) ∧
        c1.authenticateBasic fuel n1 = some (some err, c2, n2)) ∧
    (c.authenticateSession fuel n = none → c.authenticate fuel n = none) := by
  refine ⟨?_, ?_, ?_, ?_⟩
  · intro c1 n1 h
    refine ⟨by simp only [Client.authenticate, authenticateVia,
      show authenticateSessionVia (doRequest fuel) c n = some (none, c1, n1) from h], ?_⟩
    unfold Client.authenticateSession authenticateSessionVia at h
    cases hd : doRequest fuel c n "POST" "/sessions"
        (Payload.SessionRequest c.SessionCookie c.AuthToken) [] with
    | none => rw [hd] at h; cases h
    | some out =>
      obtain ⟨res, c0, n0⟩ := out
      rw [hd] at h
      cases res with
      | error e => simp at h
      | ok resp =>
        simp only at h
        by_cases hs : resp.StatusCode = 200
        · simp only [hs, ne_eq, not_true_eq_false, if_false] at h
          cases hf : resp.Cookies.find? (fun cookie => cookie.1 == "clsession") with
          | none => rw [hf] at h; simp at h
          | some cookie =>
            rw [hf] at h
            simp only [Option.some.injEq, Prod.mk.injEq, true_and] at h
            obtain ⟨h1, h2⟩ := h
            subst h1 h2
            exact ⟨c0, resp, cookie, rfl, hs, hf, rfl, rfl⟩
        · simp [hs] at h
  · intro err c1 n1 h
    refine ⟨by simp only [Client.authenticate, Client.authenticateBasic, authenticateVia,
      show authenticateSessionVia (doRequest fuel) c n = some (some err, c1, n1) from h], ?_⟩
    unfold Client.authenticateSession authenticateSessionVia at h
    cases hd : doRequest fuel c n "POST" "/sessions"
        (Payload.SessionRequest c.SessionCookie c.AuthToken) [] with
    | none => rw [hd] at h; cases h
    | some out =>
      obtain ⟨res, c0, n0⟩ := out
      rw [hd] at h
      cases res with
      | error e =>
        simp only [Option.some.injEq, Prod.mk.injEq] at h
        obtain ⟨-, h1, h2⟩ := h
        subst h1 h2
        exact Or.inl ⟨e, rfl⟩
      | ok resp =>
        simp only at h
        by_cases hs : resp.StatusCode = 200
        · simp only [hs, ne_eq, not_true_eq_false, if_false] at h
          cases hf : resp.Cookies.find? (fun cookie => cookie.1 == "clsession") with
          | none =>
            rw [hf] at h
            simp only [Option.some.injEq, Prod.mk.injEq] at h
            obtain ⟨-, h1, h2⟩ := h
            subst h1 h2
            exact Or.inr ⟨resp, rfl, Or.inr hf⟩
          | some cookie => rw [hf] at h; simp at h
        · simp only [hs, ne_eq, not_false_eq_true, if_true, Option.some.injEq,
            Prod.mk.injEq] at h
          obtain ⟨-, h1, h2⟩ := h
          subst h1 h2
          exact Or.inr ⟨resp, rfl, Or.inl hs⟩
  · intro err c2 n2
    constructor
    · intro h
      unfold Client.authenticate authenticateVia at h
      cases hsess : authenticateSessionVia (doRequest fuel) c n with
      | none => rw [hsess] at h; cases h
      | some out =>
        obtain ⟨res, c1, n1⟩ := out
        rw [hsess] at h
        cases res with
        | none => simp at h
        | some err1 => exact ⟨err1, c1, n1, hsess, h⟩
    · rintro ⟨err1, c1, n1, h1, h2⟩
      simp only [Client.authenticate, authenticateVia,
        show authenticateSessionVia (doRequest fuel) c n = some (some err1, c1, n1) from h1]
      exact h2
  · intro h
    simp only [Client.authenticate, authenticateVia,
      show authenticateSessionVia (doRequest fuel) c n = none from h]

theorem authenticate_session_then_basic_witness :
    (Client.sample "B").authenticate 1 Net.expiring =
      some (none, { Client.sample "B" with SessionCookie := "fresh" },
        { Net.expiring with sent := 1 }) ∧
    (Client.sample "B").authenticate 1 Net.legacy =
      (Client.sample "B").authenticateBasic 1 { Net.legacy with sent := 1 } ∧
    (Client.sample "B").authenticateBasic 1 { Net.legacy with sent := 1 } =
      some (none, Client.sample "B", { Net.legacy with sent := 2 }) ∧
    (Client.sample "B").authenticate 1 (Net.always ⟨500, [], "down", none⟩) =
      some (some "basic auth failed: 500 - down", Client.sample "B",
        { Net.always ⟨500, [], "down", none⟩ with sent := 2 }) :=
  ⟨((authenticate_session_then_basic 1 (Client.sample "B") Net.expiring).1
      { Client.sample "B" with SessionCookie := "fresh" } { Net.expiring with sent := 1 }
      (by rfl)).1,
    ((authenticate_session_then_basic 1 (Client.sample "B") Net.legacy).2.1
      "no session cookie found" (Client.sample "B") { Net.legacy with sent := 1 } (by rfl)).1,
    by rfl,
    ((authenticate_session_then_basic 1 (Client.sample "B")
        (Net.always ⟨500, [], "down", none⟩)).2.2.1 "basic auth failed: 500 - down"
      (Client.sample "B") { Net.always ⟨500, [], "down", none⟩ with sent := 2 }).2
      ⟨"session auth failed: 500 - down", Client.sample "B",
        { Net.always ⟨500, [], "down", none⟩ with sent := 1 }, by rfl, by rfl⟩⟩

/-! ## Jobs and their proposals when the registry holds clients

In the states the service reaches from a new server the registry is empty and
Store holds no job. For a server started with any registry, every job refers
to stored proposals along every run. -/

theorem GoMap.isSome_get?_set {V : Type} (m : GoMap V) (k k' : String) (v : V)
    (h : (m.get? k').isSome = true) : ((m.set k v).get? k').isSome = true := by
  rw [GoMap.get?_set]
  split
  · rfl
  · exact h

theorem jobsRefer_StoreProposal (s : Storage) (p : Proposal) (h : s.jobsReferToProposals) :
    (s.StoreProposal p).jobsReferToProposals := by
  intro job hjob
  obtain ⟨h1, h2⟩ := h job hjob
  exact ⟨h1, fun pid hpid => GoMap.isSome_get?_set _ _ _ _ (h2 pid hpid)⟩

theorem jobsRefer_writeProposal (s : Storage) (k : String) (p : Proposal)
    (h : s.jobsReferToProposals) : (s.writeProposal k p).jobsReferToProposals := by
  intro job hjob
  obtain ⟨h1, h2⟩ := h job hjob
  exact ⟨h1, fun pid hpid => GoMap.isSome_get?_set _ _ _ _ (h2 pid hpid)⟩

theorem jobsRefer_StoreJob (s : Storage) (job : Job) (h : s.jobsReferToProposals)
    (hne : job.ProposalIds ≠ [])
    (hids : ∀ pid ∈ job.ProposalIds, (s.GetProposal pid).isSome = true) :
    (s.StoreJob job).jobsReferToProposals := by
  intro j hj
  rcases GoMap.mem_values_set s.jobs job.Id job j hj with h1 | h1
  · rw [h1]
    exact ⟨hne, hids⟩
  · exact h j h1

theorem jobsRefer_DeleteJob (s : Storage) (id : String) (h : s.jobsReferToProposals) :
    (s.DeleteJob id).jobsReferToProposals := by
  intro j hj
  apply h j
  obtain ⟨e, he, hx⟩ := List.mem_map.mp hj
  exact List.mem_map.mpr ⟨e, (List.mem_filter.mp he).1, hx⟩

theorem ProposeJob_jobsRefer (fuel : Nat) (s : JobDistributorServer) (w : World)
    (req : ProposeJobRequest) (r : Outcome ProposeJobResponse)
    (h : s.ProposeJob fuel w req = some r) (hk : s.storage.jobsReferToProposals) :
    r.2.1.storage.jobsReferToProposals := by
  unfold ProposeJob at h
  by_cases hn : s.storage.NodeExists req.NodeId = true
  · obtain ⟨jobID, clk, he, -, -⟩ := extractJobIDFromSpec_ok w.clock req.Spec
    simp only [hn, Bool.not_true, Bool.false_eq_true, if_false, he] at h
    cases hsub : s.submitJobToNode fuel w.net req.NodeId req.Spec with
    | none => rw [hsub] at h; cases h
    | some out =>
      obtain ⟨delivered, s1, n1⟩ := out
      have hst := submitJobToNode_storage fuel s w.net req.NodeId req.Spec delivered s1 n1 hsub
      have hk1 : s1.storage.jobsReferToProposals := by rw [hst]; exact hk
      rw [hsub] at h
      cases delivered with
      | true =>
        simp only [Option.some.injEq] at h
        rw [← h]
        intro j hj
        rcases GoMap.mem_values_set _ _ _ j hj with h1 | h1
        · rw [h1]
          refine ⟨by simp, ?_⟩
          intro pid hpid
          simp only [List.mem_singleton] at hpid
          rw [hpid]
          simp only [Storage.GetProposal, Storage.StoreProposal, Storage.StoreJob]
          rw [GoMap.get?_set_self]
          rfl
        · obtain ⟨h2, h3⟩ := hk1 j h1
          exact ⟨h2, fun pid hpid => GoMap.isSome_get?_set _ _ _ _ (h3 pid hpid)⟩
      | false =>
        simp only [Option.some.injEq] at h
        rw [← h]
        exact jobsRefer_StoreProposal _ _ hk1
  · have hn2 : s.storage.NodeExists req.NodeId = false := by
      cases hc : s.storage.NodeExists req.NodeId
      · rfl
      · exact absurd hc hn
    simp only [hn2, Bool.not_false, if_true, Option.some.injEq] at h
    rw [← h]
    exact hk

theorem batchLoop_jobsRefer (fuel : Nat) (spec : String) (labels : List Label)
    (nodeIDs : List String) (resp : BatchProposeJobResponse) (s : JobDistributorServer)
    (w : World) (r : BatchProposeJobResponse × JobDistributorServer × World)
    (h : batchLoop fuel spec labels nodeIDs resp s w = some r)
    (hk : s.storage.jobsReferToProposals) : r.2.1.storage.jobsReferToProposals := by
  induction nodeIDs generalizing resp s w with
  | nil =>
    simp only [batchLoop, Option.some.injEq] at h
    rw [← h]
    exact hk
  | cons nodeID rest ih =>
    unfold batchLoop at h
    cases hp : s.ProposeJob fuel w ⟨nodeID, spec, labels⟩ with
    | none => rw [hp] at h; cases h
    | some out =>
      have hn := ProposeJob_jobsRefer fuel s w _ out hp hk
      obtain ⟨res, s1, w1⟩ := out
      rw [hp] at h
      cases res with
      | error err => exact ih _ _ _ h hn
      | ok proposeResp => exact ih _ _ _ h hn

theorem RevokeJob_jobsRefer (s : JobDistributorServer) (w : World) (id : String)
    (hk : s.storage.jobsReferToProposals) :
    (s.RevokeJob w id).2.1.storage.jobsReferToProposals := by
  unfold RevokeJob
  by_cases hid : id = ""
  · simp only [hid, ne_eq, not_true_eq_false, if_false]
    exact hk
  · simp only [hid, ne_eq, not_false_eq_true, if_true]
    split
    · exact hk
    · exact jobsRefer_StoreProposal _ _ (jobsRefer_writeProposal _ _ _ hk)

theorem DeleteJob_jobsRefer (fuel : Nat) (s : JobDistributorServer) (w : World) (id : String)
    (r : Outcome Unit) (h : s.DeleteJob fuel w id = some r)
    (hk : s.storage.jobsReferToProposals) : r.2.1.storage.jobsReferToProposals := by
  unfold DeleteJob at h
  by_cases hid : id = ""
  · simp only [hid, ne_eq, not_true_eq_false, if_false, Option.some.injEq] at h
    rw [← h]
    exact hk
  · simp only [hid, ne_eq, not_false_eq_true, if_true] at h
    cases hd : s.deleteJobFromNode fuel w.net id with
    | none => rw [hd] at h; cases h
    | some out =>
      obtain ⟨deleted, s1, n1⟩ := out
      have hst := deleteJobFromNode_storage fuel s w.net id deleted s1 n1 hd
      have hk1 : s1.storage.jobsReferToProposals := by rw [hst]; exact hk
      rw [hd] at h
      cases deleted with
      | true =>
        simp only [Option.some.injEq] at h
        rw [← h]
        exact jobsRefer_DeleteJob _ _ hk1
      | false =>
        simp only [Option.some.injEq] at h
        rw [← h]
        exact hk1

theorem UpdateJob_jobsRefer (s : JobDistributorServer) (w : World) (req : UpdateJobRequest)
    (hk : s.storage.jobsReferToProposals) :
    (s.UpdateJob w req).2.1.storage.jobsReferToProposals := by
  unfold UpdateJob
  by_cases hid : req.Id = ""
  · simp only [hid, ne_eq, not_true_eq_false, if_false]
    exact hk
  · simp only [hid, ne_eq, not_false_eq_true, if_true]
    cases hj : s.storage.GetJob req.Id with
    | none => exact hk
    | some existingJob =>
      simp only
      cases hc : s.chainlink.GetClient existingJob.NodeId with
      | none => exact hk
      | some client =>
        simp only
        have hm : existingJob ∈ s.storage.jobs.values :=
          List.mem_map.mpr ⟨_, GoMap.mem_of_get? s.storage.jobs req.Id existingJob hj, rfl⟩
        obtain ⟨h1, h2⟩ := hk existingJob hm
        intro j hjm
        rcases GoMap.mem_values_set _ _ _ j hjm with h3 | h3
        · rw [h3]
          exact ⟨h1, h2⟩
        · exact hk j h3

/-- Every call of the service keeps the jobs referring to stored proposals. -/
theorem serve_jobsRefer (fuel : Nat) (s : JobDistributorServer) (w : World)
    (call : Call) (s' : JobDistributorServer) (w' : World)
    (h : serve fuel s w call = some (s', w')) (hk : s.storage.jobsReferToProposals) :
    s'.storage.jobsReferToProposals := by
  have same : s' = s → s'.storage.jobsReferToProposals := by
    intro hs
    rw [hs]
    exact hk
  cases call with
  | ProposeJob req =>
    simp only [serve, Option.map_eq_some'] at h
    obtain ⟨r, hr, hs⟩ := h
    have := ProposeJob_jobsRefer fuel s w req r hr hk
    rw [hs] at this
    exact this
  | BatchProposeJob req =>
    simp only [serve, Option.map_eq_some'] at h
    obtain ⟨r, hr, hs⟩ := h
    unfold BatchProposeJob at hr
    cases hb : batchLoop fuel req.Spec req.Labels req.NodeIds ⟨GoMap.empty, GoMap.empty⟩ s w with
    | none => rw [hb] at hr; cases hr
    | some out =>
      have := batchLoop_jobsRefer fuel _ _ _ _ s w out hb hk
      rw [hb] at hr
      simp only [Option.some.injEq] at hr
      rw [← hr] at hs
      simp only [Prod.mk.injEq] at hs
      rw [hs.1] at this
      exact this
  | ListJobs filter =>
    simp only [serve, ListJobs, Option.some.injEq, Prod.mk.injEq] at h
    exact same h.1.symm
  | GetJob id =>
    simp only [serve, Option.some.injEq] at h
    have := GetJob_server s w id
    rw [h] at this
    exact same this
  | ListProposals filter =>
    simp only [serve, ListProposals, Option.some.injEq, Prod.mk.injEq] at h
    exact same h.1.symm
  | GetProposal id =>
    simp only [serve, Option.some.injEq] at h
    have := GetProposal_server s w id
    rw [h] at this
    exact same this
  | RevokeJob id =>
    simp only [serve, Option.some.injEq] at h
    have := RevokeJob_jobsRefer s w id hk
    rw [h] at this
    exact this
  | DeleteJob id =>
    simp only [serve, Option.map_eq_some'] at h
    obtain ⟨r, hr, hs⟩ := h
    have := DeleteJob_jobsRefer fuel s w id r hr hk
    rw [hs] at this
    exact this
  | UpdateJob req =>
    simp only [serve, Option.some.injEq] at h
    have := UpdateJob_jobsRefer s w req hk
    rw [h] at this
    exact this
  | ListNodes filter =>
    simp only [serve, ListNodes, Option.some.injEq, Prod.mk.injEq] at h
    exact same h.1.symm
  | GetNode id =>
    simp only [serve, Option.some.injEq] at h
    have := GetNode_server s w id
    rw [h] at this
    exact same this
  | RegisterNode req =>
    simp only [serve, Option.some.injEq] at h
    have h1 := (RegisterNode_frame s w req).1
    have h2 := RegisterNode_proposals s w req
    rw [h] at h1 h2
    intro j hj
    have h1' : s'.storage.jobs = s.storage.jobs := h1
    have h2' : s'.storage.proposals = s.storage.proposals := h2
    rw [h1'] at hj
    obtain ⟨h3, h4⟩ := hk j hj
    refine ⟨h3, fun pid hpid => ?_⟩
    have := h4 pid hpid
    unfold Storage.GetProposal at this ⊢
    rw [h2']
    exact this
  | EnableNode =>
    simp only [serve, noOp, Option.some.injEq, Prod.mk.injEq] at h
    exact same h.1.symm
  | DisableNode =>
    simp only [serve, noOp, Option.some.injEq, Prod.mk.injEq] at h
    exact same h.1.symm
  | UpdateNode =>
    simp only [serve, noOp, Option.some.injEq, Prod.mk.injEq] at h
    exact same h.1.symm
  | ListNodeChainConfigs =>
    simp only [serve, noOp, Option.some.injEq, Prod.mk.injEq] at h
    exact same h.1.symm
  | ListKeypairs =>
    simp only [serve, ListKeypairs, Option.some.injEq, Prod.mk.injEq] at h
    exact same h.1.symm
  | GetKeypair =>
    simp only [serve, Option.some.injEq] at h
    have := GetKeypair_server s w
    rw [h] at this
    exact same this

/-- Started with any registry and an empty Store, the service keeps every job
referring to at least one proposal id, each the key of a stored proposal. -/
theorem ReachableFrom_jobsRefer (registry : ClientManager) (s : JobDistributorServer)
    (h : ReachableFrom ⟨NewStorage, registry⟩ s) : s.storage.jobsReferToProposals := by
  induction h with
  | init => intro j hj; cases hj
  | step fuel s w call s' w' _ hstep ih => exact serve_jobsRefer fuel s w call s' w' hstep ih

/-! ## The authentication a request carries -/

/-- C21 fails on the code. A client registered with the email `admin@a` on a
node that has the legacy login only is added through the legacy fallback; it
holds no session token, yet its next request carries the cookie
`clsession=admin@a` and no basic credentials. In general a request carries
basic credentials exactly when the field shared by the email and the session
token is empty, and then the user name it carries is empty. -/
theorem request_carries_email_as_session_cookie :
    (NewClientManager.AddNode 1 Net.inspecting "A" "http://a" "admin@a" "pw").map
      (fun r => (r.1, r.2.1.GetClient "A", r.2.2.sent)) =
      some (none, some ⟨"A", "http://a", "admin@a", "pw"⟩, 2) ∧
    (Client.authenticateSession 1 ⟨"A", "http://a", "admin@a", "pw"⟩ Net.inspecting).map
      (fun r => r.1) = some (some "no session cookie found") ∧
    (doRequest 1 ⟨"A", "http://a", "admin@a", "pw"⟩ Net.inspecting "GET" "/v2/jobs"
        Payload.nil []).map (fun r => r.1.map (fun resp => resp.Body)) =
      some (Except.ok "cookie clsession=admin@a") ∧
    (doRequest 1 ⟨"A", "http://a", "", "pw"⟩ Net.inspecting "GET" "/v2/jobs"
        Payload.nil []).map (fun r => r.1.map (fun resp => resp.Body)) =
      some (Except.ok "basic :pw") ∧
    ∀ (c : Client) (method path : String) (body : Payload) (headers : List (String × String)),
      ((buildRequest c method path body headers).BasicAuth ≠ none ↔ c.SessionCookie = "") ∧
      ((buildRequest c method path body headers).Cookie = none ↔ c.SessionCookie = "") ∧
      ∀ user password,
        (buildRequest c method path body headers).BasicAuth = some (user, password) →
        user = "" := by
  refine ⟨by decide, by decide, by decide, by decide, ?_⟩
  intro c method path body headers
  unfold buildRequest
  by_cases h : c.SessionCookie = ""
  · simp [h]
  · simp [h]

/-! ## The client registry -/

/-- The session authentication keeps the node id, the base URL and the
password of the client, if the requests it makes do. -/
theorem authenticateSessionVia_keeps (doReq : Requester)
    (hd : ∀ c n m p b h r, doReq c n m p b h = some r →
      r.2.1.NodeID = c.NodeID ∧ r.2.1.BaseURL = c.BaseURL ∧ r.2.1.AuthToken = c.AuthToken)
    (c : Client) (n : Net) (r : Option String × Client × Net)
    (h : authenticateSessionVia doReq c n = some r) :
    r.2.1.NodeID = c.NodeID ∧ r.2.1.BaseURL = c.BaseURL ∧ r.2.1.AuthToken = c.AuthToken := by
  unfold authenticateSessionVia at h
  cases hq : doReq c n "POST" "/sessions"
      (Payload.SessionRequest c.SessionCookie c.AuthToken) [] with
  | none => rw [hq] at h; cases h
  | some out =>
    have k := hd _ _ _ _ _ _ out hq
    obtain ⟨res, c0, n0⟩ := out
    rw [hq] at h
    cases res with
    | error e =>
      simp only [Option.some.injEq] at h
      rw [← h]
      exact k
    | ok resp =>
      simp only at h
      by_cases hs : resp.StatusCode = 200
      · simp only [hs, ne_eq, not_true_eq_false, if_false] at h
        cases hf : resp.Cookies.find? (fun cookie => cookie.1 == "clsession") with
        | none =>
          rw [hf] at h
          simp only [Option.some.injEq] at h
          rw [← h]
          exact k
        | some cookie =>
          rw [hf] at h
          simp only [Option.some.injEq] at h
          rw [← h]
          exact k
      · simp only [hs, ne_eq, not_false_eq_true, if_true, Option.some.injEq] at h
        rw [← h]
        exact k

theorem authenticateBasicVia_keeps (doReq : Requester)
    (hd : ∀ c n m p b h r, doReq c n m p b h = some r →
      r.2.1.NodeID = c.NodeID ∧ r.2.1.BaseURL = c.BaseURL ∧ r.2.1.AuthToken = c.AuthToken)
    (c : Client) (n : Net) (r : Option String × Client × Net)
    (h : authenticateBasicVia doReq c n = some r) :
    r.2.1.NodeID = c.NodeID ∧ r.2.1.BaseURL = c.BaseURL ∧ r.2.1.AuthToken = c.AuthToken := by
  unfold authenticateBasicVia at h
  cases hq : doReq c n "POST" "/v2/authenticate"
      (Payload.LoginRequest c.SessionCookie c.AuthToken) [] with
  | none => rw [hq] at h; cases h
  | some out =>
    have k := hd _ _ _ _ _ _ out hq
    obtain ⟨res, c0, n0⟩ := out
    rw [hq] at h
    cases res with
    | error e =>
      simp only [Option.some.injEq] at h
      rw [← h]
      exact k
    | ok resp =>
      simp only at h
      by_cases hs : resp.StatusCode = 200
      · simp only [hs, ne_eq, not_true_eq_false, if_false, Option.some.injEq] at h
        rw [← h]
        exact k
      · simp only [hs, ne_eq, not_false_eq_true, if_true, Option.some.injEq] at h
        rw [← h]
        exact k

theorem authenticateVia_keeps (doReq : Requester)
    (hd : ∀ c n m p b h r, doReq c n m p b h = some r →
      r.2.1.NodeID = c.NodeID ∧ r.2.1.BaseURL = c.BaseURL ∧ r.2.1.AuthToken = c.AuthToken)
    (c : Client) (n : Net) (r : Option String × Client × Net)
    (h : authenticateVia doReq c n = some r) :
    r.2.1.NodeID = c.NodeID ∧ r.2.1.BaseURL = c.BaseURL ∧ r.2.1.AuthToken = c.AuthToken := by
  unfold authenticateVia at h
  cases hs : authenticateSessionVia doReq c n with
  | none => rw [hs] at h; cases h
  | some out =>
    have k := authenticateSessionVia_keeps doReq hd c n out hs
    obtain ⟨res, c0, n0⟩ := out
    rw [hs] at h
    cases res with
    | none =>
      simp only [Option.some.injEq] at h
      rw [← h]
      exact k
    | some err =>
      simp only at h
      have k2 := authenticateBasicVia_keeps doReq hd c0 n0 r h
      exact ⟨k2.1.trans k.1, k2.2.1.trans k.2.1, k2.2.2.trans k.2.2⟩

/-- A request, with the re-authentications it triggers, changes neither the
node id nor the base URL nor the password of the client. -/
theorem doRequest_keeps (fuel : Nat) :
    ∀ (c : Client) (n : Net) (m p : String) (b : Payload) (h : List (String × String))
      (r : Except String Response × Client × Net),
      doRequest fuel c n m p b h = some r →
      r.2.1.NodeID = c.NodeID ∧ r.2.1.BaseURL = c.BaseURL ∧ r.2.1.AuthToken = c.AuthToken := by
  induction fuel with
  | zero =>
    intro c n m p b h r hr
    cases hr
  | succ fuel ih =>
    intro c n m p b h r hr
    unfold doRequest at hr
    cases hn : n.newRequestErr m (c.BaseURL ++ p) with
    | some err =>
      simp only [hn, Option.some.injEq] at hr
      rw [← hr]
      exact ⟨rfl, rfl, rfl⟩
    | none =>
      simp only [hn, Net.Do] at hr
      cases ht : n.roundTrip n.sent (buildRequest c m p b h) with
      | error err =>
        simp only [ht, Option.some.injEq] at hr
        rw [← hr]
        exact ⟨rfl, rfl, rfl⟩
      | ok resp =>
        simp only [ht] at hr
        by_cases hs : resp.StatusCode = 401
        · simp only [hs, if_true] at hr
          cases ha : authenticateVia (doRequest fuel) c { n with sent := n.sent + 1 } with
          | none => rw [ha] at hr; cases hr
          | some out =>
            have k := authenticateVia_keeps (doRequest fuel) ih c _ out ha
            obtain ⟨res, c0, n0⟩ := out
            rw [ha] at hr
            cases res with
            | some err =>
              simp only [Option.some.injEq] at hr
              rw [← hr]
              exact k
            | none =>
              simp only at hr
              have k2 := ih c0 n0 m p b.afterSend h r hr
              exact ⟨k2.1.trans k.1, k2.2.1.trans k.2.1, k2.2.2.trans k.2.2⟩
        · simp only [hs, if_false, Option.some.injEq] at hr
          rw [← hr]
          exact ⟨rfl, rfl, rfl⟩

/-- C22: AddNode is all-or-nothing. It returns exactly when the authentication
of the new client returns, with an error if and only if authenticate fails,
and then the registry is unchanged; on success the registry holds under the
node id the client as authenticate left it, which has the node id, the URL
without its final slash and the password of the call, and the lookup of every
other node id is unchanged. -/
theorem AddNode_all_or_nothing (fuel : Nat) (m : ClientManager) (n : Net)
    (nodeID url email password : String) :
    (∀ err c1 n1,
      Client.authenticate fuel ⟨nodeID, trimSlash url, email, password⟩ n =
        some (some err, c1, n1) →
      m.AddNode fuel n nodeID url email password =
        some (some ("failed to authenticate with node " ++ nodeID ++ ": " ++ err), m, n1)) ∧
    (∀ c1 n1,
      Client.authenticate fuel ⟨nodeID, trimSlash url, email, password⟩ n =
        some (none, c1, n1) →
      ∃ m', m.AddNode fuel n nodeID url email password = some (none, m', n1) ∧
        m'.GetClient nodeID = some c1 ∧
        c1.NodeID = nodeID ∧ c1.BaseURL = trimSlash url ∧ c1.AuthToken = password ∧
        ∀ k, k ≠ nodeID → m'.GetClient k = m.GetClient k) ∧
    (Client.authenticate fuel ⟨nodeID, trimSlash url, email, password⟩ n = none →
      m.AddNode fuel n nodeID url email password = none) ∧
    (∀ r, m.AddNode fuel n nodeID url email password = some r →
      (r.1 ≠ none ↔
        ∃ err c1 n1,
          Client.authenticate fuel ⟨nodeID, trimSlash url, email, password⟩ n =
            some (some err, c1, n1)) ∧
      (r.1 ≠ none → r.2.1 = m)) := by
  refine ⟨?_, ?_, ?_, ?_⟩
  · intro err c1 n1 h
    unfold ClientManager.AddNode
    rw [h]
  · intro c1 n1 h
    have k := authenticateVia_keeps (doRequest fuel) (doRequest_keeps fuel) _ n _ h
    refine ⟨⟨m.clients.set nodeID c1⟩, ?_, ?_, k.1, k.2.1, k.2.2, ?_⟩
    · unfold ClientManager.AddNode
      rw [h]
    · exact GoMap.get?_set_self _ _ _
    · intro k hk
      unfold ClientManager.GetClient
      rw [GoMap.get?_set, if_neg hk]
  · intro h
    unfold ClientManager.AddNode
    rw [h]
  · intro r hr
    unfold ClientManager.AddNode at hr
    cases ha : Client.authenticate fuel ⟨nodeID, trimSlash url, email, password⟩ n with
    | none => rw [ha] at hr; cases hr
    | some out =>
      obtain ⟨res, c1, n1⟩ := out
      rw [ha] at hr
      cases res with
      | some err =>
        simp only [Option.some.injEq] at hr
        rw [← hr]
        exact ⟨⟨fun _ => ⟨err, c1, n1, rfl⟩, fun _ h => by cases h⟩, fun _ => rfl⟩
      | none =>
        simp only [Option.some.injEq] at hr
        rw [← hr]
        refine ⟨⟨fun h => absurd rfl h, ?_⟩, fun h => absurd rfl h⟩
        rintro ⟨err, c2, n2, h⟩
        cases h

theorem AddNode_all_or_nothing_witness :
    ((twoNodes.chainlink.AddNode 1 (Net.always ⟨500, [], "down", none⟩)
        "A" "http://a/" "admin@a" "pw").map (fun r => (r.1, r.2.1))) =
      some (some "failed to authenticate with node A: basic auth failed: 500 - down",
        twoNodes.chainlink) ∧
    ∃ m', (twoNodes.chainlink.AddNode 1 Net.expiring "A" "http://a/" "admin@a" "pw") =
        some (none, m', { Net.expiring with sent := 1 }) ∧
      m'.GetClient "A" = some ⟨"A", "http://a", "fresh", "pw"⟩ ∧
      m'.GetClient "B" = twoNodes.chainlink.GetClient "B" := by
  refine ⟨by decide, ?_⟩
  obtain ⟨m', h1, h2, -, -, -, h3⟩ :=
    (AddNode_all_or_nothing 1 twoNodes.chainlink Net.expiring "A" "http://a/" "admin@a" "pw").2.1
      ⟨"A", "http://a", "fresh", "pw"⟩ { Net.expiring with sent := 1 } (by rfl)
  exact ⟨m', h1, h2, h3 "B" (by decide)⟩

/-! ## The delivery status -/

/-- C23, the claim as stated fails: a proposal for node `A`, which has no
client, and a proposal for node `B` whose spec fails local validation are both
returned with delivery status DELIVERED, although nothing was sent. -/
theorem ProposeJob_undelivered_is_marked_delivered :
    twoNodes.chainlink.GetClient "A" = none ∧
    (twoNodes.ProposeJob 1 (World.at 0 Net.accepting) ⟨"A", "type schemaVersion", []⟩).map
      (fun r => (r.1.map (fun resp => (resp.Proposal.Status, resp.Proposal.DeliveryStatus)),
        r.2.2.net.sent)) =
      some (Except.ok (ProposalStatus.REJECTED, ProposalDeliveryStatus.DELIVERED), 0) ∧
    ValidateJobSpec "name = 1" = some "job spec missing required field: type" ∧
    (twoNodes.ProposeJob 1 (World.at 0 Net.accepting) ⟨"B", "name = 1", []⟩).map
      (fun r => (r.1.map (fun resp => (resp.Proposal.Status, resp.Proposal.DeliveryStatus)),
        r.2.2.net.sent)) =
      some (Except.ok (ProposalStatus.REJECTED, ProposalDeliveryStatus.DELIVERED), 0) := by
  decide

/-- C23, amended: the delivery status does not tell whether the payload reached
the node. Every ProposeJob call on a registered node that returns gives a
proposal with delivery status DELIVERED, stored as such; and when no client
exists for the node or the spec fails local validation, the call returns such
a proposal with nothing sent to the node. -/
theorem ProposeJob_always_marked_delivered (fuel : Nat) (s : JobDistributorServer) (w : World)
    (req : ProposeJobRequest) (hnode : s.storage.NodeExists req.NodeId = true) :
    (∀ r, s.ProposeJob fuel w req = some r →
      ∃ p, r.1 = Except.ok ⟨p⟩ ∧ p.DeliveryStatus = ProposalDeliveryStatus.DELIVERED ∧
        r.2.1.storage.GetProposal p.Id = some p) ∧
    (s.chainlink.GetClient req.NodeId = none ∨ ValidateJobSpec req.Spec ≠ none →
      ∃ p s' w', s.ProposeJob fuel w req = some (Except.ok ⟨p⟩, s', w') ∧
        p.DeliveryStatus = ProposalDeliveryStatus.DELIVERED ∧
        p.Status = ProposalStatus.REJECTED ∧ w'.net = w.net) := by
  obtain ⟨jobID, clk, he, -, -⟩ := extractJobIDFromSpec_ok w.clock req.Spec
  constructor
  · intro r h
    unfold ProposeJob at h
    simp only [hnode, Bool.not_true, Bool.false_eq_true, if_false, he] at h
    cases hsub : s.submitJobToNode fuel w.net req.NodeId req.Spec with
    | none => rw [hsub] at h; cases h
    | some out =>
      obtain ⟨delivered, s1, n1⟩ := out
      rw [hsub] at h
      cases delivered with
      | true =>
        simp only [Option.some.injEq] at h
        rw [← h]
        exact ⟨_, rfl, rfl, GoMap.get?_set_self _ _ _⟩
      | false =>
        simp only [Option.some.injEq] at h
        rw [← h]
        exact ⟨_, rfl, rfl, GoMap.get?_set_self _ _ _⟩
  · intro h
    have hsub : s.submitJobToNode fuel w.net req.NodeId req.Spec = some (false, s, w.net) := by
      rcases h with h | h
      · unfold submitJobToNode
        rw [h]
      · cases hv : ValidateJobSpec req.Spec with
        | none => exact absurd hv h
        | some err => exact submitJobToNode_invalid fuel s w.net req.NodeId req.Spec err hv
    unfold ProposeJob
    simp only [hnode, Bool.not_true, Bool.false_eq_true, if_false, he, hsub]
    exact ⟨_, _, _, rfl, rfl, rfl, rfl⟩

theorem ProposeJob_always_marked_delivered_witness :
    twoNodes.storage.NodeExists "A" = true ∧
    ∃ p s' w',
      twoNodes.ProposeJob 1 (World.at 0 Net.accepting) ⟨"A", "type schemaVersion", []⟩ =
        some (Except.ok ⟨p⟩, s', w') ∧
      p.DeliveryStatus = ProposalDeliveryStatus.DELIVERED ∧
      p.Status = ProposalStatus.REJECTED ∧ w'.net = (World.at 0 Net.accepting).net :=
  ⟨by decide,
    (ProposeJob_always_marked_delivered 1 twoNodes (World.at 0 Net.accepting)
      ⟨"A", "type schemaVersion", []⟩ (by decide)).2 (Or.inl (by decide))⟩

/-! ## Keypairs -/

/-- Without a filter ListNodes returns every stored node once, in some order. -/
theorem ListNodes_none_perm (s : Storage) (it : Iter) :
    (s.ListNodes it none).1.Perm s.nodes.values := by
  unfold Storage.ListNodes Iter.range GoMap.values
  have hf : ∀ l : List Node, l.filter (fun node => Storage.nodeMatchesFilter node none) = l := by
    intro l
    apply List.filter_eq_self.mpr
    intro a _
    rfl
  rw [hf]
  exact (rangeOrder_perm _ _).map Prod.snd

/-- C24: ListKeypairs returns one keypair per stored node with a non-empty
public key, carrying that key, and none for nodes with an empty key. GetKeypair
fails with NotFound if and only if ListKeypairs would be empty, and otherwise
returns a keypair that is one of those ListKeypairs returns; this holds
whatever the orders of the two map loops are. Neither changes the server. -/
theorem ListKeypairs_GetKeypair (s : JobDistributorServer) (w w' : World) :
    ∃ kps, (s.ListKeypairs w).1 = Except.ok kps ∧
      kps.Perm ((s.storage.nodes.values.filter (fun node => node.PublicKey ≠ "")).map
        (fun node => Keypair.mk node.PublicKey)) ∧
      (∀ kp ∈ kps, kp.PublicKey ≠ "") ∧
      (s.ListKeypairs w).2.1 = s ∧ (s.GetKeypair w').2.1 = s ∧
      ((s.GetKeypair w').1 = Except.error ⟨Code.NotFound, "no keypairs available"⟩ ↔
        kps = []) ∧
      (kps ≠ [] → ∃ kp, (s.GetKeypair w').1 = Except.ok kp ∧ kp ∈ kps) := by
  have hp := ListNodes_none_perm s.storage w.iter
  have hp' := ListNodes_none_perm s.storage w'.iter
  have hmem : ∀ node, node ∈ (s.storage.ListNodes w'.iter none).1 →
      node.PublicKey ≠ "" →
      Keypair.mk node.PublicKey ∈
        ((s.storage.ListNodes w.iter none).1.filter (fun node => node.PublicKey ≠ "")).map
          (fun node => Keypair.mk node.PublicKey) := by
    intro node hn hk
    apply List.mem_map.mpr
    refine ⟨node, List.mem_filter.mpr ⟨hp.mem_iff.mpr (hp'.mem_iff.mp hn), ?_⟩, rfl⟩
    simpa using hk
  refine ⟨((s.storage.ListNodes w.iter none).1.filter
    (fun node : Node => node.PublicKey ≠ "")).map
    (fun node : Node => Keypair.mk node.PublicKey), rfl, ?_, ?_, rfl, GetKeypair_server s w', ?_, ?_⟩
  · exact (hp.filter _).map _
  · intro kp hkp
    obtain ⟨node, hn, hx⟩ := List.mem_map.mp hkp
    have := (List.mem_filter.mp hn).2
    rw [← hx]
    simpa using this
  · unfold GetKeypair
    cases hf : (s.storage.ListNodes w'.iter none).1.find? (fun node => node.PublicKey ≠ "") with
    | some node =>
      simp only
      have h1 := List.mem_of_find?_eq_some hf
      have h2 : node.PublicKey ≠ "" := by simpa using List.find?_some hf
      have h3 := hmem node h1 h2
      constructor
      · intro h; cases h
      · intro h
        rw [h] at h3
        cases h3
    | none =>
      simp only [true_iff]
      have hall := List.find?_eq_none.mp hf
      apply List.map_eq_nil_iff.mpr
      apply List.filter_eq_nil_iff.mpr
      intro node hn
      exact hall node (hp'.mem_iff.mpr (hp.mem_iff.mp hn))
  · intro hne
    unfold GetKeypair
    cases hf : (s.storage.ListNodes w'.iter none).1.find? (fun node => node.PublicKey ≠ "") with
    | some node =>
      simp only
      have h1 := List.mem_of_find?_eq_some hf
      have h2 : node.PublicKey ≠ "" := by simpa using List.find?_some hf
      exact ⟨_, rfl, hmem node h1 h2⟩
    | none =>
      exfalso
      apply hne
      have hall := List.find?_eq_none.mp hf
      apply List.map_eq_nil_iff.mpr
      apply List.filter_eq_nil_iff.mpr
      intro node hn
      exact hall node (hp'.mem_iff.mpr (hp.mem_iff.mp hn))

theorem ListKeypairs_GetKeypair_witness :
    (((NewJobDistributorServer.storage.StoreNode (Node.sample "A" "")).StoreNode
        (Node.sample "B" "keyB")).StoreNode (Node.sample "C" "keyC")).nodes.values.map
      (fun node => node.PublicKey) = ["", "keyB", "keyC"] ∧
    ∃ kps,
      (JobDistributorServer.ListKeypairs
        ⟨((NewStorage.StoreNode (Node.sample "A" "")).StoreNode
          (Node.sample "B" "keyB")).StoreNode (Node.sample "C" "keyC"), NewClientManager⟩
        (World.at 0 Net.accepting)).1 = Except.ok kps ∧
      kps.Perm [⟨"keyB"⟩, ⟨"keyC"⟩] ∧
      ∃ kp,
        (JobDistributorServer.GetKeypair
          ⟨((NewStorage.StoreNode (Node.sample "A" "")).StoreNode
            (Node.sample "B" "keyB")).StoreNode (Node.sample "C" "keyC"), NewClientManager⟩
          ⟨Clock.stuck 0, Net.accepting, ⟨fun _ => [2], 0⟩⟩).1 = Except.ok kp ∧ kp ∈ kps := by
  refine ⟨by decide, ?_⟩
  obtain ⟨kps, h1, h2, -, -, -, -, h7⟩ :=
    ListKeypairs_GetKeypair
      ⟨((NewStorage.StoreNode (Node.sample "A" "")).StoreNode
        (Node.sample "B" "keyB")).StoreNode (Node.sample "C" "keyC"), NewClientManager⟩
      (World.at 0 Net.accepting) ⟨Clock.stuck 0, Net.accepting, ⟨fun _ => [2], 0⟩⟩
  have hne : kps ≠ [] := by
    intro h
    rw [h] at h2
    have := h2.length_eq
    revert this
    decide
  exact ⟨kps, h1, h2, h7 hne⟩

/-! ## ExtractJobIDFromTOML -/

/-- The first part of a split is the text before the first separator; the
other parts are the split of the text after it. -/
theorem Split_eq_takeWhile_cons (sep : Char) (l : List Char) :
    Split sep l = l.takeWhile (fun c => c ≠ sep) ::
      (if sep ∈ l then Split sep ((l.dropWhile (fun c => c ≠ sep)).drop 1) else []) := by
  induction l with
  | nil => simp [Split]
  | cons c cs ih =>
    have e : Split sep (c :: cs) =
        if c = sep then [] :: Split sep cs
        else
          match Split sep cs with
          | [] => [[c]]
          | l :: ls => (c :: l) :: ls := by
      rw [Split]
    rw [e]
    by_cases hc : c = sep
    · subst hc
      simp
    · have hne : ¬ sep = c := fun h => hc h.symm
      rw [if_neg hc, ih]
      simp [hc, hne]

/-- The loop of ExtractJobIDFromTOML stops at the first declaring line and
returns what stands between its first and its second `=`. -/
theorem scanLines_eq_find (lines : List (List Char)) :
    scanLines lines =
      match lines.find? declaresExternalJobID with
      | none => []
      | some line =>
        Trim (TrimSpace ((rightHandSide (TrimSpace line)).takeWhile (fun c => c ≠ '='))) quotes := by
  induction lines with
  | nil => rfl
  | cons line rest ih =>
    unfold scanLines
    rw [List.find?_cons]
    by_cases hp : HasPrefix (TrimSpace line) "externalJobID".toList = true
    · by_cases hm : '=' ∈ TrimSpace line
      · have hd : declaresExternalJobID line = true := by
          unfold declaresExternalJobID
          rw [hp]
          simpa using hm
        rw [hd, Split_eq_takeWhile_cons '=' (TrimSpace line), if_pos hm,
          Split_eq_takeWhile_cons '=' ((TrimSpace line).dropWhile (fun c => c ≠ '=') |>.drop 1)]
        simp only [hp, if_true]
        rfl
      · have hd : declaresExternalJobID line = false := by
          unfold declaresExternalJobID
          rw [hp]
          simpa using hm
        rw [hd, Split_of_not_mem '=' (TrimSpace line) hm]
        simp only [hp, if_true]
        exact ih
    · have hp2 : HasPrefix (TrimSpace line) "externalJobID".toList = false := by
        cases h : HasPrefix (TrimSpace line) "externalJobID".toList
        · rfl
        · exact absurd h hp
      have hd : declaresExternalJobID line = false := by
        unfold declaresExternalJobID
        rw [hp2]
        rfl
      rw [hd]
      simp only [hp2, Bool.false_eq_true, if_false]
      exact ih

/-- C25, the claim as stated fails: when the right-hand side itself contains
an `=`, ExtractJobIDFromTOML does not return the whole right-hand side; it
stops before the second `=` of the line. -/
theorem ExtractJobIDFromTOML_stops_at_second_equals :
    ExtractJobIDFromTOML "externalJobID = \"a=b\"" = "a" ∧
    String.mk (Trim (TrimSpace (rightHandSide "externalJobID = \"a=b\"".toList)) quotes) =
      "a=b" := by
  decide

/-- C25, amended: ExtractJobIDFromTOML returns, for the first line of the spec
that (after trimming whitespace) starts with the token `externalJobID` and
contains an `=`, the text between the first `=` and the second `=` of the line
(the end of the line when there is no second one), with surrounding whitespace
and then surrounding quote characters removed; this is the whole right-hand
side when the right-hand side contains no `=`. It returns the empty string
when no line declares `externalJobID`. -/
theorem ExtractJobIDFromTOML_first_part (spec : String) :
    ExtractJobIDFromTOML spec =
      (match (specLines spec).find? declaresExternalJobID with
      | none => ""
      | some line =>
        String.mk (Trim
          (TrimSpace ((rightHandSide (TrimSpace line)).takeWhile (fun c => c ≠ '='))) quotes)) ∧
    (∀ line, (specLines spec).find? declaresExternalJobID = some line →
      '=' ∉ rightHandSide (TrimSpace line) →
      ExtractJobIDFromTOML spec =
        String.mk (Trim (TrimSpace (rightHandSide (TrimSpace line))) quotes)) ∧
    ((∀ line ∈ specLines spec, declaresExternalJobID line = false) →
      ExtractJobIDFromTOML spec = "") := by
  have hmain : ExtractJobIDFromTOML spec =
      (match (specLines spec).find? declaresExternalJobID with
      | none => ""
      | some line =>
        String.mk (Trim
          (TrimSpace ((rightHandSide (TrimSpace line)).takeWhile (fun c => c ≠ '='))) quotes)) := by
    unfold ExtractJobIDFromTOML specLines
    rw [scanLines_eq_find]
    cases (Split '\n' spec.toList).find? declaresExternalJobID with
    | none => rfl
    | some line => rfl
  refine ⟨hmain, ?_, ?_⟩
  · intro line hf hno
    rw [hmain, hf]
    have : (rightHandSide (TrimSpace line)).takeWhile (fun c => c ≠ '=') =
        rightHandSide (TrimSpace line) := by
      apply List.takeWhile_eq_self_iff.mpr
      intro c hc
      have : c ≠ '=' := fun h => hno (h ▸ hc)
      simpa using this
    simp only [this]
  · intro hall
    rw [hmain]
    have : (specLines spec).find? declaresExternalJobID = none := by
      apply List.find?_eq_none.mpr
      intro line hl
      rw [hall line hl]
      exact Bool.false_ne_true
    rw [this]

theorem ExtractJobIDFromTOML_first_part_witness :
    ExtractJobIDFromTOML "type = \"cron\"\n  externalJobID = 'a b' = x\nexternalJobID = z" =
      "a b" ∧
    ExtractJobIDFromTOML "name = \"externalJobID\"\nexternalJobID\n# end" = "" :=
  ⟨(ExtractJobIDFromTOML_first_part
      "type = \"cron\"\n  externalJobID = 'a b' = x\nexternalJobID = z").1.trans (by decide),
    (ExtractJobIDFromTOML_first_part "name = \"externalJobID\"\nexternalJobID\n# end").2.2
      (by decide)⟩

/-! ## The job id made from the clock -/

/-- No line declares `externalJobID`: nothing is extracted. -/
theorem ExtractJobIDFromTOML_undeclared (spec : String)
    (h : ∀ line ∈ specLines spec, declaresExternalJobID line = false) :
    ExtractJobIDFromTOML spec = "" := by
  unfold ExtractJobIDFromTOML
  rw [scanLines_eq_find]
  have : (Split '\n' spec.toList).find? declaresExternalJobID = none := by
    apply List.find?_eq_none.mpr
    intro line hl
    rw [h line hl]
    exact Bool.false_ne_true
  rw [this]

/-- When the delivery attempt returns and no line of the spec declares
`externalJobID`, the proposal has the job id made from the clock. -/
theorem ProposeJob_clock_job_id_of_delivery (fuel : Nat) (s : JobDistributorServer) (w : World)
    (req : ProposeJobRequest) (delivered : Bool) (s1 : JobDistributorServer) (n1 : Net)
    (hno : ∀ line ∈ specLines req.Spec, declaresExternalJobID line = false)
    (hnode : s.storage.NodeExists req.NodeId = true)
    (hsub : s.submitJobToNode fuel w.net req.NodeId req.Spec = some (delivered, s1, n1)) :
    ∃ (p : Proposal) (s' : JobDistributorServer) (w' : World),
      s.ProposeJob fuel w req = some (Except.ok ⟨p⟩, s', w') ∧
      p.JobId = "job_" ++ toString (w.clock.now w.clock.tick).Unix ∧
      s'.storage.GetProposal p.Id = some p ∧
      (delivered = true → ∃ job, s'.storage.GetJob p.JobId = some job ∧ job.Id = p.JobId) := by
  have hx := ExtractJobIDFromTOML_undeclared req.Spec hno
  obtain ⟨jobID, clk, he, -, hj⟩ := extractJobIDFromSpec_ok w.clock req.Spec
  have hjob : jobID = "job_" ++ toString (w.clock.now w.clock.tick).Unix := (hj hx).1
  subst hjob
  unfold ProposeJob
  simp only [hnode, Bool.not_true, Bool.false_eq_true, if_false, he, hsub]
  cases delivered with
  | true =>
    refine ⟨_, _, _, rfl, rfl, GoMap.get?_set_self _ _ _, ?_⟩
    intro _
    simp [Storage.GetJob, Storage.StoreJob, Storage.StoreProposal, GoMap.get?_set_self]
  | false =>
    exact ⟨_, _, _, rfl, rfl, GoMap.get?_set_self _ _ _, fun h => by cases h⟩

/-! ## The registry of a running service -/

/-- C27: in every state reachable from a new server through the operations of
the service the client registry is empty. Consequently every ProposeJob on a
registered node returns, with a REJECTED proposal and nothing sent; the jobs
collection is empty; UpdateJob and GetJob return an error; and DeleteJob
returns leaving the server as it was. -/
theorem reachable_registry_is_empty (s : JobDistributorServer) (h : Reachable s) :
    s.chainlink = NewClientManager ∧
    (∀ nodeID, s.chainlink.GetClient nodeID = none) ∧
    s.storage.jobs.values = [] ∧
    (∀ fuel w req, s.storage.NodeExists req.NodeId = true →
      ∃ p s' w', s.ProposeJob fuel w req = some (Except.ok ⟨p⟩, s', w') ∧
        p.Status = ProposalStatus.REJECTED ∧ w'.net = w.net) ∧
    (∀ w req, ∃ err, (s.UpdateJob w req).1 = Except.error err) ∧
    (∀ w id, ∃ err, (s.GetJob w id).1 = Except.error err) ∧
    (∀ fuel w id, ∃ r, s.DeleteJob fuel w id = some r ∧ r.2.1 = s) := by
  obtain ⟨hc, hj⟩ := Reachable_no_clients s h
  have hg : ∀ id, s.storage.GetJob id = none := by
    intro id
    unfold Storage.GetJob
    rw [hj]
    rfl
  refine ⟨hc, ?_, ?_, ?_, ?_, ?_, ?_⟩
  · intro nodeID
    rw [hc]
    rfl
  · rw [hj]
    rfl
  · intro fuel w req hnode
    obtain ⟨jobID, clk, he, -, -⟩ := extractJobIDFromSpec_ok w.clock req.Spec
    unfold ProposeJob
    simp only [hnode, Bool.not_true, Bool.false_eq_true, if_false, he,
      submitJobToNode_no_clients fuel s w.net req.NodeId req.Spec hc]
    exact ⟨_, _, _, rfl, rfl, rfl⟩
  · intro w req
    unfold UpdateJob
    by_cases hid : req.Id = ""
    · simp only [hid, ne_eq, not_true_eq_false, if_false]
      exact ⟨_, rfl⟩
    · simp only [hid, ne_eq, not_false_eq_true, if_true, hg]
      exact ⟨_, rfl⟩
  · intro w id
    unfold GetJob
    by_cases hid : id = ""
    · simp only [hid, ne_eq, not_true_eq_false, if_false]
      exact ⟨_, rfl⟩
    · simp only [hid, ne_eq, not_false_eq_true, if_true, hg]
      exact ⟨_, rfl⟩
  · intro fuel w id
    exact DeleteJob_no_jobs fuel s w id hj

theorem reachable_registry_is_empty_witness :
    Reachable oneNode ∧ oneNode.storage.NodeExists "uuid_5_7" = true ∧
    ∃ p s' w',
      oneNode.ProposeJob 1 (World.running Net.accepting)
        ⟨"uuid_5_7", "type schemaVersion", []⟩ = some (Except.ok ⟨p⟩, s', w') ∧
      p.Status = ProposalStatus.REJECTED ∧ w'.net = (World.running Net.accepting).net :=
  ⟨Reachable.step 0 NewJobDistributorServer (World.at 5000000007 Net.accepting)
      (Call.RegisterNode ⟨"node", "key", []⟩) _ _ Reachable.init rfl,
    by decide,
    (reachable_registry_is_empty oneNode
      (Reachable.step 0 NewJobDistributorServer (World.at 5000000007 Net.accepting)
        (Call.RegisterNode ⟨"node", "key", []⟩) _ _ Reachable.init rfl)).2.2.2.1
      1 (World.running Net.accepting) ⟨"uuid_5_7", "type schemaVersion", []⟩ (by decide)⟩

/-! ## Jobs are stored under their own ids

`StoreJob` files a job under its id, and nothing else writes to the jobs
collection, so the property holds along every run of the service. -/

theorem jobsKeyed_StoreJob (s : Storage) (job : Job) (h : s.jobsKeyed) :
    (s.StoreJob job).jobsKeyed := by
  intro e he
  rcases mem_setEntry job.Id job s.jobs.entries e he with h1 | h1
  · rw [h1]
  · exact h e h1

theorem jobsKeyed_DeleteJob (s : Storage) (id : String) (h : s.jobsKeyed) :
    (s.DeleteJob id).jobsKeyed := by
  intro e he
  exact h e (List.mem_filter.mp he).1

theorem jobsKeyed_of_jobs_eq (s t : Storage) (hj : t.jobs = s.jobs) (h : s.jobsKeyed) :
    t.jobsKeyed := by
  unfold Storage.jobsKeyed
  rw [hj]
  exact h

theorem ProposeJob_jobsKeyed (fuel : Nat) (s : JobDistributorServer) (w : World)
    (req : ProposeJobRequest) (r : Outcome ProposeJobResponse)
    (h : s.ProposeJob fuel w req = some r) (hk : s.storage.jobsKeyed) :
    r.2.1.storage.jobsKeyed := by
  unfold ProposeJob at h
  by_cases hn : s.storage.NodeExists req.NodeId = true
  · obtain ⟨jobID, clk, he, -, -⟩ := extractJobIDFromSpec_ok w.clock req.Spec
    simp only [hn, Bool.not_true, Bool.false_eq_true, if_false, he] at h
    cases hsub : s.submitJobToNode fuel w.net req.NodeId req.Spec with
    | none => rw [hsub] at h; cases h
    | some out =>
      obtain ⟨delivered, s1, n1⟩ := out
      have hst := submitJobToNode_storage fuel s w.net req.NodeId req.Spec delivered s1 n1 hsub
      have hk1 : s1.storage.jobsKeyed := by rw [hst]; exact hk
      rw [hsub] at h
      cases delivered with
      | true =>
        simp only [Option.some.injEq] at h
        rw [← h]
        exact jobsKeyed_of_jobs_eq _ _ rfl (jobsKeyed_StoreJob _ _ hk1)
      | false =>
        simp only [Option.some.injEq] at h
        rw [← h]
        exact jobsKeyed_of_jobs_eq _ _ rfl hk1
  · have hn2 : s.storage.NodeExists req.NodeId = false := by
      cases hc : s.storage.NodeExists req.NodeId
      · rfl
      · exact absurd hc hn
    simp only [hn2, Bool.not_false, if_true, Option.some.injEq] at h
    rw [← h]
    exact hk

theorem batchLoop_jobsKeyed (fuel : Nat) (spec : String) (labels : List Label)
    (nodeIDs : List String) (resp : BatchProposeJobResponse) (s : JobDistributorServer)
    (w : World) (r : BatchProposeJobResponse × JobDistributorServer × World)
    (h : batchLoop fuel spec labels nodeIDs resp s w = some r)
    (hk : s.storage.jobsKeyed) : r.2.1.storage.jobsKeyed := by
  induction nodeIDs generalizing resp s w with
  | nil =>
    simp only [batchLoop, Option.some.injEq] at h
    rw [← h]
    exact hk
  | cons nodeID rest ih =>
    unfold batchLoop at h
    cases hp : s.ProposeJob fuel w ⟨nodeID, spec, labels⟩ with
    | none => rw [hp] at h; cases h
    | some out =>
      have hn := ProposeJob_jobsKeyed fuel s w _ out hp hk
      obtain ⟨res, s1, w1⟩ := out
      rw [hp] at h
      cases res with
      | error err => exact ih _ _ _ h hn
      | ok proposeResp => exact ih _ _ _ h hn

theorem DeleteJob_jobsKeyed (fuel : Nat) (s : JobDistributorServer) (w : World) (id : String)
    (r : Outcome Unit) (h : s.DeleteJob fuel w id = some r)
    (hk : s.storage.jobsKeyed) : r.2.1.storage.jobsKeyed := by
  unfold DeleteJob at h
  by_cases hid : id = ""
  · simp only [hid, ne_eq, not_true_eq_false, if_false, Option.some.injEq] at h
    rw [← h]
    exact hk
  · simp only [hid, ne_eq, not_false_eq_true, if_true] at h
    cases hd : s.deleteJobFromNode fuel w.net id with
    | none => rw [hd] at h; cases h
    | some out =>
      obtain ⟨deleted, s1, n1⟩ := out
      have hst := deleteJobFromNode_storage fuel s w.net id deleted s1 n1 hd
      have hk1 : s1.storage.jobsKeyed := by rw [hst]; exact hk
      rw [hd] at h
      cases deleted with
      | true =>
        simp only [Option.some.injEq] at h
        rw [← h]
        exact jobsKeyed_DeleteJob _ _ hk1
      | false =>
        simp only [Option.some.injEq] at h
        rw [← h]
        exact hk1

theorem UpdateJob_jobsKeyed (s : JobDistributorServer) (w : World) (req : UpdateJobRequest)
    (hk : s.storage.jobsKeyed) : (s.UpdateJob w req).2.1.storage.jobsKeyed := by
  unfold UpdateJob
  by_cases hid : req.Id = ""
  · simp only [hid, ne_eq, not_true_eq_false, if_false]
    exact hk
  · simp only [hid, ne_eq, not_false_eq_true, if_true]
    cases hj : s.storage.GetJob req.Id with
    | none => exact hk
    | some existingJob =>
      simp only
      cases hc : s.chainlink.GetClient existingJob.NodeId with
      | none => exact hk
      | some client => exact jobsKeyed_StoreJob _ _ hk

/-- Every call of the service keeps the jobs stored under their own ids. -/
theorem serve_jobsKeyed (fuel : Nat) (s : JobDistributorServer) (w : World)
    (call : Call) (s' : JobDistributorServer) (w' : World)
    (h : serve fuel s w call = some (s', w')) (hk : s.storage.jobsKeyed) :
    s'.storage.jobsKeyed := by
  have same : s' = s → s'.storage.jobsKeyed := by
    intro hs
    rw [hs]
    exact hk
  cases call with
  | ProposeJob req =>
    simp only [serve, Option.map_eq_some'] at h
    obtain ⟨r, hr, hs⟩ := h
    have := ProposeJob_jobsKeyed fuel s w req r hr hk
    rw [hs] at this
    exact this
  | BatchProposeJob req =>
    simp only [serve, Option.map_eq_some'] at h
    obtain ⟨r, hr, hs⟩ := h
    unfold BatchProposeJob at hr
    cases hb : batchLoop fuel req.Spec req.Labels req.NodeIds ⟨GoMap.empty, GoMap.empty⟩ s w with
    | none => rw [hb] at hr; cases hr
    | some out =>
      have := batchLoop_jobsKeyed fuel _ _ _ _ s w out hb hk
      rw [hb] at hr
      simp only [Option.some.injEq] at hr
      rw [← hr] at hs
      simp only [Prod.mk.injEq] at hs
      rw [hs.1] at this
      exact this
  | ListJobs filter =>
    simp only [serve, ListJobs, Option.some.injEq, Prod.mk.injEq] at h
    exact same h.1.symm
  | GetJob id =>
    simp only [serve, Option.some.injEq] at h
    have := GetJob_server s w id
    rw [h] at this
    exact same this
  | ListProposals filter =>
    simp only [serve, ListProposals, Option.some.injEq, Prod.mk.injEq] at h
    exact same h.1.symm
  | GetProposal id =>
    simp only [serve, Option.some.injEq] at h
    have := GetProposal_server s w id
    rw [h] at this
    exact same this
  | RevokeJob id =>
    simp only [serve, Option.some.injEq] at h
    have h1 := (RevokeJob_frame s w id).1
    rw [h] at h1
    exact jobsKeyed_of_jobs_eq _ _ h1 hk
  | DeleteJob id =>
    simp only [serve, Option.map_eq_some'] at h
    obtain ⟨r, hr, hs⟩ := h
    have := DeleteJob_jobsKeyed fuel s w id r hr hk
    rw [hs] at this
    exact this
  | UpdateJob req =>
    simp only [serve, Option.some.injEq] at h
    have := UpdateJob_jobsKeyed s w req hk
    rw [h] at this
    exact this
  | ListNodes filter =>
    simp only [serve, ListNodes, Option.some.injEq, Prod.mk.injEq] at h
    exact same h.1.symm
  | GetNode id =>
    simp only [serve, Option.some.injEq] at h
    have := GetNode_server s w id
    rw [h] at this
    exact same this
  | RegisterNode req =>
    simp only [serve, Option.some.injEq] at h
    have h1 := (RegisterNode_frame s w req).1
    rw [h] at h1
    exact jobsKeyed_of_jobs_eq _ _ h1 hk
  | EnableNode =>
    simp only [serve, noOp, Option.some.injEq, Prod.mk.injEq] at h
    exact same h.1.symm
  | DisableNode =>
    simp only [serve, noOp, Option.some.injEq, Prod.mk.injEq] at h
    exact same h.1.symm
  | UpdateNode =>
    simp only [serve, noOp, Option.some.injEq, Prod.mk.injEq] at h
    exact same h.1.symm
  | ListNodeChainConfigs =>
    simp only [serve, noOp, Option.some.injEq, Prod.mk.injEq] at h
    exact same h.1.symm
  | ListKeypairs =>
    simp only [serve, ListKeypairs, Option.some.injEq, Prod.mk.injEq] at h
    exact same h.1.symm
  | GetKeypair =>
    simp only [serve, Option.some.injEq] at h
    have := GetKeypair_server s w
    rw [h] at this
    exact same this

/-- Started with any registry and an empty Store, the service keeps every job
stored under its own id. -/
theorem ReachableFrom_jobsKeyed (registry : ClientManager) (s : JobDistributorServer)
    (h : ReachableFrom ⟨NewStorage, registry⟩ s) : s.storage.jobsKeyed := by
  induction h with
  | init => intro e he; cases he
  | step fuel s w call s' w' _ hstep ih => exact serve_jobsKeyed fuel s w call s' w' hstep ih

/-! ## One job record per job id -/

/-- After a ProposeJob call that returns an APPROVED proposal, the Job stored
under the proposal's job id lives on the node of the call. -/
theorem ProposeJob_approved_node (fuel : Nat) (s s' : JobDistributorServer) (w w' : World)
    (req : ProposeJobRequest) (p : Proposal)
    (h : s.ProposeJob fuel w req = some (Except.ok ⟨p⟩, s', w'))
    (ha : p.Status = ProposalStatus.APPROVED) :
    ∃ job, s'.storage.GetJob p.JobId = some job ∧ job.Id = p.JobId ∧
      job.NodeId = req.NodeId := by
  unfold ProposeJob at h
  by_cases hn : s.storage.NodeExists req.NodeId = true
  · obtain ⟨jobID, clk, he, -, -⟩ := extractJobIDFromSpec_ok w.clock req.Spec
    simp only [hn, Bool.not_true, Bool.false_eq_true, if_false, he] at h
    cases hsub : s.submitJobToNode fuel w.net req.NodeId req.Spec with
    | none => rw [hsub] at h; cases h
    | some out =>
      obtain ⟨delivered, s1, n1⟩ := out
      rw [hsub] at h
      cases delivered with
      | true =>
        simp only [Option.some.injEq, Prod.mk.injEq, Except.ok.injEq,
          ProposeJobResponse.mk.injEq] at h
        obtain ⟨hp, hs, -⟩ := h
        subst hp hs
        refine ⟨?j, ?a, ?b, ?c⟩
        case a =>
          simp only [Storage.GetJob, Storage.StoreJob, Storage.StoreProposal]
          exact GoMap.get?_set_self _ _ _
        case b => rfl
        case c => rfl
      | false =>
        simp only [Option.some.injEq, Prod.mk.injEq, Except.ok.injEq,
          ProposeJobResponse.mk.injEq] at h
        obtain ⟨hp, -, -⟩ := h
        subst hp
        cases ha
  · have hn2 : s.storage.NodeExists req.NodeId = false := by
      cases hc : s.storage.NodeExists req.NodeId
      · rfl
      · exact absurd hc hn
    simp only [hn2, Bool.not_false, if_true, Option.some.injEq, Prod.mk.injEq] at h
    cases h.1

/-- In a Store whose jobs are filed under their own ids, the job found under
an id is the only record with that id. -/
theorem jobsKeyed_one_record (st : Storage) (id : String) (job : Job)
    (hk : st.jobsKeyed) (hg : st.GetJob id = some job) :
    (st.jobs.values.map (fun j => j.Id)).count id = 1 ∧
    ∀ j ∈ st.jobs.values, j.Id = id → j = job := by
  have hkeys : st.jobs.values.map (fun j => j.Id) = st.jobs.entries.map Prod.fst := by
    unfold GoMap.values
    rw [List.map_map]
    apply List.map_congr_left
    intro e he
    exact (hk e he).symm
  have hmem := GoMap.mem_of_get? st.jobs id job hg
  constructor
  · rw [hkeys]
    apply List.count_eq_one_of_mem st.jobs.nodup
    exact List.mem_map.mpr ⟨(id, job), hmem, rfl⟩
  · intro j hj hid
    obtain ⟨e, he, hx⟩ := List.mem_map.mp hj
    have h1 : e.1 = id := by rw [hk e he, hx, hid]
    have h2 : (id, j) ∈ st.jobs.entries := by
      have : e = (id, j) := by
        cases e
        simp only at h1 hx
        rw [h1, hx]
      rw [← this]
      exact he
    have h3 := GoMap.get?_of_mem st.jobs id j h2
    unfold Storage.GetJob at hg
    rw [hg] at h3
    exact (Option.some.inj h3).symm

/-- A batch over two distinct nodes that files a success response for each is
the two ProposeJob calls, one after the other. -/
theorem BatchProposeJob_pair (fuel : Nat) (s s2 : JobDistributorServer) (w w2 : World)
    (A B spec : String) (labels : List Label) (resp : BatchProposeJobResponse)
    (p1 p2 : Proposal) (hAB : A ≠ B)
    (h : s.BatchProposeJob fuel w ⟨[A, B], spec, labels⟩ = some (Except.ok resp, s2, w2))
    (hA : resp.SuccessResponses.get? A = some ⟨p1⟩)
    (hB : resp.SuccessResponses.get? B = some ⟨p2⟩) :
    ∃ s1 w1, s.ProposeJob fuel w ⟨A, spec, labels⟩ = some (Except.ok ⟨p1⟩, s1, w1) ∧
      s1.ProposeJob fuel w1 ⟨B, spec, labels⟩ = some (Except.ok ⟨p2⟩, s2, w2) := by
  have hBA : ¬ B = A := fun h => hAB h.symm
  unfold BatchProposeJob at h
  simp only [batchLoop] at h
  cases h1 : s.ProposeJob fuel w ⟨A, spec, labels⟩ with
  | none => simp [h1] at h
  | some o1 =>
    obtain ⟨r1, s1, w1⟩ := o1
    rw [h1] at h
    cases r1 with
    | error e1 =>
      simp only at h
      cases h2 : s1.ProposeJob fuel w1 ⟨B, spec, labels⟩ with
      | none => simp [h2] at h
      | some o2 =>
        obtain ⟨r2, s2', w2'⟩ := o2
        rw [h2] at h
        cases r2 with
        | error e2 =>
          simp only [Option.some.injEq, Prod.mk.injEq, Except.ok.injEq] at h
          rw [← h.1] at hA
          simp [GoMap.get?_empty] at hA
        | ok x2 =>
          simp only [Option.some.injEq, Prod.mk.injEq, Except.ok.injEq] at h
          rw [← h.1] at hA
          simp [GoMap.get?_set, hAB, GoMap.get?_empty] at hA
    | ok x1 =>
      simp only at h
      cases h2 : s1.ProposeJob fuel w1 ⟨B, spec, labels⟩ with
      | none => simp [h2] at h
      | some o2 =>
        obtain ⟨r2, s2', w2'⟩ := o2
        rw [h2] at h
        cases r2 with
        | error e2 =>
          simp only [Option.some.injEq, Prod.mk.injEq, Except.ok.injEq] at h
          rw [← h.1] at hB
          simp [GoMap.get?_set, hBA, GoMap.get?_empty] at hB
        | ok x2 =>
          simp only [Option.some.injEq, Prod.mk.injEq, Except.ok.injEq] at h
          obtain ⟨hr, hs, hw⟩ := h
          rw [← hr] at hA hB
          simp only [GoMap.get?_set, hAB, if_false, if_true, GoMap.get?_empty,
            Option.some.injEq] at hA hB
          subst hA hB hs hw
          exact ⟨s1, w1, rfl, h2⟩

/-- C28: jobs are keyed by job id alone. On a server whose jobs are filed
under their ids, two successful ProposeJob calls for distinct nodes `A` and
then `B`, or one BatchProposeJob over `A` and `B`, whose proposals are APPROVED
and have the same job id leave exactly one Job record with that id. After the
first call the Job lived on `A`; in the end it lives on `B`, the node of the
later call, and ListJobs filtered by `A` does not return a job with that id. -/
theorem jobs_keyed_by_id_alone (fuel : Nat) (s s2 : JobDistributorServer) (w w2 : World)
    (A B spec1 spec2 : String) (labels1 labels2 : List Label) (p1 p2 : Proposal)
    (hk : s.storage.jobsKeyed) (hAB : A ≠ B)
    (hcalls :
      (∃ s1 w1, s.ProposeJob fuel w ⟨A, spec1, labels1⟩ = some (Except.ok ⟨p1⟩, s1, w1) ∧
        s1.ProposeJob fuel w1 ⟨B, spec2, labels2⟩ = some (Except.ok ⟨p2⟩, s2, w2)) ∨
      (∃ resp, s.BatchProposeJob fuel w ⟨[A, B], spec1, labels1⟩ =
          some (Except.ok resp, s2, w2) ∧
        resp.SuccessResponses.get? A = some ⟨p1⟩ ∧
        resp.SuccessResponses.get? B = some ⟨p2⟩))
    (ha1 : p1.Status = ProposalStatus.APPROVED) (ha2 : p2.Status = ProposalStatus.APPROVED)
    (hjob : p2.JobId = p1.JobId) :
    (∃ s1 w1 job1,
      s.ProposeJob fuel w ⟨A, spec1, labels1⟩ = some (Except.ok ⟨p1⟩, s1, w1) ∧
      s1.storage.GetJob p1.JobId = some job1 ∧ job1.NodeId = A) ∧
    ∃ job, s2.storage.GetJob p1.JobId = some job ∧ job.Id = p1.JobId ∧ job.NodeId = B ∧
      (s2.storage.jobs.values.map (fun j => j.Id)).count p1.JobId = 1 ∧
      (∀ j ∈ s2.storage.jobs.values, j.Id = p1.JobId → j = job) ∧
      ∀ w' jobs,
        (s2.ListJobs w' (some { Ids := [], NodeIds := [A] })).1 = Except.ok jobs →
        ∀ j ∈ jobs, j.Id ≠ p1.JobId := by
  have hchain : ∃ s1 w1 specB labelsB,
      s.ProposeJob fuel w ⟨A, spec1, labels1⟩ = some (Except.ok ⟨p1⟩, s1, w1) ∧
      s1.ProposeJob fuel w1 ⟨B, specB, labelsB⟩ = some (Except.ok ⟨p2⟩, s2, w2) := by
    rcases hcalls with ⟨s1, w1, h1, h2⟩ | ⟨resp, hb, hA, hB⟩
    · exact ⟨s1, w1, spec2, labels2, h1, h2⟩
    · obtain ⟨s1, w1, h1, h2⟩ :=
        BatchProposeJob_pair fuel s s2 w w2 A B spec1 labels1 resp p1 p2 hAB hb hA hB
      exact ⟨s1, w1, spec1, labels1, h1, h2⟩
  obtain ⟨s1, w1, specB, labelsB, h1, h2⟩ := hchain
  have hk1 := ProposeJob_jobsKeyed fuel s w _ _ h1 hk
  have hk2 := ProposeJob_jobsKeyed fuel s1 w1 _ _ h2 hk1
  obtain ⟨job, hg, hid, hnode⟩ := ProposeJob_approved_node fuel s1 s2 w1 w2 _ p2 h2 ha2
  rw [hjob] at hg hid
  obtain ⟨hcount, hone⟩ := jobsKeyed_one_record s2.storage p1.JobId job hk2 hg
  obtain ⟨job1, hg1, -, hnode1⟩ := ProposeJob_approved_node fuel s s1 w w1 _ p1 h1 ha1
  refine ⟨⟨s1, w1, job1, h1, hg1, hnode1⟩, job, hg, hid, hnode, hcount, hone, ?_⟩
  intro w' jobs hl j hj hjid
  unfold JobDistributorServer.ListJobs at hl
  simp only [Except.ok.injEq] at hl
  rw [← hl] at hj
  unfold Storage.ListJobs Iter.range at hj
  obtain ⟨hvals, hmatch⟩ := List.mem_filter.mp hj
  obtain ⟨e, he, hx⟩ := List.mem_map.mp hvals
  have hjv : j ∈ s2.storage.jobs.values :=
    List.mem_map.mpr ⟨e, (mem_rangeOrder _ _ e).mp he, hx⟩
  have hjj := hone j hjv hjid
  rw [jobMatchesFilter_eq_passesFilter] at hmatch
  have hA : j.NodeId = A := by
    simpa [passesFilter] using hmatch
  rw [hjj, hnode] at hA
  exact hAB hA.symm

theorem jobs_keyed_by_id_alone_witness :
    (twoClients.BatchProposeJob 1 (World.running Net.accepting)
        ⟨["A", "B"], "type schemaVersion\nexternalJobID = \"j\"", []⟩).map
      (fun r => r.2.1.storage.jobs.values.map (fun j => (j.Id, j.NodeId))) =
      some [("j", "B")] ∧
    ∃ (s2 : JobDistributorServer) (w2 : World) (resp : BatchProposeJobResponse)
      (p1 p2 : Proposal),
      twoClients.BatchProposeJob 1 (World.running Net.accepting)
        ⟨["A", "B"], "type schemaVersion\nexternalJobID = \"j\"", []⟩ =
        some (Except.ok resp, s2, w2) ∧
      resp.SuccessResponses.get? "A" = some ⟨p1⟩ ∧
      resp.SuccessResponses.get? "B" = some ⟨p2⟩ ∧
      p1.JobId = "j" ∧
      ∃ job, s2.storage.GetJob p1.JobId = some job ∧ job.NodeId = "B" ∧
        (s2.storage.jobs.values.map (fun j => j.Id)).count p1.JobId = 1 := by
  refine ⟨by decide, ?_⟩
  have fB : (twoClients.BatchProposeJob 1 (World.running Net.accepting)
      ⟨["A", "B"], "type schemaVersion\nexternalJobID = \"j\"", []⟩).map
      (fun r => r.1.map (fun resp =>
        ((resp.SuccessResponses.get? "A").map (fun x => (x.Proposal.Status, x.Proposal.JobId)),
          (resp.SuccessResponses.get? "B").map
            (fun x => (x.Proposal.Status, x.Proposal.JobId))))) =
      some (Except.ok (some (ProposalStatus.APPROVED, "j"),
        some (ProposalStatus.APPROVED, "j"))) := by decide
  have hk : twoClients.storage.jobsKeyed := fun e he => by cases he
  cases hb : twoClients.BatchProposeJob 1 (World.running Net.accepting)
      ⟨["A", "B"], "type schemaVersion\nexternalJobID = \"j\"", []⟩ with
  | none => rw [hb] at fB; cases fB
  | some o =>
    obtain ⟨res, s2, w2⟩ := o
    rw [hb] at fB
    cases res with
    | error e => cases fB
    | ok resp =>
      simp only [Option.map_some', Except.map, Option.some.injEq, Except.ok.injEq,
        Prod.mk.injEq] at fB
      obtain ⟨fA, fB⟩ := fB
      cases hA : resp.SuccessResponses.get? "A" with
      | none => rw [hA] at fA; cases fA
      | some x1 =>
        obtain ⟨p1⟩ := x1
        cases hB : resp.SuccessResponses.get? "B" with
        | none => rw [hB] at fB; cases fB
        | some x2 =>
          obtain ⟨p2⟩ := x2
          rw [hA] at fA
          rw [hB] at fB
          simp only [Option.map_some', Option.some.injEq, Prod.mk.injEq] at fA fB
          obtain ⟨-, job, hg, -, hnode, hcount, -, -⟩ :=
            jobs_keyed_by_id_alone 1 twoClients s2 (World.running Net.accepting) w2
              "A" "B" "type schemaVersion\nexternalJobID = \"j\"" "" [] [] p1 p2 hk
              (by decide) (Or.inr ⟨resp, hb, hA, hB⟩) fA.1 fB.1 (fB.2.trans fA.2.symm)
          exact ⟨s2, w2, resp, p1, p2, rfl, hA, hB, fA.2, job, hg, hnode, hcount⟩

/-! ## The field shared by the email and the session token -/

/-- A request that the node does not answer with 401 is sent once, as
`buildRequest` makes it, and its response is returned. -/
theorem doRequest_once (fuel : Nat) (c : Client) (n : Net) (method path : String)
    (body : Payload) (headers : List (String × String)) (resp : Response)
    (hnew : n.newRequestErr method (c.BaseURL ++ path) = none)
    (htrip : n.roundTrip n.sent (buildRequest c method path body headers) = Except.ok resp)
    (hs : resp.StatusCode ≠ 401) :
    doRequest (fuel + 1) c n method path body headers =
      some (Except.ok resp, c, { n with sent := n.sent + 1 }) := by
  unfold doRequest
  simp only [hnew, Net.Do, htrip, hs, if_false]

/-- A session authentication that succeeds leaves in the field the value of the
`clsession` cookie of the response it got. -/
theorem authenticateSessionVia_token (doReq : Requester) (c c1 : Client) (n n1 : Net)
    (h : authenticateSessionVia doReq c n = some (none, c1, n1)) :
    ∃ c0 resp cookie,
      doReq c n "POST" "/sessions" (Payload.SessionRequest c.SessionCookie c.AuthToken) [] =
        some (Except.ok resp, c0, n1) ∧
      resp.StatusCode = 200 ∧
      resp.Cookies.find? (fun x => x.1 == "clsession") = some cookie ∧
      c1.SessionCookie = cookie.2 := by
  unfold authenticateSessionVia at h
  cases hd : doReq c n "POST" "/sessions"
      (Payload.SessionRequest c.SessionCookie c.AuthToken) [] with
  | none => rw [hd] at h; cases h
  | some out =>
    obtain ⟨res, c0, n0⟩ := out
    rw [hd] at h
    cases res with
    | error e => simp at h
    | ok resp =>
      simp only at h
      by_cases hs : resp.StatusCode = 200
      · simp only [hs, ne_eq, not_true_eq_false, if_false] at h
        cases hf : resp.Cookies.find? (fun cookie => cookie.1 == "clsession") with
        | none => rw [hf] at h; simp at h
        | some cookie =>
          rw [hf] at h
          simp only [Option.some.injEq, Prod.mk.injEq, true_and] at h
          obtain ⟨h1, h2⟩ := h
          subst h1 h2
          exact ⟨c0, resp, cookie, rfl, hs, hf, rfl⟩
      · simp [hs] at h

/-- C29: the client keeps the email and the session token in one field.
A successful session authentication leaves in it the value of the `clsession`
cookie. Every authenticate takes the email of its session request from the
field, and the email of its legacy request from the field as the session
attempt left it, so after a successful session authentication it submits the
session token, not the email given to AddNode. And whenever the field is
non-empty the request is sent with the field as `clsession` cookie and without
basic credentials. -/
theorem email_and_session_token_share_a_field (fuel : Nat) (c : Client) (n : Net) :
    (∀ c1 n1, c.authenticateSession fuel n = some (none, c1, n1) →
      ∃ c0 resp cookie,
        doRequest fuel c n "POST" "/sessions"
          (Payload.SessionRequest c.SessionCookie c.AuthToken) [] =
          some (Except.ok resp, c0, n1) ∧
        resp.StatusCode = 200 ∧
        resp.Cookies.find? (fun x => x.1 == "clsession") = some cookie ∧
        c1.SessionCookie = cookie.2) ∧
    (∀ doReq doReq' : Requester,
      doReq c n "POST" "/sessions" (Payload.SessionRequest c.SessionCookie c.AuthToken) [] =
        doReq' c n "POST" "/sessions" (Payload.SessionRequest c.SessionCookie c.AuthToken) [] →
      authenticateSessionVia doReq c n = authenticateSessionVia doReq' c n) ∧
    (∀ doReq doReq' : Requester,
      doReq c n "POST" "/v2/authenticate"
          (Payload.LoginRequest c.SessionCookie c.AuthToken) [] =
        doReq' c n "POST" "/v2/authenticate"
          (Payload.LoginRequest c.SessionCookie c.AuthToken) [] →
      authenticateBasicVia doReq c n = authenticateBasicVia doReq' c n) ∧
    (∀ err c1 n1, c.authenticateSession fuel n = some (some err, c1, n1) →
      c.authenticate fuel n = c1.authenticateBasic fuel n1) ∧
    (∀ method path body headers, c.SessionCookie ≠ "" →
      (buildRequest c method path body headers).Cookie = some c.SessionCookie ∧
      (buildRequest c method path body headers).BasicAuth = none ∧
      ∀ resp, n.newRequestErr method (c.BaseURL ++ path) = none →
        n.roundTrip n.sent (buildRequest c method path body headers) = Except.ok resp →
        resp.StatusCode ≠ 401 →
        doRequest (fuel + 1) c n method path body headers =
          some (Except.ok resp, c, { n with sent := n.sent + 1 })) := by
  refine ⟨?_, ?_, ?_, ?_, ?_⟩
  · intro c1 n1 h
    exact authenticateSessionVia_token (doRequest fuel) c c1 n n1 h
  · intro doReq doReq' h
    unfold authenticateSessionVia
    rw [h]
  · intro doReq doReq' h
    unfold authenticateBasicVia
    rw [h]
  · intro err c1 n1 h
    simp only [Client.authenticate, Client.authenticateBasic, authenticateVia,
      show authenticateSessionVia (doRequest fuel) c n = some (some err, c1, n1) from h]
  · intro method path body headers hne
    refine ⟨?_, ?_, ?_⟩
    · simp [buildRequest, hne]
    · simp [buildRequest, hne]
    · intro resp hnew htrip hs
      exact doRequest_once fuel c n method path body headers resp hnew htrip hs

theorem email_and_session_token_share_a_field_witness :
    (NewClientManager.AddNode 1 (Net.strict 2) "A" "http://a" "admin@a" "pw").map
      (fun r => (r.1, r.2.1.GetClient "A", r.2.2.sent)) =
      some (none, some ⟨"A", "http://a", "tok", "pw"⟩, 1) ∧
    (buildRequest ⟨"A", "http://a", "tok", "pw"⟩ "GET" "/v2/jobs" Payload.nil []).Cookie =
      some "tok" ∧
    (buildRequest ⟨"A", "http://a", "tok", "pw"⟩ "GET" "/v2/jobs" Payload.nil []).BasicAuth =
      none ∧
    (doRequest 2 ⟨"A", "http://a", "tok", "pw"⟩ { Net.strict 2 with sent := 1 } "GET" "/v2/jobs"
        Payload.nil []).map (fun r => (r.1.map (fun resp => resp.Body), r.2.2.sent)) =
      some (Except.ok "ok", 2) ∧
    (doRequest 2 ⟨"A", "http://a", "tok", "pw"⟩ { Net.strict 2 with sent := 2 } "GET" "/v2/jobs"
        Payload.nil []).map (fun r => (r.1, r.2.2.sent)) =
      some (Except.error
        "re-authentication failed: basic auth failed: 403 - unknown user tok", 5) ∧
    (Client.authenticateSession 1 ⟨"A", "http://a", "tok", "pw"⟩
        { Net.strict 2 with sent := 3 }).map (fun r => r.1) =
      some (some "session auth failed: 403 - unknown user tok") :=
  ⟨by decide,
    ((email_and_session_token_share_a_field 0 ⟨"A", "http://a", "tok", "pw"⟩ (Net.strict 2)).2.2.2.2
      "GET" "/v2/jobs" Payload.nil [] (by decide)).1,
    ((email_and_session_token_share_a_field 0 ⟨"A", "http://a", "tok", "pw"⟩ (Net.strict 2)).2.2.2.2
      "GET" "/v2/jobs" Payload.nil [] (by decide)).2.1,
    by decide, by decide, by decide⟩

/-! ## ValidateJobSpec -/

/-- C30, the claim as stated fails: a spec that declares neither field and
mentions the words in a comment and in the key `contractType` does not pass
validation, because `contractType` does not contain `type` (the test
distinguishes upper and lower case); nothing is sent to the node. -/
theorem ValidateJobSpec_contractType_rejected :
    declaresField "contractType = \"x\"\n# schemaVersion" "type" = false ∧
    declaresField "contractType = \"x\"\n# schemaVersion" "schemaVersion" = false ∧
    ValidateJobSpec "contractType = \"x\"\n# schemaVersion" =
      some "job spec missing required field: type" ∧
    (twoNodes.submitJobToNode 1 Net.accepting "B" "contractType = \"x\"\n# schemaVersion").map
      (fun r => (r.1, r.2.2.sent)) = some (false, 0) := by
  decide

/-- C30, amended: ValidateJobSpec accepts a spec if and only if the text
contains both `type` and `schemaVersion` as substrings anywhere, in exactly
this spelling; the empty spec is rejected by this test too. Hence a spec that
mentions the two words, whether or not it declares the fields, is handed to
the node's CreateJob whenever the node has a client, and delivery is what
CreateJob returns. -/
theorem ValidateJobSpec_substrings (spec : String) :
    (ValidateJobSpec spec = none ↔
      Contains spec.toList "type".toList = true ∧
        Contains spec.toList "schemaVersion".toList = true) ∧
    (Contains "".toList "type".toList = false) ∧
    (∀ (fuel : Nat) (s : JobDistributorServer) (n : Net) (nodeID : String) (client : Client),
      s.chainlink.GetClient nodeID = some client →
      Contains spec.toList "type".toList = true →
      Contains spec.toList "schemaVersion".toList = true →
      s.submitJobToNode fuel n nodeID spec =
        (client.CreateJob fuel n spec).map (fun r =>
          (r.1.isOk, { s with chainlink := ⟨s.chainlink.clients.set nodeID r.2.1⟩ }, r.2.2))) := by
  have hiff : ValidateJobSpec spec = none ↔
      Contains spec.toList "type".toList = true ∧
        Contains spec.toList "schemaVersion".toList = true := by
    constructor
    · intro h
      cases ht : Contains spec.toList "type".toList with
      | false =>
        obtain ⟨err, he⟩ := ValidateJobSpec_missing spec (Or.inl ht)
        rw [h] at he
        cases he
      | true =>
        cases hs : Contains spec.toList "schemaVersion".toList with
        | false =>
          obtain ⟨err, he⟩ := ValidateJobSpec_missing spec (Or.inr hs)
          rw [h] at he
          cases he
        | true => exact ⟨rfl, rfl⟩
    · intro h
      obtain ⟨ht, hs⟩ := h
      have he : spec ≠ "" := by
        intro he
        rw [he] at ht
        revert ht
        decide
      unfold ValidateJobSpec
      simp only [he, if_false, List.find?_cons, ht, hs, Bool.not_true, List.find?_nil,
        Option.map_none']
  refine ⟨hiff, by decide, ?_⟩
  intro fuel s n nodeID client hc ht hs
  have hv := hiff.mpr ⟨ht, hs⟩
  unfold submitJobToNode
  simp only [hc, hv]
  cases hcj : client.CreateJob fuel n spec with
  | none => rfl
  | some out =>
    obtain ⟨res, c1, n1⟩ := out
    cases res with
    | error err => rfl
    | ok job => rfl

theorem ValidateJobSpec_substrings_witness :
    declaresField "# schemaVersion\nsubtype = \"x\"" "type" = false ∧
    declaresField "# schemaVersion\nsubtype = \"x\"" "schemaVersion" = false ∧
    ValidateJobSpec "# schemaVersion\nsubtype = \"x\"" = none ∧
    (twoNodes.submitJobToNode 1 Net.accepting "B" "# schemaVersion\nsubtype = \"x\"").map
      (fun r => (r.1, r.2.2.sent)) = some (true, 1) :=
  ⟨by decide, by decide,
    (ValidateJobSpec_substrings "# schemaVersion\nsubtype = \"x\"").1.mpr ⟨by decide, by decide⟩,
    by decide⟩

/-! ## Calls that return

A call of the service that contacts a node returns exactly when the client's
call returns. It does so whenever the node answers the request, that is with
anything but a 401. -/

/-- A request that the node answers is sent once and the call returns. -/
theorem doRequest_answered (fuel : Nat) (c : Client) (n : Net) (method path : String)
    (body : Payload) (headers : List (String × String))
    (h : n.answers (buildRequest c method path body headers) = true) :
    ∃ r, doRequest (fuel + 1) c n method path body headers =
      some (r, c, { n with sent := n.sent + 1 }) := by
  simp only [Net.answers, Bool.and_eq_true, Option.isNone_iff_eq_none] at h
  obtain ⟨hnew, hresp⟩ := h
  have hnew2 : n.newRequestErr method (c.BaseURL ++ path) = none := hnew
  unfold doRequest
  simp only [hnew2, Net.Do]
  cases ht : n.roundTrip n.sent (buildRequest c method path body headers) with
  | error err => exact ⟨_, rfl⟩
  | ok resp =>
    rw [ht] at hresp
    have hs : resp.StatusCode ≠ 401 := by simpa using hresp
    simp only [hs, if_false]
    exact ⟨_, rfl⟩

/-- A CreateJob whose request the node answers returns, after one request. -/
theorem CreateJob_answered (fuel : Nat) (client : Client) (n : Net) (spec : String)
    (h : n.answers (createJobRequest client spec) = true) :
    ∃ r, client.CreateJob (fuel + 1) n spec = some (r, client, { n with sent := n.sent + 1 }) := by
  obtain ⟨r, hr⟩ := doRequest_answered fuel client n "POST" "/v2/jobs"
    (Payload.CreateJobRequest spec) [("Content-Type", "application/json")] h
  unfold Client.CreateJob
  rw [hr]
  cases r with
  | error err => exact ⟨_, rfl⟩
  | ok resp =>
    simp only
    cases resp.ReadErr with
    | some err => exact ⟨_, rfl⟩
    | none =>
      simp only
      split
      · exact ⟨_, rfl⟩
      · split
        · exact ⟨_, rfl⟩
        · split
          · exact ⟨_, rfl⟩
          · exact ⟨_, rfl⟩

/-- A client DeleteJob whose request the node answers returns, after one request. -/
theorem Client_DeleteJob_answered (fuel : Nat) (client : Client) (n : Net) (jobID : String)
    (h : n.answers (deleteJobRequest client jobID) = true) :
    ∃ r, client.DeleteJob (fuel + 1) n jobID =
      some (r, client, { n with sent := n.sent + 1 }) := by
  obtain ⟨r, hr⟩ := doRequest_answered fuel client n "DELETE" ("/v2/jobs/" ++ jobID)
    Payload.nil [] h
  unfold Client.DeleteJob
  rw [hr]
  cases r with
  | error err => exact ⟨_, rfl⟩
  | ok resp =>
    simp only
    split
    · exact ⟨_, rfl⟩
    · split
      · exact ⟨_, rfl⟩
      · exact ⟨_, rfl⟩

/-- The delivery attempt returns when no request is sent and when the node
answers the CreateJob request. -/
theorem submitJobToNode_returns (fuel : Nat) (s : JobDistributorServer) (n : Net)
    (nodeID spec : String)
    (h : s.chainlink.GetClient nodeID = none ∨ ValidateJobSpec spec ≠ none ∨
      ∃ client, s.chainlink.GetClient nodeID = some client ∧
        n.answers (createJobRequest client spec) = true) :
    (s.submitJobToNode (fuel + 1) n nodeID spec).isSome = true := by
  unfold submitJobToNode
  rcases h with h | h | ⟨client, hc, ha⟩
  · rw [h]
    rfl
  · cases s.chainlink.GetClient nodeID with
    | none => rfl
    | some client =>
      cases hv : ValidateJobSpec spec with
      | none => exact absurd hv h
      | some err => rfl
  · rw [hc]
    cases hv : ValidateJobSpec spec with
    | some err => rfl
    | none =>
      obtain ⟨r, hr⟩ := CreateJob_answered fuel client n spec ha
      simp only [hr]
      cases r with
      | error err => rfl
      | ok job => rfl

/-- Without a request the delivery attempt returns whatever the bound is. -/
theorem submitJobToNode_no_request (fuel : Nat) (s : JobDistributorServer) (n : Net)
    (nodeID spec : String)
    (h : s.chainlink.GetClient nodeID = none ∨ ValidateJobSpec spec ≠ none) :
    s.submitJobToNode fuel n nodeID spec = some (false, s, n) := by
  rcases h with h | h
  · unfold submitJobToNode
    rw [h]
  · cases hv : ValidateJobSpec spec with
    | none => exact absurd hv h
    | some err => exact submitJobToNode_invalid fuel s n nodeID spec err hv

/-- ProposeJob on a node in Store returns exactly when the delivery attempt does. -/
theorem ProposeJob_returns_iff (fuel : Nat) (s : JobDistributorServer) (w : World)
    (req : ProposeJobRequest) (hnode : s.storage.NodeExists req.NodeId = true) :
    (s.ProposeJob fuel w req).isSome =
      (s.submitJobToNode fuel w.net req.NodeId req.Spec).isSome := by
  obtain ⟨jobID, clk, he, -, -⟩ := extractJobIDFromSpec_ok w.clock req.Spec
  unfold ProposeJob
  simp only [hnode, Bool.not_true, Bool.false_eq_true, if_false, he]
  cases hsub : s.submitJobToNode fuel w.net req.NodeId req.Spec with
  | none => rfl
  | some out =>
    obtain ⟨delivered, s1, n1⟩ := out
    cases delivered <;> rfl

/-- The delivery attempt behind a ProposeJob call that returned. -/
theorem ProposeJob_delivery_of_some (fuel : Nat) (s : JobDistributorServer) (w : World)
    (req : ProposeJobRequest) (r : Outcome ProposeJobResponse)
    (hnode : s.storage.NodeExists req.NodeId = true)
    (h : s.ProposeJob fuel w req = some r) :
    ∃ delivered s1 n1,
      s.submitJobToNode fuel w.net req.NodeId req.Spec = some (delivered, s1, n1) := by
  have hi := ProposeJob_returns_iff fuel s w req hnode
  rw [h] at hi
  cases hsub : s.submitJobToNode fuel w.net req.NodeId req.Spec with
  | none => rw [hsub] at hi; cases hi
  | some out => exact ⟨out.1, out.2.1, out.2.2, rfl⟩

/-- With a client whose node answers 401 to every request, a delivery attempt
for a spec that passes validation does not return. -/
theorem submitJobToNode_unauthorized (fuel sent : Nat) (s : JobDistributorServer)
    (nodeID spec : String) (client : Client)
    (hc : s.chainlink.GetClient nodeID = some client) (hv : ValidateJobSpec spec = none) :
    s.submitJobToNode fuel { Net.unauthorized with sent := sent } nodeID spec = none := by
  unfold submitJobToNode
  rw [hc]
  simp only [hv]
  unfold Client.CreateJob
  rw [doRequest_unauthorized]

/-- ProposeJob for a node in Store whose client gets 401 to every request does
not return, when the spec passes validation. -/
theorem ProposeJob_none_of_unauthorized (fuel sent : Nat) (s : JobDistributorServer)
    (w : World) (req : ProposeJobRequest) (client : Client)
    (hnode : s.storage.NodeExists req.NodeId = true)
    (hc : s.chainlink.GetClient req.NodeId = some client)
    (hv : ValidateJobSpec req.Spec = none)
    (hnet : w.net = { Net.unauthorized with sent := sent }) :
    s.ProposeJob fuel w req = none := by
  have hi := ProposeJob_returns_iff fuel s w req hnode
  have hs := submitJobToNode_unauthorized fuel sent s req.NodeId req.Spec client hc hv
  rw [← hnet] at hs
  rw [hs] at hi
  cases hp : s.ProposeJob fuel w req with
  | none => rfl
  | some r => rw [hp] at hi; cases hi

/-- DeleteJob of a job whose node has a client that gets 401 to every request
does not return. -/
theorem DeleteJob_none_of_unauthorized (fuel sent : Nat) (s : JobDistributorServer)
    (w : World) (id : String) (job : Job) (client : Client) (hid : id ≠ "")
    (hj : s.storage.GetJob id = some job)
    (hc : s.chainlink.GetClient job.NodeId = some client)
    (hnet : w.net = { Net.unauthorized with sent := sent }) :
    s.DeleteJob fuel w id = none := by
  have hd := doRequest_unauthorized fuel sent client "DELETE" ("/v2/jobs/" ++ id) Payload.nil []
  simp only [DeleteJob, hid, ne_eq, not_false_eq_true, if_true, deleteJobFromNode, hj, hc, hnet,
    Client.DeleteJob, hd]

/-! ## ProposeJob returns when the delivery attempt does -/

/-- C3, the claim as stated fails: ProposeJob does not return success whatever
the node answers. For node `B`, which is in Store and has a client, and a spec
that passes validation, it returns nothing when the node answers 401 to every
request: each 401 makes the client authenticate, and the authentication request
is answered 401 in turn. -/
theorem ProposeJob_does_not_return_on_401 :
    twoNodes.storage.NodeExists "B" = true ∧
    twoNodes.chainlink.GetClient "B" = some (Client.sample "B") ∧
    ValidateJobSpec "type schemaVersion" = none ∧
    ∀ fuel, twoNodes.ProposeJob fuel (World.running Net.unauthorized)
      ⟨"B", "type schemaVersion", []⟩ = none :=
  ⟨by decide, by decide, by decide, fun fuel =>
    ProposeJob_none_of_unauthorized fuel 0 twoNodes (World.running Net.unauthorized)
      ⟨"B", "type schemaVersion", []⟩ (Client.sample "B") (by decide) (by decide) (by decide)
      rfl⟩

/-- C3, amended: for every spec string and every node id present in Store,
ProposeJob returns exactly when its delivery attempt returns. It does when no
request is sent, the node having no client or the spec failing local
validation, and when the node answers the CreateJob request with anything but
a 401. Whenever it returns, it returns success, never a service error; the
returned proposal carries the request's spec, has status APPROVED or REJECTED,
never PENDING, and a subsequent GetProposal with its id returns that same
proposal. It does not return when the node, through a client, answers 401 to
every request for a spec that passes validation. -/
theorem ProposeJob_succeeds_and_persists (fuel : Nat) (s : JobDistributorServer) (w : World)
    (req : ProposeJobRequest) (hnode : s.storage.NodeExists req.NodeId = true) :
    ((s.ProposeJob fuel w req).isSome =
      (s.submitJobToNode fuel w.net req.NodeId req.Spec).isSome) ∧
    (∀ r, s.ProposeJob fuel w req = some r →
      ∃ p, r.1 = Except.ok ⟨p⟩ ∧ p.Spec = req.Spec ∧
        (p.Status = ProposalStatus.APPROVED ∨ p.Status = ProposalStatus.REJECTED) ∧
        p.Status ≠ ProposalStatus.PENDING ∧
        r.2.1.GetProposal r.2.2 p.Id = (Except.ok p, r.2.1, r.2.2)) ∧
    (s.chainlink.GetClient req.NodeId = none ∨ ValidateJobSpec req.Spec ≠ none →
      (s.ProposeJob fuel w req).isSome = true) ∧
    (∀ client, s.chainlink.GetClient req.NodeId = some client →
      w.net.answers (createJobRequest client req.Spec) = true →
      (s.ProposeJob (fuel + 1) w req).isSome = true) ∧
    (∀ client sent, s.chainlink.GetClient req.NodeId = some client →
      ValidateJobSpec req.Spec = none → w.net = { Net.unauthorized with sent := sent } →
      s.ProposeJob fuel w req = none) := by
  refine ⟨ProposeJob_returns_iff fuel s w req hnode, ?_, ?_, ?_, ?_⟩
  rotate_left 3
  · intro client sent hc hv hnet
    exact ProposeJob_none_of_unauthorized fuel sent s w req client hnode hc hv hnet
  · intro r h
    obtain ⟨delivered, s1, n1, hsub⟩ := ProposeJob_delivery_of_some fuel s w req r hnode h
    obtain ⟨p, s', w', e, h1, h2, h3, h4⟩ :=
      ProposeJob_persists_of_delivery fuel s w req delivered s1 n1 hnode hsub
    rw [e] at h
    simp only [Option.some.injEq] at h
    rw [← h]
    exact ⟨p, rfl, h1, h2, h3, h4⟩
  · intro h
    rw [ProposeJob_returns_iff fuel s w req hnode,
      submitJobToNode_no_request fuel s w.net req.NodeId req.Spec h]
    rfl
  · intro client hc ha
    rw [ProposeJob_returns_iff (fuel + 1) s w req hnode]
    exact submitJobToNode_returns fuel s w.net req.NodeId req.Spec (Or.inr (Or.inr ⟨client, hc, ha⟩))

theorem ProposeJob_succeeds_and_persists_witness :
    twoNodes.storage.NodeExists "B" = true ∧
    (twoNodes.ProposeJob 1 (World.running Net.accepting)
      ⟨"B", "type schemaVersion", []⟩).isSome = true ∧
    (World.running Net.accepting).net.sent = 0 ∧
    (twoNodes.ProposeJob 1 (World.running Net.accepting) ⟨"B", "type schemaVersion", []⟩).map
      (fun r => (r.1.map (fun resp => resp.Proposal.Status), r.2.2.net.sent)) =
      some (Except.ok ProposalStatus.APPROVED, 1) ∧
    ∀ r, twoNodes.ProposeJob 1 (World.running Net.accepting)
        ⟨"B", "type schemaVersion", []⟩ = some r →
      ∃ p, r.1 = Except.ok ⟨p⟩ ∧ p.Spec = "type schemaVersion" ∧
        (p.Status = ProposalStatus.APPROVED ∨ p.Status = ProposalStatus.REJECTED) ∧
        p.Status ≠ ProposalStatus.PENDING ∧
        r.2.1.GetProposal r.2.2 p.Id = (Except.ok p, r.2.1, r.2.2) :=
  ⟨by decide,
    (ProposeJob_succeeds_and_persists 0 twoNodes (World.running Net.accepting)
      ⟨"B", "type schemaVersion", []⟩ (by decide)).2.2.2.1 (Client.sample "B") (by decide)
      (by decide),
    rfl, by decide,
    (ProposeJob_succeeds_and_persists 1 twoNodes (World.running Net.accepting)
      ⟨"B", "type schemaVersion", []⟩ (by decide)).2.1⟩

/-- C4, the claim as stated fails: ProposeJob on a node in Store need not
return a proposal. With the spec declaring `abc123`, for node `B`, it returns
nothing when the node answers 401 to every request. -/
theorem ProposeJob_declared_id_no_proposal_on_401 :
    twoNodes.storage.NodeExists "B" = true ∧
    ExtractJobIDFromTOML "type = \"cron\"\nschemaVersion = 1\nexternalJobID = \"abc123\"\n" =
      "abc123" ∧
    ∀ fuel, twoNodes.ProposeJob fuel (World.at 5000000007 Net.unauthorized)
      ⟨"B", "type = \"cron\"\nschemaVersion = 1\nexternalJobID = \"abc123\"\n", []⟩ = none :=
  ⟨by decide, by decide, fun fuel =>
    ProposeJob_none_of_unauthorized fuel 0 twoNodes (World.at 5000000007 Net.unauthorized)
      ⟨"B", "type = \"cron\"\nschemaVersion = 1\nexternalJobID = \"abc123\"\n", []⟩
      (Client.sample "B") (by decide) (by decide) (by decide) rfl⟩

/-- C4, amended: for every identifier `id` (non-empty, without `=` or quote
characters) and every spec whose first line starting with `externalJobID` is
`externalJobID = "<id>"`, every ProposeJob call on a node in Store that returns
gives a proposal whose job id is `id`, and when the proposal is APPROVED, that
is on delivery success, the stored Job's id is `id`. The call returns when no
request is sent and when the node answers the CreateJob request with anything
but a 401. -/
theorem ProposeJob_uses_declared_job_id (fuel : Nat) (s : JobDistributorServer) (w : World)
    (req : ProposeJobRequest) (id : String) (before after : List (List Char))
    (hid : id ≠ "")
    (hchars : ∀ c ∈ id.toList, c ≠ '=' ∧ c ≠ Char.ofNat 34 ∧ c ≠ Char.ofNat 39)
    (hlines : specLines req.Spec =
      before ++ ("externalJobID = \"" ++ id ++ "\"").toList :: after)
    (hbefore : ∀ l ∈ before, HasPrefix (TrimSpace l) "externalJobID".toList = false)
    (hnode : s.storage.NodeExists req.NodeId = true) :
    (∀ r, s.ProposeJob fuel w req = some r →
      ∃ p, r.1 = Except.ok ⟨p⟩ ∧ p.JobId = id ∧
        (p.Status = ProposalStatus.APPROVED →
          ∃ job, r.2.1.storage.GetJob id = some job ∧ job.Id = id)) ∧
    (s.chainlink.GetClient req.NodeId = none ∨ ValidateJobSpec req.Spec ≠ none →
      (s.ProposeJob fuel w req).isSome = true) ∧
    (∀ client, s.chainlink.GetClient req.NodeId = some client →
      w.net.answers (createJobRequest client req.Spec) = true →
      (s.ProposeJob (fuel + 1) w req).isSome = true) := by
  refine ⟨?_, ?_, ?_⟩
  · intro r h
    obtain ⟨delivered, s1, n1, hsub⟩ := ProposeJob_delivery_of_some fuel s w req r hnode h
    obtain ⟨p, s', w', e, h1, h2⟩ :=
      ProposeJob_declared_job_id_of_delivery fuel s w req id before after delivered s1 n1
        hid hchars hlines hbefore hnode hsub
    obtain ⟨p2, s2, w2, e2, hstatus, -⟩ :=
      ProposeJob_summary fuel s w req delivered s1 n1 hnode hsub
    rw [e] at e2 h
    simp only [Option.some.injEq, Prod.mk.injEq, Except.ok.injEq,
      ProposeJobResponse.mk.injEq] at e2
    simp only [Option.some.injEq] at h
    rw [← h]
    refine ⟨p, rfl, h1, ?_⟩
    intro ha
    apply h2
    rw [← e2.1, ha] at hstatus
    cases delivered with
    | true => rfl
    | false => simp at hstatus
  · intro h
    rw [ProposeJob_returns_iff fuel s w req hnode,
      submitJobToNode_no_request fuel s w.net req.NodeId req.Spec h]
    rfl
  · intro client hc ha
    rw [ProposeJob_returns_iff (fuel + 1) s w req hnode]
    exact submitJobToNode_returns fuel s w.net req.NodeId req.Spec (Or.inr (Or.inr ⟨client, hc, ha⟩))

theorem ProposeJob_uses_declared_job_id_witness :
    (twoNodes.ProposeJob 1 (World.at 5000000007 Net.accepting)
      ⟨"B", "type = \"cron\"\nschemaVersion = 1\nexternalJobID = \"abc123\"\n", []⟩).isSome =
      true ∧
    ∀ r, twoNodes.ProposeJob 1 (World.at 5000000007 Net.accepting)
        ⟨"B", "type = \"cron\"\nschemaVersion = 1\nexternalJobID = \"abc123\"\n", []⟩ =
        some r →
      ∃ p, r.1 = Except.ok ⟨p⟩ ∧ p.JobId = "abc123" ∧
        (p.Status = ProposalStatus.APPROVED →
          ∃ job, r.2.1.storage.GetJob "abc123" = some job ∧ job.Id = "abc123") :=
  ⟨(ProposeJob_uses_declared_job_id 0 twoNodes (World.at 5000000007 Net.accepting)
      ⟨"B", "type = \"cron\"\nschemaVersion = 1\nexternalJobID = \"abc123\"\n", []⟩ "abc123"
      ["type = \"cron\"".toList, "schemaVersion = 1".toList] [[]]
      (by decide) (by decide) (by decide) (by decide) (by decide)).2.2
      (Client.sample "B") (by decide) (by decide),
    (ProposeJob_uses_declared_job_id 1 twoNodes (World.at 5000000007 Net.accepting)
      ⟨"B", "type = \"cron\"\nschemaVersion = 1\nexternalJobID = \"abc123\"\n", []⟩ "abc123"
      ["type = \"cron\"".toList, "schemaVersion = 1".toList] [[]]
      (by decide) (by decide) (by decide) (by decide) (by decide)).1⟩

/-- C26, the claim as stated fails: ProposeJob on a registered node need not
give a proposal. With a spec in which no line declares `externalJobID`, for
node `B`, it returns nothing when the node answers 401 to every request. -/
theorem ProposeJob_clock_id_no_proposal_on_401 :
    twoNodes.storage.NodeExists "B" = true ∧
    (∀ line ∈ specLines "type = \"cron\"\nschemaVersion = 1",
      declaresExternalJobID line = false) ∧
    ∀ fuel, twoNodes.ProposeJob fuel (World.running Net.unauthorized)
      ⟨"B", "type = \"cron\"\nschemaVersion = 1", []⟩ = none :=
  ⟨by decide, by decide, fun fuel =>
    ProposeJob_none_of_unauthorized fuel 0 twoNodes (World.running Net.unauthorized)
      ⟨"B", "type = \"cron\"\nschemaVersion = 1", []⟩
      (Client.sample "B") (by decide) (by decide) (by decide) rfl⟩

/-- C26, amended: for every spec in which no line declares `externalJobID`,
every ProposeJob call on a registered node that returns gives the proposal the
job id `job_` followed by the decimal Unix seconds of the first reading of the
clock in the call: the id is a function of the clock alone, whatever the spec,
the node and the Store are; an APPROVED proposal has its Job stored under this
id. The call returns when no request is sent and when the node answers the
CreateJob request with anything but a 401. -/
theorem ProposeJob_makes_job_id_from_clock (fuel : Nat) (s : JobDistributorServer) (w : World)
    (req : ProposeJobRequest)
    (hno : ∀ line ∈ specLines req.Spec, declaresExternalJobID line = false)
    (hnode : s.storage.NodeExists req.NodeId = true) :
    (∀ r, s.ProposeJob fuel w req = some r →
      ∃ p, r.1 = Except.ok ⟨p⟩ ∧
        p.JobId = "job_" ++ toString (w.clock.now w.clock.tick).Unix ∧
        r.2.1.storage.GetProposal p.Id = some p ∧
        (p.Status = ProposalStatus.APPROVED →
          ∃ job, r.2.1.storage.GetJob p.JobId = some job ∧ job.Id = p.JobId)) ∧
    (s.chainlink.GetClient req.NodeId = none ∨ ValidateJobSpec req.Spec ≠ none →
      (s.ProposeJob fuel w req).isSome = true) ∧
    (∀ client, s.chainlink.GetClient req.NodeId = some client →
      w.net.answers (createJobRequest client req.Spec) = true →
      (s.ProposeJob (fuel + 1) w req).isSome = true) := by
  refine ⟨?_, ?_, ?_⟩
  · intro r h
    obtain ⟨delivered, s1, n1, hsub⟩ := ProposeJob_delivery_of_some fuel s w req r hnode h
    obtain ⟨p, s', w', e, h1, h2, h3⟩ :=
      ProposeJob_clock_job_id_of_delivery fuel s w req delivered s1 n1 hno hnode hsub
    obtain ⟨p2, s2, w2, e2, hstatus, -⟩ :=
      ProposeJob_summary fuel s w req delivered s1 n1 hnode hsub
    rw [e] at e2 h
    simp only [Option.some.injEq, Prod.mk.injEq, Except.ok.injEq,
      ProposeJobResponse.mk.injEq] at e2
    simp only [Option.some.injEq] at h
    rw [← h]
    refine ⟨p, rfl, h1, h2, ?_⟩
    intro ha
    apply h3
    rw [← e2.1, ha] at hstatus
    cases delivered with
    | true => rfl
    | false => simp at hstatus
  · intro h
    rw [ProposeJob_returns_iff fuel s w req hnode,
      submitJobToNode_no_request fuel s w.net req.NodeId req.Spec h]
    rfl
  · intro client hc ha
    rw [ProposeJob_returns_iff (fuel + 1) s w req hnode]
    exact submitJobToNode_returns fuel s w.net req.NodeId req.Spec (Or.inr (Or.inr ⟨client, hc, ha⟩))

theorem ProposeJob_makes_job_id_from_clock_witness :
    (twoNodes.ProposeJob 1 (World.at 5000000007 Net.accepting)
      ⟨"B", "type = \"cron\"\nschemaVersion = 1\nname = \"externalJobID\"", []⟩).isSome =
      true ∧
    (∀ r, twoNodes.ProposeJob 1 (World.at 5000000007 Net.accepting)
        ⟨"B", "type = \"cron\"\nschemaVersion = 1\nname = \"externalJobID\"", []⟩ = some r →
      ∃ p, r.1 = Except.ok ⟨p⟩ ∧ p.JobId = "job_5") ∧
    (twoJobs.ProposeJob 0 (World.at 5000000007 Net.accepting) ⟨"A", "", []⟩).isSome = true ∧
    ∀ r, twoJobs.ProposeJob 0 (World.at 5000000007 Net.accepting) ⟨"A", "", []⟩ = some r →
      ∃ p, r.1 = Except.ok ⟨p⟩ ∧ p.JobId = "job_5" := by
  refine ⟨?_, ?_, ?_, ?_⟩
  · exact (ProposeJob_makes_job_id_from_clock 0 twoNodes (World.at 5000000007 Net.accepting)
      ⟨"B", "type = \"cron\"\nschemaVersion = 1\nname = \"externalJobID\"", []⟩
      (by decide) (by decide)).2.2 (Client.sample "B") (by decide) (by decide)
  · intro r h
    obtain ⟨p, h1, h2, -, -⟩ :=
      (ProposeJob_makes_job_id_from_clock 1 twoNodes (World.at 5000000007 Net.accepting)
        ⟨"B", "type = \"cron\"\nschemaVersion = 1\nname = \"externalJobID\"", []⟩
        (by decide) (by decide)).1 r h
    exact ⟨p, h1, h2.trans (by decide)⟩
  · exact (ProposeJob_makes_job_id_from_clock 0 twoJobs (World.at 5000000007 Net.accepting)
      ⟨"A", "", []⟩ (by decide) (by decide)).2.1 (Or.inl (by decide))
  · intro r h
    obtain ⟨p, h1, h2, -, -⟩ :=
      (ProposeJob_makes_job_id_from_clock 0 twoJobs (World.at 5000000007 Net.accepting)
        ⟨"A", "", []⟩ (by decide) (by decide)).1 r h
    exact ⟨p, h1, h2.trans (by decide)⟩

/-! ## DeleteJob returns when the node call does -/

/-- C12, the claim as stated fails: DeleteJob does not return success for
every non-empty job id. For the job `jb`, which lives on node `B` with a
client, it returns nothing when the node answers 401 to every request. -/
theorem DeleteJob_does_not_return_on_401 :
    (twoJobs.storage.GetJob "jb").map (fun job => job.NodeId) = some "B" ∧
    twoJobs.chainlink.GetClient "B" = some (Client.sample "B") ∧
    ∀ fuel, twoJobs.DeleteJob fuel (World.at 0 Net.unauthorized) "jb" = none := by
  refine ⟨by decide, by decide, ?_⟩
  intro fuel
  exact DeleteJob_none_of_unauthorized fuel 0 twoJobs (World.at 0 Net.unauthorized) "jb"
    (Job.sample "jb" "B") (Client.sample "B") (by decide) (by decide) (by decide) rfl

/-- C12, amended: for every non-empty job id, DeleteJob returns exactly when
the node call returns: always when the job or the client cannot be resolved,
and, when they can, exactly when the client's DeleteJob returns, as it does
when the node answers the delete request with anything but a 401. Whenever it
returns it returns success. The Job is removed from Store if and only if the
Job exists, a client for its node is in the registry and that client's
DeleteJob call succeeds; when the node-side delete fails, or the job or the
client cannot be resolved, the whole Store is unchanged. Proposals and nodes are
never changed by DeleteJob, nor is any other job. It does not return when the
node of the job answers 401 to every request. -/
theorem DeleteJob_only_on_node_success (fuel : Nat) (s : JobDistributorServer) (w : World)
    (id : String) (hid : id ≠ "") :
    (s.storage.GetJob id = none → s.DeleteJob fuel w id = some (Except.ok (), s, w)) ∧
    (∀ job, s.storage.GetJob id = some job → s.chainlink.GetClient job.NodeId = none →
      s.DeleteJob fuel w id = some (Except.ok (), s, w)) ∧
    (∀ job client, s.storage.GetJob id = some job →
      s.chainlink.GetClient job.NodeId = some client →
      ((s.DeleteJob fuel w id).isSome = (client.DeleteJob fuel w.net id).isSome) ∧
      (w.net.answers (deleteJobRequest client id) = true →
        (s.DeleteJob (fuel + 1) w id).isSome = true) ∧
      (∀ sent, w.net = { Net.unauthorized with sent := sent } →
        s.DeleteJob fuel w id = none) ∧
      ∀ res c1 n1, client.DeleteJob fuel w.net id = some (res, c1, n1) →
        ∃ s', s.DeleteJob fuel w id = some (Except.ok (), s', { w with net := n1 }) ∧
          s'.storage.proposals = s.storage.proposals ∧
          s'.storage.nodes = s.storage.nodes ∧
          (∀ err, res = some err → s'.storage = s.storage) ∧
          (res = none → s'.storage.GetJob id = none ∧
            ∀ k, k ≠ id → s'.storage.GetJob k = s.storage.GetJob k)) := by
  obtain ⟨h1, h2, h3⟩ := DeleteJob_cases fuel s w id hid
  have iff : ∀ (f : Nat) job client, s.storage.GetJob id = some job →
      s.chainlink.GetClient job.NodeId = some client →
      (s.DeleteJob f w id).isSome = (client.DeleteJob f w.net id).isSome := by
    intro f job client hj hc
    cases hd : client.DeleteJob f w.net id with
    | none =>
      simp only [DeleteJob, hid, ne_eq, not_false_eq_true, if_true, deleteJobFromNode, hj, hc,
        hd]
      rfl
    | some out =>
      obtain ⟨res, c1, n1⟩ := out
      obtain ⟨s', e, -⟩ := (DeleteJob_cases f s w id hid).2.2 job client res c1 n1 hj hc hd
      rw [e]
      rfl
  refine ⟨h1, h2, ?_⟩
  intro job client hj hc
  refine ⟨iff fuel job client hj hc, ?_, ?_, ?_⟩
  · intro ha
    obtain ⟨r, hr⟩ := Client_DeleteJob_answered fuel client w.net id ha
    rw [iff (fuel + 1) job client hj hc, hr]
    rfl
  · intro sent hnet
    exact DeleteJob_none_of_unauthorized fuel sent s w id job client hid hj hc hnet
  · intro res c1 n1 hd
    exact h3 job client res c1 n1 hj hc hd

theorem DeleteJob_only_on_node_success_witness :
    twoJobs.DeleteJob 1 (World.at 0 Net.accepting) "ja" =
      some (Except.ok (), twoJobs, World.at 0 Net.accepting) ∧
    (twoJobs.DeleteJob 1 (World.at 0 Net.accepting) "jb").isSome = true ∧
    ∃ s', twoJobs.DeleteJob 1 (World.at 0 Net.accepting) "jb" =
        some (Except.ok (), s',
          { World.at 0 Net.accepting with net := { Net.accepting with sent := 1 } }) ∧
      s'.storage.proposals = twoJobs.storage.proposals ∧
      s'.storage.nodes = twoJobs.storage.nodes ∧
      (∀ err, (none : Option String) = some err → s'.storage = twoJobs.storage) ∧
      ((none : Option String) = none → s'.storage.GetJob "jb" = none ∧
        ∀ k, k ≠ "jb" → s'.storage.GetJob k = twoJobs.storage.GetJob k) :=
  ⟨(DeleteJob_only_on_node_success 1 twoJobs (World.at 0 Net.accepting) "ja" (by decide)).2.1
      (Job.sample "ja" "A") (by decide) (by decide),
    ((DeleteJob_only_on_node_success 0 twoJobs (World.at 0 Net.accepting) "jb" (by decide)).2.2
      (Job.sample "jb" "B") (Client.sample "B") (by decide) (by decide)).2.1 (by decide),
    ((DeleteJob_only_on_node_success 1 twoJobs (World.at 0 Net.accepting) "jb" (by decide)).2.2
      (Job.sample "jb" "B") (Client.sample "B") (by decide) (by decide)).2.2.2
      none (Client.sample "B") { Net.accepting with sent := 1 } (by rfl)⟩

/-! ## How often `doRequest` retries -/

/-- A response that `doRequest` returns never has status 401. -/
theorem doRequest_never_returns_401 (fuel : Nat) :
    ∀ (c : Client) (n : Net) (method path : String) (body : Payload)
      (headers : List (String × String)) (resp : Response) (c1 : Client) (n1 : Net),
      doRequest fuel c n method path body headers = some (Except.ok resp, c1, n1) →
      resp.StatusCode ≠ 401 := by
  induction fuel with
  | zero =>
    intro c n method path body headers resp c1 n1 h
    cases h
  | succ fuel ih =>
    intro c n method path body headers resp c1 n1 h
    unfold doRequest at h
    cases hn : n.newRequestErr method (c.BaseURL ++ path) with
    | some err => simp [hn] at h
    | none =>
      simp only [hn, Net.Do] at h
      cases ht : n.roundTrip n.sent (buildRequest c method path body headers) with
      | error err => simp [ht] at h
      | ok resp0 =>
        simp only [ht] at h
        by_cases hs : resp0.StatusCode = 401
        · simp only [hs, if_true] at h
          cases ha : authenticateVia (doRequest fuel) c { n with sent := n.sent + 1 } with
          | none => rw [ha] at h; cases h
          | some out =>
            obtain ⟨res, c0, n0⟩ := out
            rw [ha] at h
            cases res with
            | some err => simp at h
            | none => exact ih c0 n0 method path body.afterSend headers resp c1 n1 h
        · simp only [hs, if_false, Option.some.injEq, Prod.mk.injEq, Except.ok.injEq] at h
          rw [← h.1]
          exact hs

/-- Against a node that answers 401 to the next `m` attempts of a request and
accepts every session login, one call of `doRequest` logs in `m` times and
sends the request `m + 1` times. -/
theorem doRequest_expiringUntil (k m : Nat) :
    ∀ (s fuel : Nat) (c : Client) (method path : String) (body : Payload)
      (headers : List (String × String)),
      (∀ email password, body ≠ Payload.SessionRequest email password) → s + 2 * m = k →
      ∃ c1, doRequest (fuel + m + 1) c { Net.expiringUntil k with sent := s } method path body
          headers =
        some (Except.ok ⟨200, [], "ok", none⟩, c1,
          { Net.expiringUntil k with sent := s + 2 * m + 1 }) := by
  induction m with
  | zero =>
    intro s fuel c method path body headers hb hs
    have hk : ¬ s < k := by omega
    have hfirst : (({ Net.expiringUntil k with sent := s } : Net).Do
        (buildRequest c method path body headers)) =
        (Except.ok ⟨200, [], "ok", none⟩, { Net.expiringUntil k with sent := s + 1 }) := by
      cases body with
      | SessionRequest e p => exact absurd rfl (hb e p)
      | nil => simp [Net.Do, Net.expiringUntil, buildRequest, hk]
      | LoginRequest e p => simp [Net.Do, Net.expiringUntil, buildRequest, hk]
      | CreateJobRequest t => simp [Net.Do, Net.expiringUntil, buildRequest, hk]
      | drained => simp [Net.Do, Net.expiringUntil, buildRequest, hk]
    have hnew : ({ Net.expiringUntil k with sent := s } : Net).newRequestErr method
        (c.BaseURL ++ path) = none := rfl
    have hnew2 : (Net.expiringUntil k).newRequestErr method (c.BaseURL ++ path) = none := rfl
    refine ⟨c, ?_⟩
    show doRequest (fuel + 1) _ _ _ _ _ _ = _
    unfold doRequest
    simp only [hnew, hnew2, hfirst]
    rfl
  | succ m ih =>
    intro s fuel c method path body headers hb hs
    have hk : s < k := by omega
    have hfirst : (({ Net.expiringUntil k with sent := s } : Net).Do
        (buildRequest c method path body headers)) =
        (Except.ok ⟨401, [], "unauthorized", none⟩,
          { Net.expiringUntil k with sent := s + 1 }) := by
      cases body with
      | SessionRequest e p => exact absurd rfl (hb e p)
      | nil => simp [Net.Do, Net.expiringUntil, buildRequest, hk]
      | LoginRequest e p => simp [Net.Do, Net.expiringUntil, buildRequest, hk]
      | CreateJobRequest t => simp [Net.Do, Net.expiringUntil, buildRequest, hk]
      | drained => simp [Net.Do, Net.expiringUntil, buildRequest, hk]
    have hafter : ∀ email password, body.afterSend ≠ Payload.SessionRequest email password := by
      intro e p
      cases body <;> simp [Payload.afterSend]
    have hauth : authenticateVia (doRequest (fuel + m + 1)) c
        { Net.expiringUntil k with sent := s + 1 } =
        some (none, { c with SessionCookie := "fresh" },
          { Net.expiringUntil k with sent := s + 1 + 1 }) := rfl
    have hnew : ({ Net.expiringUntil k with sent := s } : Net).newRequestErr method
        (c.BaseURL ++ path) = none := rfl
    have hnew2 : (Net.expiringUntil k).newRequestErr method (c.BaseURL ++ path) = none := rfl
    obtain ⟨c1, h1⟩ := ih (s + 1 + 1) fuel { c with SessionCookie := "fresh" } method path
      body.afterSend headers hafter (by omega)
    refine ⟨c1, ?_⟩
    show doRequest (fuel + m + 1 + 1) _ _ _ _ _ _ = _
    unfold doRequest
    simp only [hnew, hnew2, hfirst, if_true, hauth]
    rw [h1]
    have e : s + 1 + 1 + 2 * m + 1 = s + 2 * (m + 1) + 1 := by omega
    rw [e]

/-- C19, amended: `doRequest` does not bound its retries. Each 401 is followed
by one re-authentication; when that fails the failure is reported, and when it
succeeds the request is attempted again by the same routine, which treats the
new attempt like the first. So a response it returns never has status 401;
for every `m` there is a node behaviour, 401 to `m` attempts of the request
while every session login succeeds, under which one call re-authenticates `m`
times and sends the request `m + 1` times before it returns; and when the node
answers 401 to every attempt while authentication keeps succeeding, the call
does not return. -/
theorem doRequest_retries_after_every_401 (fuel : Nat) (c : Client) (method path : String)
    (body : Payload) (headers : List (String × String)) :
    (∀ (n : Net) (resp : Response) (c1 : Client) (n1 : Net),
      n.newRequestErr method (c.BaseURL ++ path) = none →
      n.roundTrip n.sent (buildRequest c method path body headers) = Except.ok resp →
      resp.StatusCode = 401 →
      (Client.authenticate fuel c { n with sent := n.sent + 1 } = some (none, c1, n1) →
        doRequest (fuel + 1) c n method path body headers =
          doRequest fuel c1 n1 method path body.afterSend headers) ∧
      (∀ err, Client.authenticate fuel c { n with sent := n.sent + 1 } =
          some (some err, c1, n1) →
        doRequest (fuel + 1) c n method path body headers =
          some (Except.error ("re-authentication failed: " ++ err), c1, n1))) ∧
    (∀ (n : Net) (resp : Response) (c1 : Client) (n1 : Net),
      doRequest fuel c n method path body headers = some (Except.ok resp, c1, n1) →
      resp.StatusCode ≠ 401) ∧
    ((∀ email password, body ≠ Payload.SessionRequest email password) →
      (∀ m, (doRequest (fuel + m + 1) c (Net.expiringUntil (2 * m)) method path body
          headers).map (fun r => (r.1, r.2.2.sent)) =
        some (Except.ok ⟨200, [], "ok", none⟩, 2 * m + 1)) ∧
      doRequest fuel c Net.expiring method path body headers = none) := by
  refine ⟨?_, ?_, ?_⟩
  · intro n resp c1 n1 hnew htrip hs
    constructor
    · intro ha
      have ha2 : authenticateVia (doRequest fuel) c { n with sent := n.sent + 1 } =
          some (none, c1, n1) := ha
      conv_lhs => unfold doRequest
      simp only [hnew, Net.Do, htrip, hs, if_true, ha2]
    · intro err ha
      have ha2 : authenticateVia (doRequest fuel) c { n with sent := n.sent + 1 } =
          some (some err, c1, n1) := ha
      conv_lhs => unfold doRequest
      simp only [hnew, Net.Do, htrip, hs, if_true, ha2]
  · intro n resp c1 n1 h
    exact doRequest_never_returns_401 fuel c n method path body headers resp c1 n1 h
  · intro hb
    constructor
    · intro m
      obtain ⟨c1, h⟩ := doRequest_expiringUntil (2 * m) m 0 fuel c method path body headers hb
        (by omega)
      have e : ({ Net.expiringUntil (2 * m) with sent := 0 } : Net) =
          Net.expiringUntil (2 * m) := rfl
      rw [e] at h
      rw [h]
      simp
    · exact doRequest_expiring fuel 0 c method path body headers hb

theorem doRequest_retries_after_every_401_witness :
    (doRequest 3 (Client.sample "B") (Net.expiringUntil 4) "GET" "/v2/jobs" Payload.nil []).map
      (fun r => (r.1, r.2.2.sent)) = some (Except.ok ⟨200, [], "ok", none⟩, 5) ∧
    (doRequest 8 (Client.sample "B") (Net.expiringUntil 14) "GET" "/v2/jobs" Payload.nil []).map
      (fun r => (r.1, r.2.2.sent)) = some (Except.ok ⟨200, [], "ok", none⟩, 15) ∧
    doRequest 100 (Client.sample "B") Net.expiring "GET" "/v2/jobs" Payload.nil [] = none :=
  ⟨((doRequest_retries_after_every_401 0 (Client.sample "B") "GET" "/v2/jobs" Payload.nil []).2.2
      (fun _ _ h => by cases h)).1 2,
    ((doRequest_retries_after_every_401 0 (Client.sample "B") "GET" "/v2/jobs" Payload.nil []).2.2
      (fun _ _ h => by cases h)).1 7,
    ((doRequest_retries_after_every_401 100 (Client.sample "B") "GET" "/v2/jobs" Payload.nil
      []).2.2 (fun _ _ h => by cases h)).2⟩

/-! ## Jobs and their proposals once clients are registered

From a new server the service alone reaches no state that holds a job, since
it never adds a client. The statements below are about the states reached when
clients are registered with `AddNode` as well. -/

end JobDistributor
